import Mathlib

/-! # DeepSynth for Surge XT: response parsing, parameter mapping and patch database

A shallow embedding of `src/common/ClaudeAPIClient.cpp` (`APIClient::extractModifications`, the
API key and `APIClient::generateEnhancedPrompt`), of `src/common/ClaudeParameterMapper.cpp`
(`ParameterMapper`), and of the patch database of `src/common/PatchParameterExtractor.cpp` and
`src/common/PatchVectorDB.cpp`.

Conventions of the embedding:

* a `std::string` is the list of its characters (`Str`);
* a C++ `float` is an exact rational: rounding to the nearest representable value is not
  modelled, but the places where a conversion can fail (`std::stof` raising
  `std::out_of_range`, `static_cast<int>` of a value outside the range of `int`) are;
* `std::regex` (ECMAScript grammar) is modelled by a backtracking matcher over the constructs
  the two patterns of `extractModifications` use: character classes, greedy `*`, `+`, `?`,
  concatenation and capture groups.
-/

namespace Surge.Claude

/-- A `std::string`. -/
abbrev Str := List Char

/-! ## Character classes and string helpers -/

/-- The C locale `isspace`, which is also what `\s` means for `std::regex` over `char`. -/
def isSpace (c : Char) : Bool :=
  c == ' ' || c == '\t' || c == '\n' || c == '\x0b' || c == '\x0c' || c == '\r'

/-- Class `[0-9]`. -/
def isDigit (c : Char) : Bool := '0' ≤ c && c ≤ '9'

/-- Class `[a-zA-Z]`. -/
def isLetter (c : Char) : Bool := ('a' ≤ c && c ≤ 'z') || ('A' ≤ c && c ≤ 'Z')

/-- Class `[a-zA-Z0-9_\s]` of both patterns' first capture group. -/
def isNameChar (c : Char) : Bool := isLetter c || isDigit c || c == '_' || isSpace c

/-- Class `[-+]`. -/
def isSign (c : Char) : Bool := c == '-' || c == '+'

/-- Class `[eE]`. -/
def isExpMark (c : Char) : Bool := c == 'e' || c == 'E'

/-- Class `[^)]`. -/
def isNotClose (c : Char) : Bool := c != ')'

/-- The characters of `" \t\r\n"`, the set passed to `find_first_not_of` / `find_last_not_of`. -/
def isTrimChar (c : Char) : Bool := c == ' ' || c == '\t' || c == '\r' || c == '\n'

/-- The C locale `tolower` on one character. -/
def toLowerChar (c : Char) : Char :=
  if 'A' ≤ c && c ≤ 'Z' then Char.ofNat (c.toNat + 32) else c

/-- Lower-casing of a whole string: `std::transform(..., ::tolower)`. -/
def toLower (s : Str) : Str := s.map toLowerChar

/-- Whether `needle` occurs in `hay` at position 0. -/
def startsWith : Str → Str → Bool
  | _, [] => true
  | [], _ :: _ => false
  | h :: hay, n :: needle => h == n && startsWith hay needle

/-- The member `std::string::find(needle)`: position of the first occurrence, `none` for `npos`. -/
def find (hay needle : Str) : Option Nat :=
  match hay with
  | [] => if startsWith [] needle then some 0 else none
  | c :: rest =>
    if startsWith (c :: rest) needle then some 0
    else (find rest needle).map (· + 1)

/-- The test `s.find(needle) != std::string::npos`. -/
def contains (hay needle : Str) : Bool := (find hay needle).isSome

/-- The two `erase` calls that trim `" \t\r\n"` from both ends of a parameter name. -/
def trim (s : Str) : Str := (s.dropWhile isTrimChar).rdropWhile isTrimChar

/-! ## `std::stof` -/

/-- The two exceptions `std::stof` can raise. -/
inductive StofError
  | invalid_argument
  | out_of_range
deriving DecidableEq, Repr

/-- Value of a decimal digit character. -/
def digitVal (c : Char) : Nat := c.toNat - 48

/-- Value of a string of decimal digits. -/
def natOfDigits (ds : Str) : Nat := ds.foldl (fun n c => 10 * n + digitVal c) 0

/-- Ten to an integer power. -/
def pow10 (e : Int) : ℚ := if 0 ≤ e then (10 : ℚ) ^ e.toNat else 1 / (10 : ℚ) ^ (-e).toNat

/-- The exponent part that `strtof` reads after the mantissa: `e` or `E`, an optional sign and at
least one digit; anything else is not part of the number and counts as exponent 0. -/
def parseExponent : Str → Int
  | [] => 0
  | c :: rest =>
    if isExpMark c then
      match rest with
      | '-' :: ds => if (ds.takeWhile isDigit).isEmpty then 0 else -(natOfDigits (ds.takeWhile isDigit) : Int)
      | '+' :: ds => if (ds.takeWhile isDigit).isEmpty then 0 else (natOfDigits (ds.takeWhile isDigit) : Int)
      | ds => if (ds.takeWhile isDigit).isEmpty then 0 else (natOfDigits (ds.takeWhile isDigit) : Int)
    else 0

/-- The unsigned decimal number at the start of `s`, as `strtof` reads it: digits, an optional
point, digits, an optional exponent. `none` when there is no digit at all. -/
def parseUnsigned (s : Str) : Option ℚ :=
  let ip := s.takeWhile isDigit
  let afterInt := s.dropWhile isDigit
  let fp := match afterInt with
    | '.' :: r => r.takeWhile isDigit
    | _ => []
  let afterFrac := match afterInt with
    | '.' :: r => r.dropWhile isDigit
    | _ => afterInt
  if ip.isEmpty && fp.isEmpty then none
  else some ((natOfDigits (ip ++ fp) : ℚ) / (10 : ℚ) ^ fp.length * pow10 (parseExponent afterFrac))

/-- The exact value `strtof` converts the start of `s` to: leading white space, an optional sign,
then an unsigned decimal number. (Hexadecimal, `inf` and `nan` forms are left out: no token matched
by the patterns starts with them.) -/
def parseDecimal (s : Str) : Option ℚ :=
  match s.dropWhile isSpace with
  | '-' :: r => (parseUnsigned r).map (fun q => -q)
  | '+' :: r => parseUnsigned r
  | r => parseUnsigned r

/-- Magnitude from which a value rounds beyond the largest finite `float`
(`FLT_MAX` plus half a unit in the last place): `2^128 - 2^103`. -/
def floatOverflow : ℚ := 2 ^ 128 - 2 ^ 103

/-- Smallest positive normal `float`, `2^-126`. -/
def floatMinNormal : ℚ := 1 / 2 ^ 126

/-- The function `std::stof(token)`. It raises `invalid_argument` when no conversion can be made and
`out_of_range` when `strtof` reports `ERANGE`. On overflow `ERANGE` is always reported. For a
non-zero result below the normal range the C standard leaves it to the implementation whether
`ERANGE` is reported; `erangeOnUnderflow` is that choice. -/
def stof (erangeOnUnderflow : ℚ → Bool) (token : Str) : Except StofError ℚ :=
  match parseDecimal token with
  | none => .error .invalid_argument
  | some q =>
    if floatOverflow ≤ |q| then .error .out_of_range
    else if q ≠ 0 ∧ |q| < floatMinNormal ∧ erangeOnUnderflow q = true then .error .out_of_range
    else .ok q

/-! ## `std::regex` -/

/-- The regular expressions of the two patterns: a character class, a greedy starred class,
concatenation, a greedy optional part, and a numbered capture group. -/
inductive Regex
  | cls (p : Char → Bool)
  | star (p : Char → Bool)
  | cat (a b : Regex)
  | opt (a : Regex)
  | group (n : Nat) (a : Regex)

/-- One or more characters of a class, greedy: `[...]+`. -/
def Regex.plus (p : Char → Bool) : Regex := .cat (.cls p) (.star p)

/-- The sub-matches of a match: `caps n` is the text of group `n`, `none` when the group did not
take part in the match. -/
abbrev Caps := Nat → Option Str

/-- No group matched. -/
def Caps.empty : Caps := fun _ => none

/-- Record the text of group `n`. -/
def Caps.set (c : Caps) (n : Nat) (v : Str) : Caps := fun m => if m = n then some v else c m

/-- Greedy `p*` followed by the continuation `k`: take as many characters of the class as
possible, and give characters back one at a time while the continuation fails. -/
def starMatch {α : Type} (p : Char → Bool) (k : Str → Option α) : Str → Option α
  | [] => k []
  | c :: s =>
    if p c then
      match starMatch p k s with
      | some r => some r
      | none => k (c :: s)
    else k (c :: s)

/-- Backtracking match of `re` at the start of `s`, continuing with `k` on what is left.
The alternatives are tried in the priority order of the ECMAScript grammar (greedy first), and
the first one on which the continuation succeeds is the result. -/
def Regex.run {α : Type} : Regex → Str → Caps → (Str → Caps → Option α) → Option α
  | .cls p, s, caps, k =>
    match s with
    | [] => none
    | c :: rest => if p c then k rest caps else none
  | .star p, s, caps, k => starMatch p (fun rest => k rest caps) s
  | .cat a b, s, caps, k => a.run s caps (fun rest caps1 => b.run rest caps1 k)
  | .opt a, s, caps, k =>
    match a.run s caps k with
    | some r => some r
    | none => k s caps
  | .group n a, s, caps, k =>
    a.run s caps (fun rest caps1 => k rest (caps1.set n (s.take (s.length - rest.length))))

/-- A match: its sub-matches and the text after its end. -/
structure Match where
  caps : Caps
  rest : Str

/-- A match of `re` that starts exactly at the start of `s`. -/
def matchHere (re : Regex) (s : Str) : Option Match :=
  re.run s Caps.empty (fun rest caps => some ⟨caps, rest⟩)

/-- The function `std::regex_search`: the match at the leftmost position that has one. -/
def regexSearch (re : Regex) : Str → Option Match
  | [] => matchHere re []
  | c :: s =>
    match matchHere re (c :: s) with
    | some m => some m
    | none => regexSearch re s

/-- The successive matches an `std::sregex_iterator` walks through: each search starts where the
previous match ended. Both patterns need at least one character, so a match is never empty and
`fuel` bounds the number of matches by the length of the text. -/
def regexIterate (re : Regex) : Nat → Str → List Caps
  | 0, _ => []
  | fuel + 1, s =>
    match regexSearch re s with
    | none => []
    | some m => m.caps :: regexIterate re fuel m.rest

/-- All matches of `re` in `s`, in order: the range `sregex_iterator(s.begin(), s.end(), re)` up
to the end iterator. -/
def regexMatches (re : Regex) (s : Str) : List Caps := regexIterate re (s.length + 1) s

/-- The mantissa `[0-9]*\.?[0-9]+` of the number pattern. -/
def mantissaRegex : Regex :=
  .cat (.star isDigit) (.cat (.opt (.cls (· == '.'))) (Regex.plus isDigit))

/-- The optional exponent `(?:[eE][-+]?[0-9]+)?` of the number pattern. -/
def exponentRegex : Regex :=
  .opt (.cat (.cls isExpMark) (.cat (.opt (.cls isSign)) (Regex.plus isDigit)))

/-- The number pattern `([-+]?[0-9]*\.?[0-9]+(?:[eE][-+]?[0-9]+)?)`, capture group 2. -/
def numberRegex : Regex :=
  .group 2 (.cat (.opt (.cls isSign)) (.cat mantissaRegex exponentRegex))

/-- The optional description `(?:\s*\(([^)]*)\))?`, capture group 3. -/
def descriptionRegex : Regex :=
  .opt (.cat (.star isSpace) (.cat (.cls (· == '(')) (.cat (.group 3 (.star isNotClose))
    (.cls (· == ')')))))

/-- The pattern `altParamRegex`:
`([a-zA-Z0-9_\s]+):\s*([-+]?[0-9]*\.?[0-9]+(?:[eE][-+]?[0-9]+)?)(?:\s*\(([^)]*)\))?`. -/
def altParamRegex : Regex :=
  .cat (.group 1 (Regex.plus isNameChar)) (.cat (.cls (· == ':')) (.cat (.star isSpace)
    (.cat numberRegex descriptionRegex)))

/-- The pattern `paramRegex`: a dash, `\s*`, and then the same as `altParamRegex`. -/
def paramRegex : Regex :=
  .cat (.cls (· == '-')) (.cat (.star isSpace) altParamRegex)

/-! ## `APIClient::extractModifications` -/

/-- The struct `PatchModification`. -/
structure PatchModification where
  parameterName : Str
  value : ℚ
  description : Str
deriving DecidableEq

/-- The body of the first loop: one modification per match of `paramRegex`. (`match.size()` is
always 4, so the test `match.size() >= 3` holds.) -/
def dashLoop (erangeOnUnderflow : ℚ → Bool) :
    List Caps → Except StofError (List PatchModification)
  | [] => .ok []
  | m :: ms =>
    match stof erangeOnUnderflow ((m 2).getD []) with
    | .error e => .error e
    | .ok v =>
      match dashLoop erangeOnUnderflow ms with
      | .error e => .error e
      | .ok mods => .ok (⟨trim ((m 1).getD []), v, (m 3).getD []⟩ :: mods)

/-- The body of the second loop, over the matches of `altParamRegex`: a match whose trimmed name
is `PARAMETERS` or empty is skipped before its value is converted. -/
def altLoop (erangeOnUnderflow : ℚ → Bool) :
    List Caps → Except StofError (List PatchModification)
  | [] => .ok []
  | m :: ms =>
    if trim ((m 1).getD []) = "PARAMETERS".toList ∨ trim ((m 1).getD []) = [] then
      altLoop erangeOnUnderflow ms
    else
      match stof erangeOnUnderflow ((m 2).getD []) with
      | .error e => .error e
      | .ok v =>
        match altLoop erangeOnUnderflow ms with
        | .error e => .error e
        | .ok mods => .ok (⟨trim ((m 1).getD []), v, (m 3).getD []⟩ :: mods)

/-- Where the parameters section starts: the first `PARAMETERS:`, else the first `parameters:` of
the lower-cased text, else nowhere. -/
def parametersPos (responseText : Str) : Option Nat :=
  match find responseText "PARAMETERS:".toList with
  | some p => some p
  | none => find (toLower responseText) "parameters:".toList

/-- The function `APIClient::extractModifications`. An exception of `std::stof` leaves the function;
it is the `error` result. -/
def extractModifications (erangeOnUnderflow : ℚ → Bool) (responseText : Str) :
    Except StofError (List PatchModification) :=
  match parametersPos responseText with
  | none => .ok []
  | some pos =>
    let parametersSection := responseText.drop pos
    match dashLoop erangeOnUnderflow (regexMatches paramRegex parametersSection) with
    | .error e => .error e
    | .ok modifications =>
      if modifications.isEmpty then
        altLoop erangeOnUnderflow (regexMatches altParamRegex parametersSection)
      else .ok modifications

/-! ## `ParameterMapper` -/

/-- The enum `valtypes` of Surge's `Parameter`. -/
inductive ValType
  | vt_int
  | vt_bool
  | vt_float
deriving DecidableEq

/-- What the mapper reads and writes of a Surge `Parameter`: its three names, its value type, and
the members `.i` and `.f` of the unions `val`, `val_min` and `val_max`. The mapper itself only
touches the `.i` members; the `.f` members are there for the host's side. -/
structure Parameter where
  fullName : Str
  oscName : Str
  internalName : Str
  valtype : ValType
  val_i : Int
  val_min_i : Int
  val_max_i : Int
  val_f : ℚ
  val_min_f : ℚ
  val_max_f : ℚ
deriving DecidableEq

/-- The patch of the synthesizer: the table `param_ptr`, whose entries may be null, and the flag
`isDirty`. -/
structure Patch where
  param_ptr : List (Option Parameter)
  isDirty : Bool
deriving DecidableEq

/-- The functions of the host synthesizer and of the platform that the mapper calls and whose
code is not part of this unit: `Parameter::value_to_normalized`, `Parameter::get_value_f01`,
`SurgeSynthesizer::setParameter01` (the parameter is given by its position in `param_ptr`), and
the result of `static_cast<int>` on a value whose truncation does not fit an `int`, which the
language leaves undefined. -/
structure Host where
  value_to_normalized : Parameter → ℚ → ℚ
  get_value_f01 : Parameter → ℚ
  setParameter01 : Patch → Nat → ℚ → Patch
  castOutOfRange : ℚ → Int

/-- Truncation toward zero. -/
def truncate (v : ℚ) : Int := if 0 ≤ v then ⌊v⌋ else ⌈v⌉

/-- The conversion `static_cast<int>(value)`: truncation toward zero when the result fits a 32 bit
`int`, and whatever the platform yields otherwise. -/
def staticCastInt (host : Host) (value : ℚ) : Int :=
  if -2 ^ 31 ≤ truncate value ∧ truncate value < 2 ^ 31 then truncate value
  else host.castOutOfRange value

/-- A `std::unordered_map<std::string, int>`: its entries, with distinct keys. -/
abbrev IndexMap := List (Str × Int)

/-- The member `find` of the map: the value stored for a key. -/
def IndexMap.find : IndexMap → Str → Option Int
  | [], _ => none
  | (k, v) :: m, key => if k = key then some v else IndexMap.find m key

/-- The assignment `map[key] = v`: the value of an existing key is replaced, a new key is
added. -/
def IndexMap.assign : IndexMap → Str → Int → IndexMap
  | [], key, v => [(key, v)]
  | (k, w) :: m, key, v => if k = key then (k, v) :: m else (k, w) :: IndexMap.assign m key v

/-- The static table `ParameterMapper::parameterAliases`, in the order of its initializer list. -/
def parameterAliases : List (Str × Str) := [
  ("osc1_type".toList, "A Osc 1 Type".toList),
  ("osc2_type".toList, "A Osc 2 Type".toList),
  ("osc3_type".toList, "A Osc 3 Type".toList),
  ("osc1_pitch".toList, "A Osc 1 Pitch".toList),
  ("osc2_pitch".toList, "A Osc 2 Pitch".toList),
  ("osc3_pitch".toList, "A Osc 3 Pitch".toList),
  ("osc1_volume".toList, "A Osc 1 Volume".toList),
  ("osc2_volume".toList, "A Osc 2 Volume".toList),
  ("osc3_volume".toList, "A Osc 3 Volume".toList),
  ("oscillator_drift".toList, "Osc Drift".toList),
  ("fm_depth".toList, "FM Depth".toList),
  ("filter1_type".toList, "A Filter 1 Type".toList),
  ("filter2_type".toList, "A Filter 2 Type".toList),
  ("filter1_cutoff".toList, "A Filter 1 Cutoff".toList),
  ("filter2_cutoff".toList, "A Filter 2 Cutoff".toList),
  ("filter1_resonance".toList, "A Filter 1 Resonance".toList),
  ("filter2_resonance".toList, "A Filter 2 Resonance".toList),
  ("filter_cutoff".toList, "A Filter 1 Cutoff".toList),
  ("filter_resonance".toList, "A Filter 1 Resonance".toList),
  ("filter_type".toList, "A Filter 1 Type".toList),
  ("highpass".toList, "A Highpass".toList),
  ("filter_feedback".toList, "A Feedback".toList),
  ("amp_attack".toList, "A Amp EG Attack".toList),
  ("amp_decay".toList, "A Amp EG Decay".toList),
  ("amp_sustain".toList, "A Amp EG Sustain".toList),
  ("amp_release".toList, "A Amp EG Release".toList),
  ("filter_attack".toList, "A Filter EG Attack".toList),
  ("filter_decay".toList, "A Filter EG Decay".toList),
  ("filter_sustain".toList, "A Filter EG Sustain".toList),
  ("filter_release".toList, "A Filter EG Release".toList),
  ("lfo1_rate".toList, "A LFO 1 Rate".toList),
  ("lfo1_shape".toList, "A LFO 1 Type".toList),
  ("lfo1_amount".toList, "A LFO 1 Amplitude".toList),
  ("lfo2_rate".toList, "A LFO 2 Rate".toList),
  ("lfo2_shape".toList, "A LFO 2 Type".toList),
  ("lfo2_amount".toList, "A LFO 2 Amplitude".toList),
  ("master_volume".toList, "Global Volume".toList),
  ("volume".toList, "A Volume".toList),
  ("amp_gain".toList, "A VCA Gain".toList),
  ("pan".toList, "A Pan".toList),
  ("width".toList, "A Width".toList),
  ("fx_reverb_mix".toList, "Send FX 1 Return".toList),
  ("fx_delay_mix".toList, "Send FX 2 Return".toList),
  ("fx_chorus_mix".toList, "Send FX 1 Return".toList),
  ("reverb_mix".toList, "Send FX 1 Return".toList),
  ("delay_mix".toList, "Send FX 2 Return".toList),
  ("cutoff".toList, "Filter 1 Cutoff".toList),
  ("resonance".toList, "Filter 1 Resonance".toList),
  ("attack".toList, "Amp EG Attack".toList),
  ("decay".toList, "Amp EG Decay".toList),
  ("sustain".toList, "Amp EG Sustain".toList),
  ("release".toList, "Amp EG Release".toList),
  ("scene_b_osc1_type".toList, "B Osc 1 Type".toList),
  ("scene_b_osc2_type".toList, "B Osc 2 Type".toList),
  ("scene_b_osc3_type".toList, "B Osc 3 Type".toList),
  ("scene_b_filter1_cutoff".toList, "B Filter 1 Cutoff".toList),
  ("scene_b_filter2_cutoff".toList, "B Filter 2 Cutoff".toList),
  ("scene_b_filter1_resonance".toList, "B Filter 1 Resonance".toList),
  ("scene_b_filter2_resonance".toList, "B Filter 2 Resonance".toList),
  ("scene_b_amp_attack".toList, "B Amp EG Attack".toList),
  ("scene_b_amp_decay".toList, "B Amp EG Decay".toList),
  ("scene_b_amp_sustain".toList, "B Amp EG Sustain".toList),
  ("scene_b_amp_release".toList, "B Amp EG Release".toList)]

/-- What the C++ library leaves open about the two hash tables that the mapper walks through: the
order in which a `for` loop over `nameToIndexMap` meets its entries, and the order in which the
loop of `buildAliasMap` meets the entries of `parameterAliases`. -/
structure Runtime where
  nameOrder : IndexMap → IndexMap
  aliasWalk : List (Str × Str)

/-- A walk through a table meets every entry exactly once. -/
def Runtime.Valid (rt : Runtime) : Prop :=
  (∀ m : IndexMap, (rt.nameOrder m).Perm m) ∧ rt.aliasWalk.Perm parameterAliases

/-- The three maps of a `ParameterMapper`. -/
structure ParameterMapper where
  nameToIndexMap : IndexMap
  oscNameToIndexMap : IndexMap
  aliasToIndexMap : IndexMap

/-- One turn of the loop of `buildParameterMaps` for a non-null parameter at position `i`: it is
entered under its display name and its internal name in `nameToIndexMap` and under its OSC name
in `oscNameToIndexMap`, each time also in lower case; empty OSC and internal names are not
entered. -/
def registerParameter (maps : IndexMap × IndexMap) (i : Nat) (param : Parameter) :
    IndexMap × IndexMap :=
  let names1 := (maps.1.assign param.fullName i).assign (toLower param.fullName) i
  let oscs :=
    if param.oscName.isEmpty then maps.2
    else (maps.2.assign param.oscName i).assign (toLower param.oscName) i
  let names2 :=
    if param.internalName.isEmpty then names1
    else (names1.assign param.internalName i).assign (toLower param.internalName) i
  (names2, oscs)

/-- The loop of `buildParameterMaps` over `param_ptr` from position `i` on; null entries are
passed over. -/
def buildNameMaps : List (Option Parameter) → Nat → IndexMap × IndexMap → IndexMap × IndexMap
  | [], _, maps => maps
  | none :: ps, i, maps => buildNameMaps ps (i + 1) maps
  | some param :: ps, i, maps => buildNameMaps ps (i + 1) (registerParameter maps i param)

/-- The index `buildAliasMap` finds for the target of an alias: the index of the exact key, else
that of the first key, in the order of the walk, that contains the target. -/
def aliasTarget (rt : Runtime) (nameToIndexMap : IndexMap) (target : Str) : Option Int :=
  match nameToIndexMap.find target with
  | some i => some i
  | none => ((rt.nameOrder nameToIndexMap).find? (fun pair => contains pair.1 target)).map (·.2)

/-- One turn of the loop of `buildAliasMap`. -/
def aliasStep (rt : Runtime) (nameToIndexMap : IndexMap) (aliasToIndexMap : IndexMap)
    (entry : Str × Str) : IndexMap :=
  match aliasTarget rt nameToIndexMap entry.2 with
  | some i => (aliasToIndexMap.assign entry.1 i).assign (toLower entry.1) i
  | none => aliasToIndexMap

/-- The function `ParameterMapper::buildAliasMap`, on the cleared `aliasToIndexMap`. -/
def buildAliasMap (rt : Runtime) (nameToIndexMap : IndexMap) : IndexMap :=
  rt.aliasWalk.foldl (aliasStep rt nameToIndexMap) []

/-- The function `ParameterMapper::buildParameterMaps` (which the constructor calls) on the table
`param_ptr` of the synthesizer's patch. -/
def buildParameterMaps (rt : Runtime) (param_ptr : List (Option Parameter)) : ParameterMapper :=
  let maps := buildNameMaps param_ptr 0 ([], [])
  ⟨maps.1, maps.2, buildAliasMap rt maps.1⟩

/-- The test of the first partial-match loop of `findParameterIndex`: the key is not one of
Scene B and its lower-case form contains the lower-case name. -/
def sceneAMatch (lowerName : Str) (pair : Str × Int) : Bool :=
  !(contains (toLower pair.1) " b ".toList || contains (toLower pair.1) "scene b".toList)
    && contains (toLower pair.1) lowerName

/-- The test of the second partial-match loop. -/
def anyMatch (lowerName : Str) (pair : Str × Int) : Bool :=
  contains (toLower pair.1) lowerName

/-- The function `ParameterMapper::findParameterIndex`. -/
def findParameterIndex (rt : Runtime) (m : ParameterMapper) (name : Str) : Int :=
  match m.aliasToIndexMap.find (toLower name) with
  | some i => i
  | none =>
    match m.nameToIndexMap.find name with
    | some i => i
    | none =>
      match m.nameToIndexMap.find (toLower name) with
      | some i => i
      | none =>
        match m.oscNameToIndexMap.find (toLower name) with
        | some i => i
        | none =>
          match (rt.nameOrder m.nameToIndexMap).find? (sceneAMatch (toLower name)) with
          | some pair => pair.2
          | none =>
            match (rt.nameOrder m.nameToIndexMap).find? (anyMatch (toLower name)) with
            | some pair => pair.2
            | none => -1

/-- The value the discrete branch writes to `val.i`: the requested value converted to `int` and,
when `val_max.i > val_min.i`, clamped to the range. -/
def discreteValue (host : Host) (param : Parameter) (value : ℚ) : Int :=
  if param.val_max_i > param.val_min_i then
    max param.val_min_i (min param.val_max_i (staticCastInt host value))
  else staticCastInt host value

/-- The value the continuous branch passes to `setParameter01`: the requested value, or its
`value_to_normalized` when it lies outside `[0, 1]`, clamped to `[0, 1]`. -/
def continuousValue (host : Host) (param : Parameter) (value : ℚ) : ℚ :=
  max 0 (min 1 (if value > 1 ∨ value < 0 then host.value_to_normalized param value else value))

/-- The block that `setParameterFromName` and `tryParameterVariations` both run once an index is
found: a null entry gives `false`; otherwise the value is written through the discrete or the
continuous branch, the patch is marked dirty and the result is `true`. An index outside the
table is treated like a null entry. -/
def applyValue (host : Host) (paramName : Str) (value : ℚ) (paramIndex : Nat) (patch : Patch) :
    Bool × Patch :=
  match patch.param_ptr[paramIndex]? with
  | some (some param) =>
    let patch1 :=
      if param.valtype = ValType.vt_int ∨ contains paramName "_type".toList = true then
        let param1 := { param with val_i := discreteValue host param value }
        host.setParameter01 { patch with param_ptr := patch.param_ptr.set paramIndex (some param1) }
          paramIndex (host.get_value_f01 param1)
      else host.setParameter01 patch paramIndex (continuousValue host param value)
    (true, { patch1 with isDirty := true })
  | _ => (false, patch)

/-- The six variations of `tryParameterVariations`, in the order they are tried. -/
def variations (baseName : Str) : List Str :=
  ["A ".toList ++ baseName, "B ".toList ++ baseName, baseName ++ " 1".toList,
   baseName ++ " 2".toList, "A ".toList ++ baseName ++ " 1".toList,
   "A ".toList ++ baseName ++ " 2".toList]

/-- The loop of `tryParameterVariations`: the first variation that `findParameterIndex` resolves
decides the result. -/
def tryVariationList (host : Host) (rt : Runtime) (m : ParameterMapper) (baseName : Str)
    (value : ℚ) (patch : Patch) : List Str → Bool × Patch
  | [] => (false, patch)
  | variation :: rest =>
    if findParameterIndex rt m variation ≥ 0 then
      applyValue host baseName value (findParameterIndex rt m variation).toNat patch
    else tryVariationList host rt m baseName value patch rest

/-- The function `ParameterMapper::tryParameterVariations`. -/
def tryParameterVariations (host : Host) (rt : Runtime) (m : ParameterMapper) (baseName : Str)
    (value : ℚ) (patch : Patch) : Bool × Patch :=
  tryVariationList host rt m baseName value patch (variations baseName)

/-- The function `ParameterMapper::setParameterFromName`: its result and the patch it leaves. -/
def setParameterFromName (host : Host) (rt : Runtime) (m : ParameterMapper) (paramName : Str)
    (value : ℚ) (patch : Patch) : Bool × Patch :=
  if findParameterIndex rt m paramName ≥ 0 then
    applyValue host paramName value (findParameterIndex rt m paramName).toNat patch
  else tryParameterVariations host rt m paramName value patch

/-- The state of the loop of `applyModifications`. -/
structure ApplyState where
  allSuccess : Bool
  successCount : Nat
  patch : Patch

/-- The loop of `applyModifications`. -/
def applyLoop (host : Host) (rt : Runtime) (m : ParameterMapper) :
    List PatchModification → ApplyState → ApplyState
  | [], st => st
  | mod :: rest, st =>
    let r := setParameterFromName host rt m mod.parameterName mod.value st.patch
    if r.1 then applyLoop host rt m rest ⟨st.allSuccess, st.successCount + 1, r.2⟩
    else applyLoop host rt m rest ⟨false, st.successCount, r.2⟩

/-- The function `ParameterMapper::applyModifications`: its result and the patch it leaves. -/
def applyModifications (host : Host) (rt : Runtime) (m : ParameterMapper)
    (modifications : List PatchModification) (patch : Patch) : Bool × Patch :=
  let st := applyLoop host rt m modifications ⟨true, 0, patch⟩
  (st.allSuccess, if st.successCount > 0 then { st.patch with isDirty := true } else st.patch)

/-! ## The response formats the claims speak of -/

/-- Letters, digits and underscore: the characters of a parameter name. -/
def isWordChar (c : Char) : Bool := isLetter c || isDigit c || c == '_'

/-- The character of a decimal digit. -/
def digitChar (d : Fin 10) : Char := Char.ofNat (48 + d.val)

/-- A decimal literal: an optional sign (`some true` is `-`, `some false` is `+`), the digits
before the point and, optionally, a point with the digits after it. -/
structure Literal where
  sign : Option Bool
  intDigits : List (Fin 10)
  fracDigits : Option (List (Fin 10))
deriving DecidableEq

/-- The digits after the point, none when there is no fraction. -/
def Literal.frac (l : Literal) : List (Fin 10) := l.fracDigits.getD []

/-- There is at least one digit before the point and, if there is a point, after it. -/
def Literal.WellFormed (l : Literal) : Prop := l.intDigits ≠ [] ∧ l.fracDigits ≠ some []

instance (l : Literal) : Decidable l.WellFormed := by
  unfold Literal.WellFormed; infer_instance

/-- The text of the sign. -/
def Literal.signText (l : Literal) : Str :=
  match l.sign with
  | some true => ['-']
  | some false => ['+']
  | none => []

/-- The text of the fraction. -/
def Literal.fracText (l : Literal) : Str :=
  match l.fracDigits with
  | some f => '.' :: f.map digitChar
  | none => []

/-- The text of a literal. -/
def Literal.render (l : Literal) : Str :=
  l.signText ++ l.intDigits.map digitChar ++ l.fracText

/-- The number a literal denotes. -/
def Literal.value (l : Literal) : ℚ :=
  (if l.sign = some true then -1 else 1) *
    ((Nat.ofDigits 10 ((l.intDigits ++ l.frac).map Fin.val).reverse : ℕ) : ℚ) / 10 ^ l.frac.length

/-- The number a literal denotes is zero or has the magnitude of a normal `float`. -/
def Literal.InFloatRange (l : Literal) : Prop :=
  l.value = 0 ∨ (floatMinNormal ≤ |l.value| ∧ |l.value| < floatOverflow)

/-- A line `- name: number` or `- name: number (description)` of a response. -/
structure ParamLine where
  name : Str
  number : Literal
  description : Option Str
deriving DecidableEq

/-- The name is a non-empty word, the number a decimal literal, and the description has no `)`. -/
def ParamLine.WellFormed (l : ParamLine) : Prop :=
  l.name ≠ [] ∧ l.name.all isWordChar = true ∧ l.number.WellFormed ∧
    (l.description.getD []).all isNotClose = true

instance (l : ParamLine) : Decidable l.WellFormed := by
  unfold ParamLine.WellFormed; infer_instance

/-- The text of the description with its parentheses, after one blank. -/
def ParamLine.descriptionText (l : ParamLine) : Str :=
  match l.description with
  | some d => " (".toList ++ d ++ [')']
  | none => []

/-- The text `name: number` or `name: number (description)`. -/
def ParamLine.body (l : ParamLine) : Str :=
  l.name ++ ": ".toList ++ l.number.render ++ l.descriptionText

/-- The dashed line, ended by a newline. -/
def ParamLine.render (l : ParamLine) : Str := "- ".toList ++ l.body ++ ['\n']

/-- The modification a line stands for. -/
def ParamLine.toModification (l : ParamLine) : PatchModification :=
  ⟨l.name, l.number.value, l.description.getD []⟩

/-- The response `PARAMETERS:` followed by the given dashed lines. -/
def dashedResponse (lines : List ParamLine) : Str :=
  "PARAMETERS:\n".toList ++ (lines.map ParamLine.render).flatten

/-- The sub-matches of a line: the name with what was matched before it, the number, and the
description when there is one. -/
def lineCaps (pre : Str) (l : ParamLine) : Caps :=
  match l.description with
  | some d => ((Caps.empty.set 1 (pre ++ l.name)).set 2 l.number.render).set 3 d
  | none => (Caps.empty.set 1 (pre ++ l.name)).set 2 l.number.render

/-- Whether a text begins with a digit, or with a point and a digit. -/
def startsUnsigned : Str → Bool
  | c :: d :: _ => isDigit c || (c == '.' && isDigit d)
  | [c] => isDigit c
  | [] => false

/-- Whether a text begins with a number: an optional sign, then a digit or a point and a digit. -/
def startsNumber : Str → Bool
  | [] => false
  | c :: r => if isSign c then startsUnsigned r else startsUnsigned (c :: r)

/-- A line of a dashed response: a well-formed parameter line, or a line `- name: token` whose
token is not a number. -/
inductive ResponseLine
  | param (l : ParamLine)
  | malformed (name token : Str)
deriving DecidableEq

/-- The text of a line, ended by a newline. -/
def ResponseLine.render : ResponseLine → Str
  | .param l => l.render
  | .malformed name token => "- ".toList ++ name ++ ": ".toList ++ token ++ ['\n']

/-- A parameter line is well formed with a number in the range of `float`; a malformed line has
a word for a name and a token without a dash that, after its leading white space, does not begin
with a number. -/
def ResponseLine.Admissible : ResponseLine → Prop
  | .param l => l.WellFormed ∧ l.number.InFloatRange
  | .malformed name token =>
    name.all isWordChar = true ∧ '-' ∉ token ∧ startsNumber (token.dropWhile isSpace) = false

/-- What a line should contribute: its modification, or nothing. -/
def ResponseLine.toModification? : ResponseLine → Option PatchModification
  | .param l => some l.toModification
  | .malformed _ _ => none

/-- The response `PARAMETERS:` followed by the given lines. -/
def mixedResponse (lines : List ResponseLine) : Str :=
  "PARAMETERS:\n".toList ++ (lines.map ResponseLine.render).flatten

/-- The sub-matches the first loop should see: those of the parameter lines. -/
def expectedCaps : List ResponseLine → List Caps
  | [] => []
  | .param l :: ls => lineCaps [] l :: expectedCaps ls
  | .malformed _ _ :: ls => expectedCaps ls

/-- Number of parameter lines. -/
def paramCount : List ResponseLine → Nat
  | [] => 0
  | .param _ :: ls => paramCount ls + 1
  | .malformed _ _ :: ls => paramCount ls

/-- The response `PARAMETERS:` followed by lines `name: number` without a leading dash. -/
def plainResponse (lines : List ParamLine) : Str :=
  "PARAMETERS:\n".toList ++ (lines.map (fun l => l.body ++ ['\n'])).flatten

/-- A line of the format without dashes: well formed, with an unsigned number in the range of
`float` and no description. -/
def ParamLine.Plain (l : ParamLine) : Prop :=
  l.WellFormed ∧ l.number.InFloatRange ∧ l.description = none ∧ l.number.sign = none

/-- The lines the second loop does not skip: those whose name is not the header word. -/
def notHeader (lines : List ParamLine) : List ParamLine :=
  lines.filter (fun l => decide (l.name ≠ "PARAMETERS".toList))

/-- The same text as `plainResponse` without its first eleven characters, cut before each
newline: every line preceded by the newline that ends the previous one. -/
def plainTail (lines : List ParamLine) : Str :=
  (lines.map (fun l => '\n' :: l.body)).flatten ++ ['\n']

instance (l : Literal) : Decidable l.InFloatRange := by
  unfold Literal.InFloatRange; infer_instance

instance (l : ParamLine) : Decidable l.Plain := by
  unfold ParamLine.Plain; infer_instance

instance (l : ResponseLine) : Decidable l.Admissible := by
  cases l <;> unfold ResponseLine.Admissible <;> infer_instance

deriving instance DecidableEq for Except

/-- Whether a text is exactly digits, optionally followed by a point and digits. -/
def isUnsignedLiteral (t : Str) : Bool :=
  !(t.takeWhile isDigit).isEmpty &&
    match t.dropWhile isDigit with
    | [] => true
    | '.' :: f => !f.isEmpty && f.all isDigit
    | _ => false

/-- Whether a text is exactly a decimal literal: an optional sign, digits, an optional
fraction. -/
def isDecimalLiteral : Str → Bool
  | '-' :: t => isUnsignedLiteral t
  | '+' :: t => isUnsignedLiteral t
  | t => isUnsignedLiteral t

/-- The lines as claim C4 describes them: a well-formed parameter line, or a line whose name is a
word and whose token is anything but a decimal literal. -/
def ResponseLine.AsStated : ResponseLine → Prop
  | .param l => l.WellFormed ∧ l.number.InFloatRange
  | .malformed name token => name.all isWordChar = true ∧ isDecimalLiteral token = false

instance (l : ResponseLine) : Decidable l.AsStated := by
  cases l <;> unfold ResponseLine.AsStated <;> infer_instance

/-- The line `- a: 1000000000000000000000000000000000000000`, whose number is `10^39`. -/
def overflowLine : ParamLine :=
  ⟨"a".toList, ⟨none, 1 :: List.replicate 39 0, none⟩, none⟩

/-- The lines `- osc1_type: 2 (Wavetable)`, `- filter1_cutoff: 0.5` and `- pan: -0.25`. -/
def sampleLines : List ParamLine :=
  [⟨"osc1_type".toList, ⟨none, [2], none⟩, some "Wavetable".toList⟩,
   ⟨"filter1_cutoff".toList, ⟨none, [0], some [5]⟩, none⟩,
   ⟨"pan".toList, ⟨some true, [0], some [2, 5]⟩, none⟩]

/-- The lines `osc1_type: 1` and `filter1_resonance: 0.3` of the unit test. -/
def samplePlainLines : List ParamLine :=
  [⟨"osc1_type".toList, ⟨none, [1], none⟩, none⟩,
   ⟨"filter1_resonance".toList, ⟨none, [0], some [3]⟩, none⟩]

/-- The line `PARAMETERS: 5`. -/
def headerNameLine : ParamLine := ⟨"PARAMETERS".toList, ⟨none, [5], none⟩, none⟩

/-- The line `1abc: 5`. -/
def digitNameLine : ParamLine := ⟨"1abc".toList, ⟨none, [5], none⟩, none⟩

/-- The lines of the integration test on malformed values: `- osc1_type: abc`,
`- filter1_cutoff: 0.5`, `- amp_attack: `, `- volume: 0.8.5`, `- good_param: 0.3`. -/
def malformedTestLines : List ResponseLine :=
  [.malformed "osc1_type".toList "abc".toList,
   .param ⟨"filter1_cutoff".toList, ⟨none, [0], some [5]⟩, none⟩,
   .malformed "amp_attack".toList [],
   .malformed "volume".toList "0.8.5".toList,
   .param ⟨"good_param".toList, ⟨none, [0], some [3]⟩, none⟩]

/-- The same lines without the line `- volume: 0.8.5`. -/
def skippedTestLines : List ResponseLine :=
  [.malformed "osc1_type".toList "abc".toList,
   .param ⟨"filter1_cutoff".toList, ⟨none, [0], some [5]⟩, none⟩,
   .malformed "amp_attack".toList [],
   .param ⟨"good_param".toList, ⟨none, [0], some [3]⟩, none⟩]

/-! ## What the claims on `ParameterMapper` speak of -/

/-- Applying `setParameterFromName` to each modification in turn: the result of every call, and
the patch after the last one. -/
def applySequence (host : Host) (rt : Runtime) (m : ParameterMapper) :
    List PatchModification → Patch → List Bool × Patch
  | [], patch => ([], patch)
  | mod :: rest, patch =>
    let r := setParameterFromName host rt m mod.parameterName mod.value patch
    let s := applySequence host rt m rest r.2
    (r.1 :: s.1, s.2)

/-- A runtime that walks both tables in the order of their entries. -/
def plainRuntime : Runtime := ⟨id, parameterAliases⟩

/-- The normalized value of a parameter for a host that maps the range of a parameter linearly
onto `[0, 1]` (integer parameters with the margins `0.005` that Surge leaves at both ends). -/
def linearValue01 (p : Parameter) : ℚ :=
  match p.valtype with
  | .vt_float => (p.val_f - p.val_min_f) / (p.val_max_f - p.val_min_f)
  | .vt_int => 5 / 1000 + 99 / 100 * (p.val_i - p.val_min_i) / (p.val_max_i - p.val_min_i)
  | .vt_bool => if p.val_i = 0 then 0 else 1

/-- The parameter after the linear host has set it to a normalized value. -/
def linearSet01 (p : Parameter) (v : ℚ) : Parameter :=
  match p.valtype with
  | .vt_float => { p with val_f := v * (p.val_max_f - p.val_min_f) + p.val_min_f }
  | .vt_int =>
    { p with val_i :=
        truncate (100 / 99 * (v - 5 / 1000) * (p.val_max_i - p.val_min_i) + 1 / 2) + p.val_min_i }
  | .vt_bool => { p with val_i := if v > 1 / 2 then 1 else 0 }

/-- The normalized form of a value for the same host, clamped to `[0, 1]`. -/
def linearNormalized (p : Parameter) (v : ℚ) : ℚ :=
  match p.valtype with
  | .vt_float => max 0 (min 1 ((v - p.val_min_f) / (p.val_max_f - p.val_min_f)))
  | .vt_int =>
    max 0 (min 1 (5 / 1000 + 99 / 100 * (v - p.val_min_i) / (p.val_max_i - p.val_min_i)))
  | .vt_bool => if v > 1 / 2 then 1 else 0

/-- A host that maps the range of every parameter linearly onto `[0, 1]`, and whose conversion
to `int` yields the smallest `int` for a value out of range (as the x86 conversion does). -/
def linearHost : Host where
  value_to_normalized := linearNormalized
  get_value_f01 := linearValue01
  setParameter01 := fun patch i v =>
    match patch.param_ptr[i]? with
    | some (some p) => { patch with param_ptr := patch.param_ptr.set i (some (linearSet01 p v)) }
    | _ => patch
  castOutOfRange := fun _ => -2 ^ 31

/-- A filter cutoff: a continuous parameter with the range `[-60, 70]`, at `3`. -/
def cutoffParam : Parameter :=
  ⟨"A Filter 1 Cutoff".toList, "/param/a/filter/1/cutoff".toList, "cutoff".toList,
    .vt_float, 0, 0, 0, 3, -60, 70⟩

/-- An oscillator type: an integer parameter with the range `[0, 11]`, at `0`. -/
def oscTypeParam : Parameter :=
  ⟨"A Osc 1 Type".toList, "/param/a/osc/1/type".toList, "type".toList,
    .vt_int, 0, 0, 11, 0, 0, 0⟩

/-- A patch with a null entry between the two parameters. -/
def samplePatch : Patch := ⟨[some cutoffParam, none, some oscTypeParam], false⟩

/-- The mapper built for `samplePatch`. -/
def sampleMapper : ParameterMapper := buildParameterMaps plainRuntime samplePatch.param_ptr

/-- Every index stored in a map is a position of the table `param_ptr` with a non-null entry. -/
def IndexMap.ValidFor (m : IndexMap) (param_ptr : List (Option Parameter)) : Prop :=
  ∀ pair ∈ m, ∃ (j : Nat) (p : Parameter), pair.2 = (j : Int) ∧ param_ptr[j]? = some (some p)

/-- The string is a key of the map. -/
def IndexMap.HasKey (m : IndexMap) (key : Str) : Prop := ∃ pair ∈ m, pair.1 = key

/-- The index `setParameterFromName` works with: the one `findParameterIndex` returns for the
name when it is not negative, else the one it returns for the first variation with such an
index. -/
def resolvedIndex (rt : Runtime) (m : ParameterMapper) (name : Str) : Option Nat :=
  if findParameterIndex rt m name ≥ 0 then some (findParameterIndex rt m name).toNat
  else ((variations name).find? (fun v => findParameterIndex rt m v ≥ 0)).map
    (fun v => (findParameterIndex rt m v).toNat)

/-- Sending an integer parameter, whose value lies in its non-empty range, its own normalized
value through `setParameter01` leaves the parameter as it is. -/
def Host.KeepsOwnValue (host : Host) : Prop :=
  ∀ (patch : Patch) (i : Nat) (p : Parameter), patch.param_ptr[i]? = some (some p) →
    p.valtype = ValType.vt_int → p.val_min_i < p.val_max_i → p.val_min_i ≤ p.val_i →
    p.val_i ≤ p.val_max_i →
    (host.setParameter01 patch i (host.get_value_f01 p)).param_ptr[i]? = some (some p)

/-! ## The API key of `APIClient` (`src/common/ClaudeAPIClient.cpp`) -/

/-- The part of an `APIClient` the key functions touch: the member `apiKey`, and the value kept
under `ClaudeAPIKey` in the user defaults of the storage. -/
structure APIClient where
  apiKey : Str
  userDefaultKey : Str
deriving DecidableEq, Repr

/-- The method `APIClient::setAPIKey`: assigns the member and writes the user default. -/
def APIClient.setAPIKey (client : APIClient) (key : Str) : APIClient :=
  { client with apiKey := key, userDefaultKey := key }

/-- The method `APIClient::getAPIKey`. -/
def APIClient.getAPIKey (client : APIClient) : Str := client.apiKey

/-- The method `APIClient::isAPIKeyValid`: `!apiKey.empty()`. -/
def APIClient.isAPIKeyValid (client : APIClient) : Bool := !client.apiKey.isEmpty

end Surge.Claude

/-! # The patch database (`src/common/PatchParameterExtractor.cpp`, `src/common/PatchVectorDB.cpp`)

The numbers of this part are taken in an ordered field `K`, so that the definitions can be run
over the rationals and read over the reals; `std::sqrt` is an argument of the functions that
call it.
-/

namespace Surge.PatchDB

open Surge.Claude

/-! ## `ExtractedPatchData::toNormalizedVector` -/

/-- The structure `ExtractedPatchData::SceneData`. -/
structure SceneData (K : Type) where
  osc1_type : Int
  osc2_type : Int
  osc3_type : Int
  osc1_pitch : K
  osc2_pitch : K
  osc3_pitch : K
  filter1_type : Int
  filter2_type : Int
  filter1_cutoff : K
  filter2_cutoff : K
  filter1_resonance : K
  filter2_resonance : K
  amp_attack : K
  amp_decay : K
  amp_sustain : K
  amp_release : K
  filter_attack : K
  filter_decay : K
  filter_sustain : K
  filter_release : K
  lfo1_rate : K
  lfo2_rate : K
  lfo1_shape : Int
  lfo2_shape : Int

/-- The structure `ExtractedPatchData::FXData`. -/
structure FXData (K : Type) where
  enabled : Bool
  type : Int
  params : List K

/-- The structure `ExtractedPatchData`. -/
structure ExtractedPatchData (K : Type) where
  name : Str
  category : Str
  author : Str
  comment : Str
  sceneA : SceneData K
  sceneB : SceneData K
  volume : K
  fx : List (FXData K)

section Field

variable {K : Type} [LinearOrderedField K]

/-- The two entries pushed for one FX slot: `enabled ? 1.0f : 0.0f`, then `params[0]` when the
slot has parameters and `0.0f` when it has none. -/
def fxSlotEntries (slot : FXData K) : List K :=
  [if slot.enabled then 1 else 0, match slot.params with | [] => 0 | p :: _ => p]

/-- The FX loop, over `i < std::min(fx.size(), size_t(8))`. -/
def fxEntries (fx : List (FXData K)) : List K :=
  ((fx.take 8).map fxSlotEntries).flatten

/-- The entries pushed before the FX loop, in the order of the source: Scene A (indices 0 to
23), the four key parameters of Scene B (24 to 27) and the volume (28). -/
def fixedEntries (d : ExtractedPatchData K) : List K :=
  [ (d.sceneA.osc1_type : K) / 15, (d.sceneA.osc2_type : K) / 15, (d.sceneA.osc3_type : K) / 15,
    (d.sceneA.osc1_pitch + 60) / 120, (d.sceneA.osc2_pitch + 60) / 120,
    (d.sceneA.osc3_pitch + 60) / 120,
    (d.sceneA.filter1_type : K) / 12, (d.sceneA.filter2_type : K) / 12,
    d.sceneA.filter1_cutoff, d.sceneA.filter2_cutoff,
    d.sceneA.filter1_resonance, d.sceneA.filter2_resonance,
    d.sceneA.amp_attack, d.sceneA.amp_decay, d.sceneA.amp_sustain, d.sceneA.amp_release,
    d.sceneA.filter_attack, d.sceneA.filter_decay, d.sceneA.filter_sustain,
    d.sceneA.filter_release,
    d.sceneA.lfo1_rate, d.sceneA.lfo2_rate,
    (d.sceneA.lfo1_shape : K) / 8, (d.sceneA.lfo2_shape : K) / 8,
    (d.sceneB.osc1_type : K) / 15, d.sceneB.filter1_cutoff, d.sceneB.amp_attack,
    d.sceneB.amp_release,
    d.volume ]

/-- The closing loop `while (vec.size() < 50) vec.push_back(0.0f)`. -/
def padTo50 (vec : List K) : List K := vec ++ List.replicate (50 - vec.length) 0

/-- The method `ExtractedPatchData::toNormalizedVector`. -/
def toNormalizedVector (d : ExtractedPatchData K) : List K :=
  padTo50 (fixedEntries d ++ fxEntries d.fx)

end Field

/-! ## `PatchVector` and `VectorDatabase` -/

/-- The structure `PatchVector`. -/
structure PatchVector (K : Type) where
  name : Str
  category : Str
  author : Str
  description : Str
  parameterVector : List K
  textEmbedding : List K
  filePath : Str
  tags : List (Str × Str)

/-- The conversion `(int)` of a `size_t` to the 32-bit `int`. -/
def castInt (n : Nat) : Int := (((n + 2 ^ 31) % 2 ^ 32 : Nat) : Int) - 2 ^ 31

/-- The patches of a `VectorDatabase`. Their number is below 2^31, as the conversions
`(int)similarities.size()` and `(int)scores.size()` of the two searches suppose. -/
structure VectorDatabase (K : Type) where
  patches : List (PatchVector K)
  fits : patches.length < 2 ^ 31

section Field

variable {K : Type} [LinearOrderedField K]

/-- The loop of `cosineSimilarity`, carrying `dotProduct`, `normA` and `normB` over the
indices the two vectors share. -/
def similarityLoop : List K → List K → K × K × K → K × K × K
  | x :: xs, y :: ys, (dotProduct, normA, normB) =>
    similarityLoop xs ys (dotProduct + x * y, normA + x * x, normB + y * y)
  | _, _, acc => acc

/-- The method `PatchVector::cosineSimilarity`, with `std::sqrt` as an argument. -/
def cosineSimilarity (sqrt : K → K) (self other : PatchVector K) : K :=
  if self.parameterVector.length ≠ other.parameterVector.length then 0
  else
    match similarityLoop self.parameterVector other.parameterVector (0, 0, 0) with
    | (dotProduct, normA, normB) =>
      if normA = 0 ∨ normB = 0 then 0
      else dotProduct / (sqrt normA * sqrt normB)

/-- What `std::sort` promises for the comparator `a.first > b.first`: the result holds the
same pairs, and no pair comes before one of a greater score. The order of pairs of equal score
is left to the library. -/
def IsDescendingSort (sort : List (K × Nat) → List (K × Nat)) : Prop :=
  ∀ l, (sort l).Perm l ∧ (sort l).Pairwise (fun a b => b.1 ≤ a.1)

/-- The pairs `(score, index)` of a loop over the patches, from index `i` on, keeping those
the filter accepts. -/
def scorePairs (score : PatchVector K → K) (keep : K → Bool) :
    Nat → List (PatchVector K) → List (K × Nat)
  | _, [] => []
  | i, p :: ps =>
    if keep (score p) then (score p, i) :: scorePairs score keep (i + 1) ps
    else scorePairs score keep (i + 1) ps

/-- The closing loop of both searches: the patches at the indices of the first
`std::min(topK, (int)pairs.size())` pairs. -/
def topResults (patches : List (PatchVector K)) (pairs : List (K × Nat)) (topK : Int) :
    List (PatchVector K) :=
  (pairs.take (min topK (castInt pairs.length)).toNat).filterMap (fun pair => patches[pair.2]?)

/-- The method `VectorDatabase::findSimilarPatches`: every patch is scored by the cosine
similarity of the query to it, the pairs are sorted by decreasing score, and the first `topK`
are returned. -/
def findSimilarPatches (sqrt : K → K) (sort : List (K × Nat) → List (K × Nat))
    (db : VectorDatabase K) (query : PatchVector K) (topK : Int) : List (PatchVector K) :=
  topResults db.patches
    (sort (scorePairs (fun p => cosineSimilarity sqrt query p) (fun _ => true) 0 db.patches))
    topK

/-- The words `iss >> word` reads from a string: its maximal runs of characters that are not
white space. The first argument is the word being read. -/
def wordsLoop : Str → Str → List Str
  | word, [] => if word.isEmpty then [] else [word]
  | word, c :: s =>
    if isSpace c then (if word.isEmpty then wordsLoop [] s else word :: wordsLoop [] s)
    else wordsLoop (word ++ [c]) s

/-- The words of a string. -/
def words (s : Str) : List Str := wordsLoop [] s

/-- The score `findSimilarByText` gives a patch name: 1.0 when the name contains the query,
else 0.8 when the query contains the name, and 0.3 more for every word of the query the name
contains. -/
def textScore (queryLower nameLower : Str) : K :=
  (words queryLower).foldl
    (fun score word => if contains nameLower word then score + 3 / 10 else score)
    (if contains nameLower queryLower then 1
     else if contains queryLower nameLower then 8 / 10 else 0)

/-- The method `VectorDatabase::findSimilarByText`: the patches of positive score, sorted by
decreasing score, the first `topK` of them. -/
def findSimilarByText (sort : List (K × Nat) → List (K × Nat))
    (db : VectorDatabase K) (description : Str) (topK : Int) : List (PatchVector K) :=
  topResults db.patches
    (sort (scorePairs (fun p => textScore (toLower description) (toLower p.name))
      (fun score => decide (score > 0)) 0 db.patches))
    topK

end Field


/-! ## Notions used to state the properties of the patch database -/

section Field

variable {K : Type} [LinearOrderedField K]

/-- The fields `toNormalizedVector` reads lie in their ranges: the oscillator types in 0..15,
the pitches in [-60, 60], the filter types in 0..12, the LFO shapes in 0..8, the other fields
in [0, 1], and so does the first parameter of each of the FX slots read. -/
def InputsInRange (d : ExtractedPatchData K) : Prop :=
  (∀ t ∈ [d.sceneA.osc1_type, d.sceneA.osc2_type, d.sceneA.osc3_type, d.sceneB.osc1_type],
    0 ≤ t ∧ t ≤ 15) ∧
  (∀ p ∈ [d.sceneA.osc1_pitch, d.sceneA.osc2_pitch, d.sceneA.osc3_pitch], -60 ≤ p ∧ p ≤ 60) ∧
  (∀ t ∈ [d.sceneA.filter1_type, d.sceneA.filter2_type], 0 ≤ t ∧ t ≤ 12) ∧
  (∀ s ∈ [d.sceneA.lfo1_shape, d.sceneA.lfo2_shape], 0 ≤ s ∧ s ≤ 8) ∧
  (∀ x ∈ [d.sceneA.filter1_cutoff, d.sceneA.filter2_cutoff, d.sceneA.filter1_resonance,
      d.sceneA.filter2_resonance, d.sceneA.amp_attack, d.sceneA.amp_decay, d.sceneA.amp_sustain,
      d.sceneA.amp_release, d.sceneA.filter_attack, d.sceneA.filter_decay,
      d.sceneA.filter_sustain, d.sceneA.filter_release, d.sceneA.lfo1_rate, d.sceneA.lfo2_rate,
      d.sceneB.filter1_cutoff, d.sceneB.amp_attack, d.sceneB.amp_release, d.volume],
    0 ≤ x ∧ x ≤ 1) ∧
  (∀ slot ∈ d.fx.take 8, ∀ p ∈ slot.params.take 1, 0 ≤ p ∧ p ≤ 1)

end Field

/-- A scene with every field at zero. -/
def zeroScene : SceneData ℚ :=
  { osc1_type := 0, osc2_type := 0, osc3_type := 0, osc1_pitch := 0, osc2_pitch := 0,
    osc3_pitch := 0, filter1_type := 0, filter2_type := 0, filter1_cutoff := 0,
    filter2_cutoff := 0, filter1_resonance := 0, filter2_resonance := 0, amp_attack := 0,
    amp_decay := 0, amp_sustain := 0, amp_release := 0, filter_attack := 0, filter_decay := 0,
    filter_sustain := 0, filter_release := 0, lfo1_rate := 0, lfo2_rate := 0, lfo1_shape := 0,
    lfo2_shape := 0 }

/-- The patch data of the test "ExtractedPatchData Normalization", with two FX slots added. -/
def samplePatchData : ExtractedPatchData ℚ :=
  { name := "Test Patch".toList, category := "Test".toList, author := [], comment := [],
    sceneA := { zeroScene with
      osc1_type := 2, osc1_pitch := 12, filter1_cutoff := 7 / 10, amp_attack := 3 / 10 },
    sceneB := { zeroScene with
      osc1_type := 1, filter1_cutoff := 1 / 2, amp_attack := 1 / 5, amp_release := 4 / 5 },
    volume := 9 / 10,
    fx := [⟨true, 3, [1 / 4, 5]⟩, ⟨false, 0, []⟩] }

section Field

variable {K : Type} [LinearOrderedField K]

/-- The cosine similarity of the query to the patch at a position of the database. -/
def similarityAt (sqrt : K → K) (db : VectorDatabase K) (query : PatchVector K) (i : Nat) : K :=
  match db.patches[i]? with
  | some p => cosineSimilarity sqrt query p
  | none => 0

/-- The name of the patch, compared without regard to letter case, contains the query, is
contained in the query, or contains one of the words of the query. -/
def nameMatches (query : Str) (p : PatchVector K) : Bool :=
  contains (toLower p.name) (toLower query) || contains (toLower query) (toLower p.name) ||
    (words (toLower query)).any (fun word => contains (toLower p.name) word)

/-- A sorting function that keeps the promise of `std::sort`: insertion sort. -/
def insertionSortDescending (l : List (K × Nat)) : List (K × Nat) :=
  l.insertionSort (fun a b => b.1 ≤ a.1)

/-- A patch vector with a name and parameters only. -/
def namedPatch (name : String) (parameterVector : List K) : PatchVector K :=
  { name := name.toList, category := [], author := [], description := [],
    parameterVector := parameterVector, textEmbedding := [], filePath := [], tags := [] }

/-- The database of the test "Vector-based Similarity Search". -/
def vectorTestDatabase : VectorDatabase K :=
  { patches := [namedPatch "Reference" [1, 0, 0, 0, 0],
      namedPatch "Similar" [9 / 10, 1 / 10, 0, 0, 0],
      namedPatch "Different" [0, 1, 0, 0, 0]],
    fits := by simp }

/-- The database of the test "Text-based Similarity Search". -/
def textTestDatabase : VectorDatabase K :=
  { patches := [namedPatch "Deep Bass" [1 / 10, 2 / 10, 3 / 10],
      namedPatch "Smooth Bass" [2 / 10, 3 / 10, 4 / 10],
      namedPatch "Bright Lead" [8 / 10, 9 / 10, 7 / 10]],
    fits := by simp }

end Field

/-- The name of the patch, compared without regard to letter case, contains the whole query. -/
def containsQuery {K : Type} (query : Str) (p : PatchVector K) : Bool :=
  contains (toLower p.name) (toLower query)

/-- The string `w` is one of the white space separated words of `s`: a non-empty run of
characters that are not white space, which begins at the start of `s` or right after a white
space character, and ends at the end of `s` or right before a white space character. -/
def IsWordOf (w s : Str) : Prop :=
  w ≠ [] ∧ (∀ c ∈ w, isSpace c = false) ∧
    ∃ pre post, s = pre ++ w ++ post ∧ (∀ c, pre.getLast? = some c → isSpace c = true) ∧
      (∀ c, post.head? = some c → isSpace c = true)

/-- The name of the patch, compared without regard to letter case, contains the query, is
contained in the query, or contains one of the white space separated words of the query. This
is stated without the functions of the search: with sublists and `IsWordOf`. -/
def MatchesQuery {K : Type} (query : Str) (p : PatchVector K) : Prop :=
  toLower query <:+: toLower p.name ∨ toLower p.name <:+: toLower query ∨
    ∃ w, IsWordOf w (toLower query) ∧ w <:+: toLower p.name

end Surge.PatchDB

namespace Surge.Claude

/-! ## Notions used to state the properties of the scene preference and of the marker -/

/-- A runtime whose loop over `nameToIndexMap` meets the entries entered last first. -/
def reverseRuntime : Runtime := ⟨List.reverse, parameterAliases⟩

/-- The filter cutoff of Scene B. -/
def cutoffParamB : Parameter :=
  ⟨"B Filter 1 Cutoff".toList, "/param/b/filter/1/cutoff".toList, "cutoff".toList,
    .vt_float, 0, 0, 0, 3, -60, 70⟩

/-- A parameter table with the filter cutoff of Scene A at index 0 and its Scene B counterpart
at index 1. -/
def sceneTable : List (Option Parameter) := [some cutoffParam, some cutoffParamB]

/-- Whether a number starts in the text after some of its leading white space. -/
def numberAfterSpace : Str → Bool
  | [] => false
  | c :: s => startsNumber (c :: s) || (isSpace c && numberAfterSpace s)

/-- A response whose second parameter line carries a number beyond the range of `float`. -/
def overflowResponse : Str := "PARAMETERS:\n- osc1_type: 2\n- volume: 1e39\n".toList

/-! ## `APIClient::generateEnhancedPrompt` (`src/common/ClaudeAPIClient.cpp`) -/

open Surge.PatchDB

/-- The comparison `a < b` of two `std::string`: lexicographic, character by character, a
proper beginning of a string being less than the string. -/
def strLt : Str → Str → Bool
  | _, [] => false
  | [], _ :: _ => true
  | a :: s, b :: t => decide (a < b) || (a == b && strLt s t)

/-- The keywords of `extractSearchTerms`. -/
def searchKeywords : List Str :=
  ["bass", "lead", "pad", "pluck", "arp", "chord", "string",
   "brass", "bell", "organ", "piano", "ep", "electric",
   "ambient", "atmospheric", "warm", "bright", "dark", "soft",
   "hard", "aggressive", "gentle", "smooth", "rough", "clean",
   "distorted", "filtered", "resonant", "fm", "wavetable",
   "analog", "digital", "vintage", "modern", "classic"].map String.toList

/-- The function `APIClient::extractSearchTerms`: the keywords the lower-cased prompt contains,
in the order of the keyword list; the prompt itself when it contains none. -/
def extractSearchTerms (prompt : Str) : List Str :=
  if (searchKeywords.filter (fun keyword => contains (toLower prompt) keyword)).isEmpty then
    [prompt]
  else searchKeywords.filter (fun keyword => contains (toLower prompt) keyword)

/-- The loop of `std::unique` with the predicate `a.name == b.name`: an element is dropped when
its name is that of the element kept last. -/
def uniqueLoop {K : Type} : PatchVector K → List (PatchVector K) → List (PatchVector K)
  | _, [] => []
  | kept, p :: ps =>
    if kept.name = p.name then uniqueLoop kept ps else p :: uniqueLoop p ps

/-- The call `erase(std::unique(...), end())` with the predicate `a.name == b.name`. -/
def uniqueByName {K : Type} : List (PatchVector K) → List (PatchVector K)
  | [] => []
  | p :: ps => p :: uniqueLoop p ps

/-- What `std::sort` promises for the comparator `a.name < b.name`: the result holds the same
patches, and no patch comes before one of a lesser name. -/
def IsNameSort {K : Type} (sortByName : List (PatchVector K) → List (PatchVector K)) : Prop :=
  ∀ l, (sortByName l).Perm l ∧ (sortByName l).Pairwise (fun a b => strLt b.name a.name = false)

/-- The line `formatSimilarPatches` writes for a patch: `- name (category)`, then `: ` and the
description when there is one, then a newline. -/
def formatPatchLine {K : Type} (patch : PatchVector K) : Str :=
  "- ".toList ++ patch.name ++ " (".toList ++ patch.category ++ ")".toList ++
    (if patch.description.isEmpty then [] else ": ".toList ++ patch.description) ++ "\n".toList

/-- The function `APIClient::formatSimilarPatches`. -/
def formatSimilarPatches {K : Type} (patches : List (PatchVector K)) : Str :=
  (patches.map formatPatchLine).flatten

/-- The sentence that introduces the reference patches. -/
def referenceHeader : Str :=
  "For reference, here are some similar patches from the factory library:\n".toList

/-- The sentence that closes the enhanced prompt. -/
def referenceFooter : Str :=
  "\nUse these as inspiration but create something new based on the user's request.".toList

/-- The patches `generateEnhancedPrompt` gathers: the results of `findSimilarByText(term, 3)`
for the search terms, one after the other. -/
def gatherSimilarPatches {K : Type} [LinearOrderedField K]
    (sort : List (K × Nat) → List (K × Nat)) (db : VectorDatabase K) (userPrompt : Str) :
    List (PatchVector K) :=
  ((extractSearchTerms userPrompt).map (fun term => findSimilarByText sort db term 3)).flatten

/-- The reference patches of `generateEnhancedPrompt`: the gathered patches sorted by name,
without repeated names, cut down to five. -/
def referencePatches {K : Type} [LinearOrderedField K]
    (sort : List (K × Nat) → List (K × Nat))
    (sortByName : List (PatchVector K) → List (PatchVector K)) (db : VectorDatabase K)
    (userPrompt : Str) : List (PatchVector K) :=
  if (uniqueByName (sortByName (gatherSimilarPatches sort db userPrompt))).length > 5 then
    (uniqueByName (sortByName (gatherSimilarPatches sort db userPrompt))).take 5
  else uniqueByName (sortByName (gatherSimilarPatches sort db userPrompt))

/-- The function `APIClient::generateEnhancedPrompt`. The member `vectorDatabase`, a pointer
that is null or not, is an argument, and so are the two calls of `std::sort`. -/
def generateEnhancedPrompt {K : Type} [LinearOrderedField K]
    (sort : List (K × Nat) → List (K × Nat))
    (sortByName : List (PatchVector K) → List (PatchVector K))
    (vectorDatabase : Option (VectorDatabase K)) (userPrompt : Str) : Str :=
  match vectorDatabase with
  | none => userPrompt
  | some db =>
    if (referencePatches sort sortByName db userPrompt).isEmpty then userPrompt
    else userPrompt ++ "\n\n".toList ++ referenceHeader ++
      formatSimilarPatches (referencePatches sort sortByName db userPrompt) ++ referenceFooter

/-- A sorting function that keeps the promise of `std::sort` for the names: insertion sort. -/
def insertionSortByName {K : Type} (l : List (PatchVector K)) : List (PatchVector K) :=
  l.insertionSort (fun a b => strLt b.name a.name = false)

/-! ## Lemmas on the string helpers -/

theorem startsWith_iff (hay needle : Str) : startsWith hay needle = true ↔ needle <+: hay := by
  induction needle generalizing hay with
  | nil => simp [startsWith]
  | cons n needle ih =>
    cases hay with
    | nil => simp [startsWith]
    | cons h hay =>
      simp only [startsWith, Bool.and_eq_true, beq_iff_eq, ih, List.cons_prefix_cons]
      constructor
      · rintro ⟨rfl, h2⟩; exact ⟨rfl, h2⟩
      · rintro ⟨rfl, h2⟩; exact ⟨rfl, h2⟩

theorem find_eq_none_iff (hay needle : Str) : find hay needle = none ↔ ¬ needle <:+: hay := by
  induction hay with
  | nil =>
    simp only [find]
    split
    · rename_i h
      simp only [startsWith_iff] at h
      simp [h.isInfix]
    · rename_i h
      simp only [startsWith_iff] at h
      simp only [true_iff]
      intro hi
      exact h (List.infix_nil.mp hi ▸ List.prefix_refl _)
  | cons c rest ih =>
    simp only [find]
    split
    · rename_i h
      simp only [startsWith_iff] at h
      simp [h.isInfix]
    · rename_i h
      simp only [startsWith_iff] at h
      simp only [Option.map_eq_none', ih, List.infix_cons_iff, not_or]
      exact ⟨fun h2 => ⟨h, h2⟩, fun h2 => h2.2⟩

theorem find_of_startsWith (hay needle : Str) (h : needle <+: hay) : find hay needle = some 0 := by
  cases hay with
  | nil => simp [find, (startsWith_iff _ _).2 h]
  | cons c rest => simp [find, (startsWith_iff _ _).2 h]

/-! ## Lemmas on characters -/

theorem digitChar_isDigit (d : Fin 10) : isDigit (digitChar d) = true := by
  revert d; decide

theorem digitVal_digitChar (d : Fin 10) : digitVal (digitChar d) = d.val := by
  revert d; decide

theorem isSpace_cases {c : Char} (h : isSpace c = true) :
    c = ' ' ∨ c = '\t' ∨ c = '\n' ∨ c = '\x0b' ∨ c = '\x0c' ∨ c = '\r' := by
  simpa [isSpace, or_assoc] using h

theorem isDigit_not_isSpace {c : Char} (h : isDigit c = true) : isSpace c = false := by
  cases hs : isSpace c with
  | false => rfl
  | true =>
    rcases isSpace_cases hs with rfl | rfl | rfl | rfl | rfl | rfl <;> exact absurd h (by decide)

theorem isDigit_ne {c : Char} (h : isDigit c = true) (x : Char) (hx : isDigit x = false) :
    c ≠ x := by
  rintro rfl; simp [h] at hx

theorem isWordChar_not_isSpace {c : Char} (h : isWordChar c = true) : isSpace c = false := by
  cases hs : isSpace c with
  | false => rfl
  | true =>
    rcases isSpace_cases hs with rfl | rfl | rfl | rfl | rfl | rfl <;> exact absurd h (by decide)

theorem isWordChar_ne {c : Char} (h : isWordChar c = true) (x : Char) (hx : isWordChar x = false) :
    c ≠ x := by
  rintro rfl; simp [h] at hx

theorem isWordChar_isNameChar {c : Char} (h : isWordChar c = true) : isNameChar c = true := by
  simp only [isWordChar, Bool.or_eq_true] at h
  simp only [isNameChar, Bool.or_eq_true]
  tauto

theorem isSpace_isNameChar {c : Char} (h : isSpace c = true) : isNameChar c = true := by
  simp [isNameChar, h]

theorem isTrimChar_isSpace {c : Char} (h : isTrimChar c = true) : isSpace c = true := by
  have : c = ' ' ∨ c = '\t' ∨ c = '\r' ∨ c = '\n' := by simpa [isTrimChar, or_assoc] using h
  rcases this with rfl | rfl | rfl | rfl <;> decide

theorem isWordChar_not_isTrimChar {c : Char} (h : isWordChar c = true) : isTrimChar c = false := by
  cases ht : isTrimChar c with
  | false => rfl
  | true => simp [isWordChar_not_isSpace h] at *; exact absurd (isTrimChar_isSpace ht) (by simp [isWordChar_not_isSpace h])

/-! ## Lemmas on lists of characters -/

theorem takeWhile_append_stop (p : Char → Bool) (xs tail : Str) (hx : ∀ c ∈ xs, p c = true)
    (ht : ∀ c t, tail = c :: t → p c = false) : (xs ++ tail).takeWhile p = xs := by
  induction xs with
  | nil =>
    cases tail with
    | nil => rfl
    | cons c t => simp [List.takeWhile, ht c t rfl]
  | cons x xs ih =>
    have hx1 : p x = true := hx x (List.mem_cons_self _ _)
    simp [List.takeWhile, hx1, ih (fun c hc => hx c (List.mem_cons_of_mem _ hc))]

theorem dropWhile_append_stop (p : Char → Bool) (xs tail : Str) (hx : ∀ c ∈ xs, p c = true)
    (ht : ∀ c t, tail = c :: t → p c = false) : (xs ++ tail).dropWhile p = tail := by
  induction xs with
  | nil =>
    cases tail with
    | nil => rfl
    | cons c t => simp [List.dropWhile, ht c t rfl]
  | cons x xs ih =>
    have hx1 : p x = true := hx x (List.mem_cons_self _ _)
    simp [List.dropWhile, hx1, ih (fun c hc => hx c (List.mem_cons_of_mem _ hc))]

theorem take_append_sub_length (xs ys : Str) : (xs ++ ys).take ((xs ++ ys).length - ys.length) = xs := by
  simp

theorem all_digitChar (ds : List (Fin 10)) : ∀ c ∈ ds.map digitChar, isDigit c = true := by
  intro c hc
  obtain ⟨d, _, rfl⟩ := List.mem_map.mp hc
  exact digitChar_isDigit d

/-! ## Lemmas on `std::stof` -/

theorem natOfDigits_append_singleton (xs : Str) (c : Char) :
    natOfDigits (xs ++ [c]) = 10 * natOfDigits xs + digitVal c := by
  simp [natOfDigits, List.foldl_append]

theorem natOfDigits_digitChar (ds : List (Fin 10)) :
    natOfDigits (ds.map digitChar) = Nat.ofDigits 10 (ds.map Fin.val).reverse := by
  induction ds using List.reverseRecOn with
  | nil => simp [natOfDigits]
  | append_singleton ds d ih =>
    rw [List.map_append, List.map_singleton, natOfDigits_append_singleton, ih, digitVal_digitChar]
    simp [Nat.ofDigits_cons]
    ring
theorem pow10_zero : pow10 0 = 1 := by simp [pow10]

theorem parseUnsigned_literal (l : Literal) (hw : l.WellFormed) :
    parseUnsigned (l.intDigits.map digitChar ++ l.fracText) =
      some (((Nat.ofDigits 10 ((l.intDigits ++ l.frac).map Fin.val).reverse : ℕ) : ℚ)
        / 10 ^ l.frac.length) := by
  obtain ⟨hi, hf⟩ := hw
  have hne : (l.intDigits.map digitChar).isEmpty = false := by
    cases h : l.intDigits with
    | nil => exact absurd h hi
    | cons d ds => rfl
  cases hfd : l.fracDigits with
  | none =>
    have h1 : (l.intDigits.map digitChar).takeWhile isDigit = l.intDigits.map digitChar := by
      simpa using takeWhile_append_stop isDigit _ [] (all_digitChar l.intDigits) (by simp)
    have h2 : (l.intDigits.map digitChar).dropWhile isDigit = [] := by
      simpa using dropWhile_append_stop isDigit _ [] (all_digitChar l.intDigits) (by simp)
    simp only [Literal.fracText, Literal.frac, hfd, parseUnsigned, h1, h2, hne, Option.getD_none,
      List.append_nil, parseExponent, pow10_zero, List.length_nil, pow_zero, Bool.false_and,
      natOfDigits_digitChar]
    simp
  | some f =>
    have hdot : ∀ c t, '.' :: f.map digitChar = c :: t → isDigit c = false := by
      intro c t h
      have : c = '.' := by simpa using (List.cons.inj h).1.symm
      subst this; decide
    have h1 : (l.intDigits.map digitChar ++ '.' :: f.map digitChar).takeWhile isDigit
        = l.intDigits.map digitChar :=
      takeWhile_append_stop _ _ _ (all_digitChar _) hdot
    have h2 : (l.intDigits.map digitChar ++ '.' :: f.map digitChar).dropWhile isDigit
        = '.' :: f.map digitChar :=
      dropWhile_append_stop _ _ _ (all_digitChar _) hdot
    have h3 : (f.map digitChar).takeWhile isDigit = f.map digitChar := by
      have := takeWhile_append_stop isDigit (f.map digitChar) [] (all_digitChar _) (by simp)
      simpa using this
    have h4 : (f.map digitChar).dropWhile isDigit = [] := by
      have := dropWhile_append_stop isDigit (f.map digitChar) [] (all_digitChar _) (by simp)
      simpa using this
    simp only [Literal.fracText, Literal.frac, hfd, parseUnsigned, h1, h2, h3, h4, hne,
      Option.getD_some, parseExponent, pow10_zero, Bool.false_and, List.length_map,
      ← List.map_append, natOfDigits_digitChar]
    simp

theorem parseDecimal_literal (l : Literal) (hw : l.WellFormed) :
    parseDecimal l.render = some l.value := by
  have hu := parseUnsigned_literal l hw
  obtain ⟨d, ds, hds⟩ : ∃ d ds, l.intDigits = d :: ds := by
    cases h : l.intDigits with
    | nil => exact absurd h hw.1
    | cons d ds => exact ⟨d, ds, rfl⟩
  have hd := digitChar_isDigit d
  have hsp := isDigit_not_isSpace hd
  rcases hs : l.sign with _ | b
  · have hr : l.render = digitChar d :: (ds.map digitChar ++ l.fracText) := by
      simp [Literal.render, Literal.signText, hs, hds]
    have h1 : digitChar d ≠ '-' := isDigit_ne hd _ (by decide)
    have h2 : digitChar d ≠ '+' := isDigit_ne hd _ (by decide)
    rw [hds] at hu
    simp only [List.map_cons, List.cons_append] at hu
    rw [hr, parseDecimal]
    simp only [List.dropWhile, hsp]
    split
    · rename_i heq; exact absurd (List.cons.inj heq).1 h1
    · rename_i heq; exact absurd (List.cons.inj heq).1 h2
    · rw [hu]; simp [Literal.value, hs, hds]
  · cases b with
    | true =>
      have hr : l.render = '-' :: (l.intDigits.map digitChar ++ l.fracText) := by
        simp [Literal.render, Literal.signText, hs]
      rw [hr, parseDecimal]
      have : isSpace '-' = false := by decide
      simp only [List.dropWhile, this, hu, Option.map_some']
      simp [Literal.value, hs, neg_div]
    | false =>
      have hr : l.render = '+' :: (l.intDigits.map digitChar ++ l.fracText) := by
        simp [Literal.render, Literal.signText, hs]
      rw [hr, parseDecimal]
      have : isSpace '+' = false := by decide
      simp only [List.dropWhile, this, hu]
      simp [Literal.value, hs]

theorem stof_literal (erangeOnUnderflow : ℚ → Bool) (l : Literal) (hw : l.WellFormed)
    (hr : l.InFloatRange) : stof erangeOnUnderflow l.render = .ok l.value := by
  have hpos : (0 : ℚ) < floatOverflow := by norm_num [floatOverflow]
  rw [stof, parseDecimal_literal l hw]
  rcases hr with h0 | ⟨hlo, hhi⟩
  · simp [h0, hpos]
  · simp [not_le.mpr hhi, not_lt.mpr hlo]
/-! ## Lemmas on the backtracking matcher -/

section Matcher
variable {α : Type}

theorem starMatch_stop (p : Char → Bool) (k : Str → Option α) (s : Str)
    (h : ∀ c t, s = c :: t → p c = false) : starMatch p k s = k s := by
  cases s with
  | nil => rfl
  | cons c t => simp [starMatch, h c t rfl]

theorem starMatch_append_some (p : Char → Bool) (k : Str → Option α) (xs rest : Str) (r : α)
    (hx : ∀ c ∈ xs, p c = true) (h : starMatch p k rest = some r) :
    starMatch p k (xs ++ rest) = some r := by
  induction xs with
  | nil => simpa using h
  | cons x xs ih =>
    have hx1 : p x = true := hx x (List.mem_cons_self _ _)
    simp [starMatch, hx1, ih (fun c hc => hx c (List.mem_cons_of_mem _ hc))]

theorem starMatch_append_none (p : Char → Bool) (k : Str → Option α) (xs rest : Str)
    (hk : ∀ c ∈ xs, ∀ t, k (c :: t) = none) (h : starMatch p k rest = none) :
    starMatch p k (xs ++ rest) = none := by
  induction xs with
  | nil => simpa using h
  | cons x xs ih =>
    have hk1 : ∀ t, k (x :: t) = none := hk x (List.mem_cons_self _ _)
    simp [starMatch, hk1, ih (fun c hc => hk c (List.mem_cons_of_mem _ hc))]

theorem starMatch_giveback (p : Char → Bool) (k : Str → Option α) (xs : Str) (c : Char)
    (rest : Str) (r : α) (hx : ∀ x ∈ xs, p x = true) (hc : p c = true)
    (hstop : ∀ d t, rest = d :: t → p d = false) (h1 : k rest = none)
    (h2 : k (c :: rest) = some r) : starMatch p k (xs ++ c :: rest) = some r := by
  apply starMatch_append_some p k xs _ r hx
  simp [starMatch, hc, starMatch_stop p k rest hstop, h1, h2]

theorem run_cls_fail (p : Char → Bool) (s : Str) (caps : Caps) (k : Str → Caps → Option α)
    (h : ∀ c t, s = c :: t → p c = false) : (Regex.cls p).run s caps k = none := by
  cases s with
  | nil => rfl
  | cons c t => simp [Regex.run, h c t rfl]

theorem run_opt_fail (a : Regex) (s : Str) (caps : Caps) (k : Str → Caps → Option α)
    (h : a.run s caps k = none) : (Regex.opt a).run s caps k = k s caps := by
  simp [Regex.run, h]

theorem run_opt_some (a : Regex) (s : Str) (caps : Caps) (k : Str → Caps → Option α) (r : α)
    (h : a.run s caps k = some r) : (Regex.opt a).run s caps k = some r := by
  simp [Regex.run, h]

end Matcher

section MatcherEquations
variable {α : Type}

theorem run_cls_cons (p : Char → Bool) (c : Char) (s : Str) (caps : Caps)
    (k : Str → Caps → Option α) :
    (Regex.cls p).run (c :: s) caps k = if p c then k s caps else none := rfl

theorem run_star (p : Char → Bool) (s : Str) (caps : Caps) (k : Str → Caps → Option α) :
    (Regex.star p).run s caps k = starMatch p (fun rest => k rest caps) s := rfl

theorem run_cat (a b : Regex) (s : Str) (caps : Caps) (k : Str → Caps → Option α) :
    (Regex.cat a b).run s caps k = a.run s caps (fun rest caps1 => b.run rest caps1 k) := rfl

theorem run_group (n : Nat) (a : Regex) (s : Str) (caps : Caps) (k : Str → Caps → Option α) :
    (Regex.group n a).run s caps k =
      a.run s caps (fun rest caps1 => k rest (caps1.set n (s.take (s.length - rest.length)))) :=
  rfl

theorem run_plus (p : Char → Bool) (c : Char) (s : Str) (caps : Caps)
    (k : Str → Caps → Option α) :
    (Regex.plus p).run (c :: s) caps k =
      if p c then starMatch p (fun rest => k rest caps) s else none := rfl

theorem run_plus_fail (p : Char → Bool) (s : Str) (caps : Caps) (k : Str → Caps → Option α)
    (h : ∀ c t, s = c :: t → p c = false) : (Regex.plus p).run s caps k = none := by
  cases s with
  | nil => rfl
  | cons c t => simp [run_plus, h c t rfl]

end MatcherEquations
/-! ## The number pattern on a decimal literal -/

section Number
variable {α : Type}

theorem isSpace_not_isDigit {c : Char} (h : isSpace c = true) : isDigit c = false := by
  rcases isSpace_cases h with rfl | rfl | rfl | rfl | rfl | rfl <;> decide

theorem isSpace_not_isExpMark {c : Char} (h : isSpace c = true) : isExpMark c = false := by
  rcases isSpace_cases h with rfl | rfl | rfl | rfl | rfl | rfl <;> decide

theorem isSpace_not_dot {c : Char} (h : isSpace c = true) : (c == '.') = false := by
  rcases isSpace_cases h with rfl | rfl | rfl | rfl | rfl | rfl <;> decide

theorem exponentRegex_skip (after : Str) (caps : Caps) (k : Str → Caps → Option α)
    (ha : ∀ c t, after = c :: t → isSpace c = true) :
    exponentRegex.run after caps k = k after caps := by
  rw [exponentRegex]
  apply run_opt_fail
  rw [run_cat]
  exact run_cls_fail _ _ _ _ (fun c t h => isSpace_not_isExpMark (ha c t h))

theorem mantissaRegex_fraction (ints frac after : Str) (f0 : Char) (caps : Caps)
    (k : Str → Caps → Option α) (r : α)
    (hi : ∀ c ∈ ints, isDigit c = true) (hf0 : isDigit f0 = true)
    (hf : ∀ c ∈ frac, isDigit c = true)
    (ha : ∀ c t, after = c :: t → isSpace c = true)
    (hk : k after caps = some r) :
    mantissaRegex.run (ints ++ '.' :: f0 :: (frac ++ after)) caps k = some r := by
  rw [mantissaRegex, run_cat, run_star]
  apply starMatch_append_some _ _ _ _ _ hi
  rw [starMatch_stop _ _ _ (by intro c t h; cases h; decide), run_cat]
  apply run_opt_some
  rw [run_cls_cons, run_plus]
  have h1 : starMatch isDigit (fun rest => k rest caps) (frac ++ after) = some r := by
    apply starMatch_append_some _ _ _ _ _ hf
    rw [starMatch_stop _ _ _ (fun c t h => isSpace_not_isDigit (ha c t h)), hk]
  simp [hf0, h1]

theorem mantissaRegex_integer (ints after : Str) (last : Char) (caps : Caps)
    (k : Str → Caps → Option α) (r : α)
    (hi : ∀ c ∈ ints, isDigit c = true) (hl : isDigit last = true)
    (ha : ∀ c t, after = c :: t → isSpace c = true)
    (hk : k after caps = some r) :
    mantissaRegex.run (ints ++ last :: after) caps k = some r := by
  rw [mantissaRegex, run_cat, run_star]
  have hstop : ∀ d t, after = d :: t → isDigit d = false :=
    fun c t h => isSpace_not_isDigit (ha c t h)
  have hldot : (last == '.') = false := by
    cases h : (last == '.') with
    | false => rfl
    | true => rw [beq_iff_eq] at h; subst h; exact absurd hl (by decide)
  apply starMatch_giveback _ _ _ _ _ _ hi hl hstop
  · rw [run_cat, run_opt_fail _ _ _ _
      (run_cls_fail _ _ _ _ (fun c t h => isSpace_not_dot (ha c t h)))]
    exact run_plus_fail _ _ _ _ hstop
  · rw [run_cat, run_opt_fail _ _ _ _ (by rw [run_cls_cons]; simp [hldot]), run_plus]
    simp [hl, starMatch_stop _ _ _ hstop, hk]

theorem mantissaRegex_literal (l : Literal) (hw : l.WellFormed) (after : Str) (caps : Caps)
    (k : Str → Caps → Option α) (r : α)
    (ha : ∀ c t, after = c :: t → isSpace c = true) (hk : k after caps = some r) :
    mantissaRegex.run (l.intDigits.map digitChar ++ l.fracText ++ after) caps k = some r := by
  cases hfd : l.fracDigits with
  | none =>
    obtain ⟨ds, d, hds⟩ : ∃ ds d, l.intDigits = ds ++ [d] := by
      rcases List.eq_nil_or_concat l.intDigits with h | ⟨ds, d, h⟩
      · exact absurd h hw.1
      · exact ⟨ds, d, by simpa using h⟩
    have := mantissaRegex_integer (ds.map digitChar) after (digitChar d) caps k r
      (all_digitChar ds) (digitChar_isDigit d) ha hk
    simpa [Literal.fracText, hfd, hds] using this
  | some f =>
    cases f with
    | nil => exact absurd hfd hw.2
    | cons f0 fs =>
      have := mantissaRegex_fraction (l.intDigits.map digitChar) (fs.map digitChar) after
        (digitChar f0) caps k r (all_digitChar _) (digitChar_isDigit f0) (all_digitChar fs) ha hk
      simpa [Literal.fracText, hfd] using this

theorem digitChar_not_isSign (d : Fin 10) : isSign (digitChar d) = false := by
  revert d; decide

theorem signedNumber_literal (l : Literal) (hw : l.WellFormed) (after : Str) (caps : Caps)
    (k : Str → Caps → Option α) (r : α)
    (ha : ∀ c t, after = c :: t → isSpace c = true) (hk : k after caps = some r) :
    (Regex.cat (.opt (.cls isSign)) (.cat mantissaRegex exponentRegex)).run
      (l.render ++ after) caps k = some r := by
  have hm := mantissaRegex_literal l hw after caps
    (fun rest caps1 => exponentRegex.run rest caps1 k) r ha
    (by show exponentRegex.run after caps k = some r
        rw [exponentRegex_skip _ _ _ ha]; exact hk)
  rw [run_cat]
  rcases hs : l.sign with _ | b
  · obtain ⟨d, ds, hds⟩ : ∃ d ds, l.intDigits = d :: ds := by
      cases h : l.intDigits with
      | nil => exact absurd h hw.1
      | cons d ds => exact ⟨d, ds, rfl⟩
    have hr : l.render ++ after = digitChar d :: (ds.map digitChar ++ l.fracText ++ after) := by
      simp [Literal.render, Literal.signText, hs, hds]
    have hr2 : l.intDigits.map digitChar ++ l.fracText ++ after = l.render ++ after := by
      simp [Literal.render, Literal.signText, hs]
    rw [run_opt_fail _ _ _ _
      (by rw [hr, run_cls_cons]; simp [digitChar_not_isSign d])]
    show (Regex.cat mantissaRegex exponentRegex).run (l.render ++ after) caps k = some r
    rw [run_cat, ← hr2]
    exact hm
  · have hsg : isSign (if b then '-' else '+') = true := by cases b <;> decide
    have hr3 : l.render ++ after
        = (if b then '-' else '+') :: (l.intDigits.map digitChar ++ l.fracText ++ after) := by
      cases b <;> simp [Literal.render, Literal.signText, hs]
    apply run_opt_some
    rw [hr3, run_cls_cons, if_pos hsg, run_cat]
    exact hm

theorem numberRegex_literal (l : Literal) (hw : l.WellFormed) (after : Str) (caps : Caps)
    (k : Str → Caps → Option α) (r : α)
    (ha : ∀ c t, after = c :: t → isSpace c = true)
    (hk : k after (caps.set 2 l.render) = some r) :
    numberRegex.run (l.render ++ after) caps k = some r := by
  rw [numberRegex, run_group]
  apply signedNumber_literal l hw after caps _ r ha
  show k after (caps.set 2 ((l.render ++ after).take ((l.render ++ after).length - after.length)))
    = some r
  rw [take_append_sub_length]
  exact hk

end Number
/-! ## The two patterns on a well-formed line -/

section Line
variable {α : Type}

theorem descriptionRegex_present (d rest : Str) (caps : Caps) (k : Str → Caps → Option α) (r : α)
    (hd : ∀ c ∈ d, isNotClose c = true) (hk : k rest (caps.set 3 d) = some r) :
    descriptionRegex.run (' ' :: '(' :: (d ++ ')' :: rest)) caps k = some r := by
  rw [descriptionRegex]
  apply run_opt_some
  rw [run_cat, run_star]
  apply starMatch_append_some isSpace _ [' '] _ r (by simp; decide)
  rw [starMatch_stop _ _ _ (by intro c t h; cases h; decide), run_cat, run_cls_cons,
    if_pos (by decide), run_cat, run_group, run_star]
  apply starMatch_append_some _ _ _ _ _ hd
  rw [starMatch_stop _ _ _ (by intro c t h; cases h; decide), run_cls_cons, if_pos (by decide),
    take_append_sub_length]
  exact hk

theorem descriptionRegex_absent (rest : Str) (caps : Caps) (k : Str → Caps → Option α)
    (hrest : ∀ c t, rest = c :: t → isSpace c = false ∧ c ≠ '(') :
    descriptionRegex.run ('\n' :: rest) caps k = k ('\n' :: rest) caps := by
  rw [descriptionRegex]
  apply run_opt_fail
  rw [run_cat, run_star]
  have h1 : ∀ c t, rest = c :: t → (c == '(') = false := by
    intro c t h; simpa using (hrest c t h).2
  apply starMatch_append_none isSpace _ ['\n'] rest
  · intro c hc t
    have : c = '\n' := by simpa using hc
    subst this
    rw [run_cat, run_cls_cons]; rfl
  · rw [starMatch_stop _ _ _ (fun c t h => (hrest c t h).1), run_cat]
    exact run_cls_fail _ _ _ _ h1

theorem render_head (l : Literal) (hw : l.WellFormed) (x : Str) :
    ∀ c t, l.render ++ x = c :: t → isSpace c = false := by
  intro c t h
  obtain ⟨d, ds, hds⟩ : ∃ d ds, l.intDigits = d :: ds := by
    cases h : l.intDigits with
    | nil => exact absurd h hw.1
    | cons d ds => exact ⟨d, ds, rfl⟩
  rcases hs : l.sign with _ | b
  · simp [Literal.render, Literal.signText, hs, hds] at h
    rw [← h.1]; exact isDigit_not_isSpace (digitChar_isDigit d)
  · cases b <;> simp [Literal.render, Literal.signText, hs] at h <;> rw [← h.1] <;> decide

theorem descriptionRegex_line (l : ParamLine) (hw : l.WellFormed) (rest : Str) (caps : Caps)
    (k : Str → Caps → Option α) (r : α)
    (hrest : ∀ c t, rest = c :: t → isSpace c = false ∧ c ≠ '(')
    (hk : k ('\n' :: rest)
      (match l.description with | some d => caps.set 3 d | none => caps) = some r) :
    descriptionRegex.run (l.descriptionText ++ '\n' :: rest) caps k = some r := by
  cases hd : l.description with
  | none =>
    simp only [hd] at hk
    simp only [ParamLine.descriptionText, hd, List.nil_append]
    rw [descriptionRegex_absent _ _ _ hrest]; exact hk
  | some d =>
    simp only [hd] at hk
    have hdc : ∀ c ∈ d, isNotClose c = true := by
      have := hw.2.2.2
      simpa [hd, List.all_eq_true] using this
    have := descriptionRegex_present d ('\n' :: rest) caps k r hdc hk
    simpa [ParamLine.descriptionText, hd] using this

theorem altParamRegex_line (pre : Str) (l : ParamLine) (hw : l.WellFormed) (rest : Str)
    (k : Str → Caps → Option α) (r : α)
    (hpre : ∀ c ∈ pre, isSpace c = true)
    (hrest : ∀ c t, rest = c :: t → isSpace c = false ∧ c ≠ '(')
    (hk : k ('\n' :: rest) (lineCaps pre l) = some r) :
    altParamRegex.run (pre ++ l.body ++ '\n' :: rest) Caps.empty k = some r := by
  obtain ⟨n0, ns, hn⟩ : ∃ n0 ns, pre ++ l.name = n0 :: ns := by
    cases h : pre ++ l.name with
    | nil => exact absurd (List.append_eq_nil.mp h).2 hw.1
    | cons a b => exact ⟨a, b, rfl⟩
  have hname : ∀ c ∈ pre ++ l.name, isNameChar c = true := by
    intro c hc
    rcases List.mem_append.mp hc with h | h
    · exact isSpace_isNameChar (hpre c h)
    · exact isWordChar_isNameChar (by have := hw.2.1; rw [List.all_eq_true] at this; exact this c h)
  have hs : pre ++ l.body ++ '\n' :: rest
      = n0 :: (ns ++ ':' :: ([' '] ++ (l.number.render ++ (l.descriptionText ++ '\n' :: rest)))) := by
    rw [← List.cons_append, ← hn]; simp [ParamLine.body]
  have htake : (n0 :: (ns ++ ':' :: ([' '] ++ (l.number.render ++ (l.descriptionText ++ '\n' :: rest))))).take
      ((n0 :: (ns ++ ':' :: ([' '] ++ (l.number.render ++ (l.descriptionText ++ '\n' :: rest))))).length
        - (':' :: ([' '] ++ (l.number.render ++ (l.descriptionText ++ '\n' :: rest)))).length)
      = pre ++ l.name := by
    rw [hn, ← List.cons_append]; exact take_append_sub_length _ _
  rw [hs, altParamRegex, run_cat, run_group, run_plus,
    if_pos (hname n0 (by rw [hn]; exact List.mem_cons_self _ _))]
  apply starMatch_append_some _ _ _ _ _
    (fun c hc => hname c (by rw [hn]; exact List.mem_cons_of_mem _ hc))
  rw [starMatch_stop _ _ _ (by intro c t h; cases h; decide), htake, run_cat, run_cls_cons,
    if_pos (by decide), run_cat, run_star]
  apply starMatch_append_some isSpace _ [' '] _ r (by simp; decide)
  rw [starMatch_stop _ _ _ (render_head l.number hw.2.2.1 _), run_cat]
  apply numberRegex_literal l.number hw.2.2.1
  · intro c t h
    cases hd : l.description with
    | none => simp [ParamLine.descriptionText, hd] at h; rw [← h.1]; decide
    | some d => simp [ParamLine.descriptionText, hd] at h; rw [← h.1]; decide
  · apply descriptionRegex_line l hw rest _ k r hrest
    cases hd : l.description with
    | none => simpa [lineCaps, hd] using hk
    | some d => simpa [lineCaps, hd] using hk

theorem paramRegex_line (l : ParamLine) (hw : l.WellFormed) (rest : Str)
    (k : Str → Caps → Option α) (r : α)
    (hrest : ∀ c t, rest = c :: t → isSpace c = false ∧ c ≠ '(')
    (hk : k ('\n' :: rest) (lineCaps [] l) = some r) :
    paramRegex.run (l.render ++ rest) Caps.empty k = some r := by
  obtain ⟨n0, ns, hn⟩ : ∃ n0 ns, l.name = n0 :: ns := by
    cases h : l.name with
    | nil => exact absurd h hw.1
    | cons a b => exact ⟨a, b, rfl⟩
  have hn0 : isSpace n0 = false :=
    isWordChar_not_isSpace (by
      have := hw.2.1; rw [List.all_eq_true] at this
      exact this n0 (by rw [hn]; exact List.mem_cons_self _ _))
  have hs : l.render ++ rest = '-' :: ([' '] ++ ([] ++ l.body ++ '\n' :: rest)) := by
    simp [ParamLine.render]
  rw [hs, paramRegex, run_cat, run_cls_cons, if_pos (by decide), run_cat, run_star]
  apply starMatch_append_some isSpace _ [' '] _ r (by simp; decide)
  rw [starMatch_stop _ _ _ (by
    intro c t h
    simp [ParamLine.body, hn] at h
    rw [← h.1]; exact hn0)]
  exact altParamRegex_line [] l hw rest k r (by simp) hrest hk

end Line
/-! ## Where the patterns fail -/

section Failure
variable {α : Type}

theorem mantissaRegex_fail (t : Str) (caps : Caps) (k : Str → Caps → Option α)
    (h : startsUnsigned t = false) : mantissaRegex.run t caps k = none := by
  rw [mantissaRegex, run_cat, run_star]
  rcases t with _ | ⟨c, _ | ⟨d, r⟩⟩
  · rfl
  · have hc : isDigit c = false := by simpa [startsUnsigned] using h
    simp [starMatch, hc, run_cat, Regex.run, Regex.plus]
  · simp only [startsUnsigned, Bool.or_eq_false_iff, Bool.and_eq_false_iff] at h
    obtain ⟨hc, hd⟩ := h
    rw [starMatch_stop _ _ _ (by intro x y hxy; cases hxy; exact hc), run_cat]
    rcases hdot : (c == '.') with _ | _
    · rw [run_opt_fail _ _ _ _ (by rw [run_cls_cons]; simp [hdot]), run_plus]
      simp [hc]
    · have hd2 : isDigit d = false := by
        rcases hd with hd | hd
        · simp [hdot] at hd
        · exact hd
      rw [run_opt_fail _ _ _ _ (by rw [run_cls_cons, run_plus]; simp [hd2]), run_plus]
      simp [hc]

theorem isSign_not_startsUnsigned {c : Char} (h : isSign c = true) (r : Str) :
    startsUnsigned (c :: r) = false := by
  have hc : c = '-' ∨ c = '+' := by simpa [isSign] using h
  rcases hc with rfl | rfl <;> cases r <;> simp [startsUnsigned] <;> decide

theorem numberRegex_fail (t : Str) (caps : Caps) (k : Str → Caps → Option α)
    (h : startsNumber t = false) : numberRegex.run t caps k = none := by
  rw [numberRegex, run_group, run_cat]
  cases t with
  | nil =>
    rw [run_opt_fail _ _ _ _ (by rfl), run_cat]
    exact mantissaRegex_fail _ _ _ (by rfl)
  | cons c r =>
    rcases hs : isSign c with _ | _
    · simp only [startsNumber, hs, Bool.false_eq_true, if_false] at h
      rw [run_opt_fail _ _ _ _ (by rw [run_cls_cons]; simp [hs]), run_cat]
      exact mantissaRegex_fail _ _ _ h
    · simp only [startsNumber, hs, if_true] at h
      rw [run_opt_fail _ _ _ _ (by
        rw [run_cls_cons, if_pos hs, run_cat]; exact mantissaRegex_fail _ _ _ h), run_cat]
      exact mantissaRegex_fail _ _ _ (isSign_not_startsUnsigned hs r)

theorem isSpace_not_isSign {c : Char} (h : isSpace c = true) : isSign c = false := by
  rcases isSpace_cases h with rfl | rfl | rfl | rfl | rfl | rfl <;> decide

theorem isSpace_not_startsNumber {c : Char} (h : isSpace c = true) (r : Str) :
    startsNumber (c :: r) = false := by
  have h1 := isSpace_not_isSign h
  have h2 := isSpace_not_isDigit h
  have h3 := isSpace_not_dot h
  cases r <;> simp [startsNumber, startsUnsigned, h1, h2, h3]

theorem isNameChar_ne_colon {c : Char} (h : isNameChar c = true) : (c == ':') = false := by
  cases hc : (c == ':') with
  | false => rfl
  | true => rw [beq_iff_eq] at hc; subst hc; exact absurd h (by decide)

/-- After the colon: white space, then something that does not begin with a number. -/
theorem afterColon_fail (w : Str) (caps : Caps) (k : Str → Caps → Option α)
    (hw : starMatch isSpace (fun rest => numberRegex.run rest caps
      (fun rest caps1 => descriptionRegex.run rest caps1 k)) w = none) :
    (Regex.cat (.star isSpace) (.cat numberRegex descriptionRegex)).run w caps k = none := by
  rw [run_cat, run_star]
  exact hw

theorem altParamRegex_fail (nm w : Str) (caps : Caps) (k : Str → Caps → Option α)
    (hnm : ∀ c ∈ nm, isNameChar c = true)
    (hw : ∀ caps1 : Caps, starMatch isSpace (fun rest => numberRegex.run rest caps1
      (fun rest caps2 => descriptionRegex.run rest caps2 k)) w = none) :
    altParamRegex.run (nm ++ ':' :: w) caps k = none := by
  rw [altParamRegex, run_cat, run_group]
  cases nm with
  | nil => exact run_plus_fail _ _ _ _ (by intro c t h; cases h; decide)
  | cons n0 ns =>
    rw [List.cons_append, run_plus, if_pos (hnm n0 (List.mem_cons_self _ _))]
    apply starMatch_append_none
    · intro c hc t
      rw [run_cat, run_cls_cons]
      simp [isNameChar_ne_colon (hnm c (List.mem_cons_of_mem _ hc))]
    · rw [starMatch_stop _ _ _ (by intro c t h; cases h; decide), run_cat, run_cls_cons,
        if_pos (by decide)]
      exact afterColon_fail _ _ _ (hw _)

theorem paramRegex_fail (name w : Str) (k : Str → Caps → Option α)
    (hname : ∀ c ∈ name, isWordChar c = true)
    (hw : ∀ caps1 : Caps, starMatch isSpace (fun rest => numberRegex.run rest caps1
      (fun rest caps2 => descriptionRegex.run rest caps2 k)) w = none) :
    paramRegex.run ('-' :: ' ' :: (name ++ ':' :: w)) Caps.empty k = none := by
  rw [paramRegex, run_cat, run_cls_cons, if_pos (by decide), run_cat, run_star]
  have hn : ∀ c ∈ name, isNameChar c = true := fun c hc => isWordChar_isNameChar (hname c hc)
  have h1 : altParamRegex.run (name ++ ':' :: w) Caps.empty k = none :=
    altParamRegex_fail name w _ k hn hw
  have h2 : altParamRegex.run (' ' :: (name ++ ':' :: w)) Caps.empty k = none := by
    have := altParamRegex_fail (' ' :: name) w Caps.empty k (by
      intro c hc
      rcases List.mem_cons.mp hc with rfl | h
      · decide
      · exact hn c h) hw
    simpa using this
  have hstop : ∀ c t, name ++ ':' :: w = c :: t → isSpace c = false := by
    intro c t h
    cases name with
    | nil => simp at h; rw [← h.1]; decide
    | cons a b =>
      simp at h; rw [← h.1]
      exact isWordChar_not_isSpace (hname a (List.mem_cons_self _ _))
  have hsp : isSpace ' ' = true := by decide
  rw [starMatch, if_pos hsp, starMatch_stop _ _ _ hstop, h1]
  exact h2

end Failure
/-! ## Searching a dashed response -/

section Search

theorem startsUnsigned_append (s B : Str) (h : startsUnsigned s = false) :
    startsUnsigned (s ++ '\n' :: B) = false := by
  have hn : isDigit '\n' = false := by decide
  rcases s with _ | ⟨c, _ | ⟨d, r⟩⟩
  · cases B <;> simp [startsUnsigned, hn]
  · have hc : isDigit c = false := by simpa [startsUnsigned] using h
    simp [startsUnsigned, hc, hn]
  · simpa [startsUnsigned] using h

theorem startsNumber_append (s B : Str) (h : startsNumber s = false) :
    startsNumber (s ++ '\n' :: B) = false := by
  cases s with
  | nil => exact isSpace_not_startsNumber (by decide) B
  | cons c r =>
    rcases hs : isSign c with _ | _
    · simp only [startsNumber, hs, Bool.false_eq_true, if_false, List.cons_append] at h ⊢
      exact startsUnsigned_append (c :: r) B h
    · simp only [startsNumber, hs, if_true, List.cons_append] at h ⊢
      exact startsUnsigned_append r B h

theorem whitespace_then_no_number {α : Type} (k : Str → Option α) (token B : Str)
    (hk : ∀ t, startsNumber t = false → k t = none)
    (hbad : startsNumber (token.dropWhile isSpace) = false)
    (hB : B = [] ∨ ∃ r, B = '-' :: ' ' :: r) :
    starMatch isSpace k (' ' :: (token ++ '\n' :: B)) = none := by
  have h1 : starMatch isSpace k ('\n' :: B) = none := by
    have hB2 : starMatch isSpace k B = none := by
      rcases hB with rfl | ⟨r, rfl⟩
      · exact hk [] rfl
      · rw [starMatch_stop _ _ _ (by intro c t h; cases h; decide)]
        exact hk _ (by cases r <;> simp [startsNumber, startsUnsigned] <;> decide)
    simp [starMatch, hB2, hk _ (isSpace_not_startsNumber (by decide : isSpace '\n' = true) B)]
  have h2 : starMatch isSpace k (token ++ '\n' :: B) = none := by
    induction token with
    | nil => exact h1
    | cons c t ih =>
      rcases hc : isSpace c with _ | _
      · rw [List.cons_append, starMatch_stop _ _ _ (by intro x y h; cases h; exact hc)]
        apply hk
        have : startsNumber (c :: t) = false := by simpa [List.dropWhile, hc] using hbad
        exact startsNumber_append (c :: t) B this
      · have ih2 := ih (by simpa [List.dropWhile, hc] using hbad)
        simp [starMatch, hc, ih2, hk _ (isSpace_not_startsNumber hc (t ++ '\n' :: B))]
  simp [starMatch, h2,
    hk _ (isSpace_not_startsNumber (by decide : isSpace ' ' = true) (token ++ '\n' :: B))]

theorem matchHere_paramRegex_ne (c : Char) (s : Str) (h : c ≠ '-') :
    matchHere paramRegex (c :: s) = none := by
  rw [matchHere, paramRegex, run_cat, run_cls_cons]
  simp [h]

theorem matchHere_paramRegex_nil : matchHere paramRegex [] = none := rfl

theorem regexSearch_paramRegex_skip (pre s : Str) (h : ∀ c ∈ pre, c ≠ '-') :
    regexSearch paramRegex (pre ++ s) = regexSearch paramRegex s := by
  induction pre with
  | nil => rfl
  | cons c pre ih =>
    rw [List.cons_append, regexSearch, matchHere_paramRegex_ne c _ (h c (List.mem_cons_self _ _))]
    exact ih (fun x hx => h x (List.mem_cons_of_mem _ hx))

theorem regexSearch_of_matchHere (re : Regex) (s : Str) (m : Match)
    (h : matchHere re s = some m) : regexSearch re s = some m := by
  cases s with
  | nil => simpa [regexSearch] using h
  | cons c t => simp [regexSearch, h]

theorem regexIterate_congr (re : Regex) (fuel : Nat) (s t : Str)
    (h : regexSearch re s = regexSearch re t) :
    regexIterate re fuel s = regexIterate re fuel t := by
  cases fuel with
  | zero => rfl
  | succ n => simp [regexIterate, h]

/-- The text of the lines of a response. -/
theorem lines_head (ls : List ResponseLine) :
    (ls.map ResponseLine.render).flatten = [] ∨
      ∃ r, (ls.map ResponseLine.render).flatten = '-' :: ' ' :: r := by
  cases ls with
  | nil => left; rfl
  | cons l ls =>
    right
    cases l with
    | param l => exact ⟨_, by simp [ResponseLine.render, ParamLine.render]; rfl⟩
    | malformed n t => exact ⟨_, by simp [ResponseLine.render]; rfl⟩

theorem lines_head_ok (ls : List ResponseLine) :
    ∀ c t, (ls.map ResponseLine.render).flatten = c :: t → isSpace c = false ∧ c ≠ '(' := by
  intro c t h
  rcases lines_head ls with h0 | ⟨r, hr⟩
  · rw [h0] at h; cases h
  · rw [hr] at h; cases h; exact ⟨by decide, by decide⟩

theorem regexSearch_param (l : ParamLine) (hw : l.WellFormed) (ls : List ResponseLine) :
    regexSearch paramRegex (l.render ++ (ls.map ResponseLine.render).flatten)
      = some ⟨lineCaps [] l, '\n' :: (ls.map ResponseLine.render).flatten⟩ := by
  apply regexSearch_of_matchHere
  rw [matchHere]
  exact paramRegex_line l hw _ _ _ (lines_head_ok ls) rfl

theorem regexSearch_malformed (name token : Str) (ls : List ResponseLine)
    (hn : name.all isWordChar = true) (hd : '-' ∉ token)
    (hbad : startsNumber (token.dropWhile isSpace) = false) :
    regexSearch paramRegex
        ((ResponseLine.malformed name token).render ++ (ls.map ResponseLine.render).flatten)
      = regexSearch paramRegex (ls.map ResponseLine.render).flatten := by
  have hname : ∀ c ∈ name, isWordChar c = true := by simpa [List.all_eq_true] using hn
  have hs : (ResponseLine.malformed name token).render ++ (ls.map ResponseLine.render).flatten
      = '-' :: ' ' :: (name ++ ':' :: ' ' :: (token ++ '\n' :: (ls.map ResponseLine.render).flatten)) := by
    simp [ResponseLine.render]
  have hfail := paramRegex_fail name
    (' ' :: (token ++ '\n' :: (ls.map ResponseLine.render).flatten))
    (fun rest caps => some (Match.mk caps rest)) hname
    (fun caps1 => whitespace_then_no_number _ token _
      (fun t ht => numberRegex_fail t caps1 _ ht) hbad (lines_head ls))
  rw [hs, regexSearch, matchHere, hfail]
  have hs2 : ' ' :: (name ++ ':' :: ' ' :: (token ++ '\n' :: (ls.map ResponseLine.render).flatten))
      = (' ' :: (name ++ ':' :: ' ' :: (token ++ ['\n']))) ++ (ls.map ResponseLine.render).flatten := by
    simp
  rw [hs2]
  apply regexSearch_paramRegex_skip
  intro c hc
  simp only [List.mem_cons, List.mem_append, List.mem_singleton, List.not_mem_nil, or_false] at hc
  rcases hc with rfl | h | rfl | rfl | h | rfl
  · decide
  · exact isWordChar_ne (hname c h) _ (by decide)
  · decide
  · decide
  · rintro rfl; exact hd h
  · decide

end Search
/-! ## The first loop on a dashed response -/

section Dashed

theorem regexIterate_lines (ls : List ResponseLine) (hall : ∀ l ∈ ls, l.Admissible) :
    ∀ (pre : Str) (fuel : Nat), (∀ c ∈ pre, c ≠ '-') → paramCount ls < fuel →
      regexIterate paramRegex fuel (pre ++ (ls.map ResponseLine.render).flatten)
        = expectedCaps ls := by
  induction ls with
  | nil =>
    intro pre fuel hpre hf
    obtain ⟨n, rfl⟩ : ∃ n, fuel = n + 1 := ⟨fuel - 1, by omega⟩
    have : regexSearch paramRegex (pre ++ []) = none := by
      rw [regexSearch_paramRegex_skip pre [] hpre]; rfl
    rw [List.append_nil] at this
    simp [regexIterate, expectedCaps, this]
  | cons l ls ih =>
    intro pre fuel hpre hf
    have ih2 := ih (fun x hx => hall x (List.mem_cons_of_mem _ hx))
    have hl := hall l (List.mem_cons_self _ _)
    cases l with
    | param l =>
      obtain ⟨n, rfl⟩ : ∃ n, fuel = n + 1 := ⟨fuel - 1, by simp [paramCount] at hf; omega⟩
      have hs : regexSearch paramRegex
          (pre ++ ((ResponseLine.param l :: ls).map ResponseLine.render).flatten)
          = some ⟨lineCaps [] l, '\n' :: (ls.map ResponseLine.render).flatten⟩ := by
        rw [List.map_cons, List.flatten_cons, regexSearch_paramRegex_skip pre _ hpre]
        exact regexSearch_param l hl.1 ls
      have hrec := ih2 ['\n'] n (by simp) (by simp [paramCount] at hf; omega)
      simp only [regexIterate, hs, expectedCaps]
      rw [← hrec]; rfl
    | malformed name token =>
      have hs : regexSearch paramRegex
          (pre ++ ((ResponseLine.malformed name token :: ls).map ResponseLine.render).flatten)
          = regexSearch paramRegex ([] ++ (ls.map ResponseLine.render).flatten) := by
        rw [List.map_cons, List.flatten_cons, regexSearch_paramRegex_skip pre _ hpre]
        exact regexSearch_malformed name token ls hl.1 hl.2.1 hl.2.2
      rw [regexIterate_congr _ _ _ _ hs]
      exact ih2 [] fuel (by simp) (by simpa [paramCount] using hf)

theorem trim_word (name : Str) (hne : name ≠ []) (hw : name.all isWordChar = true) (pre : Str)
    (hpre : ∀ c ∈ pre, isTrimChar c = true) : trim (pre ++ name) = name := by
  have hname : ∀ c ∈ name, isWordChar c = true := by simpa [List.all_eq_true] using hw
  obtain ⟨n0, ns, hn⟩ : ∃ n0 ns, name = n0 :: ns := by
    cases h : name with
    | nil => exact absurd h hne
    | cons a b => exact ⟨a, b, rfl⟩
  have h1 : (pre ++ name).dropWhile isTrimChar = name := by
    apply dropWhile_append_stop _ _ _ hpre
    intro c t h
    exact isWordChar_not_isTrimChar (hname c (by rw [h]; exact List.mem_cons_self _ _))
  rw [trim, h1, List.rdropWhile_eq_self_iff]
  intro hl
  simp [isWordChar_not_isTrimChar (hname _ (List.getLast_mem hl))]

theorem lineCaps_one (pre : Str) (l : ParamLine) : lineCaps pre l 1 = some (pre ++ l.name) := by
  cases h : l.description <;> simp [lineCaps, h, Caps.set]

theorem lineCaps_two (pre : Str) (l : ParamLine) : lineCaps pre l 2 = some l.number.render := by
  cases h : l.description <;> simp [lineCaps, h, Caps.set]

theorem lineCaps_three (pre : Str) (l : ParamLine) : lineCaps pre l 3 = l.description := by
  cases h : l.description <;> simp [lineCaps, h, Caps.set, Caps.empty]

theorem dashLoop_lines (erangeOnUnderflow : ℚ → Bool) (ls : List ResponseLine)
    (hall : ∀ l ∈ ls, l.Admissible) :
    dashLoop erangeOnUnderflow (expectedCaps ls)
      = .ok (ls.filterMap ResponseLine.toModification?) := by
  induction ls with
  | nil => rfl
  | cons l ls ih =>
    have ih2 := ih (fun x hx => hall x (List.mem_cons_of_mem _ hx))
    have hl := hall l (List.mem_cons_self _ _)
    cases l with
    | param l =>
      have ht : trim l.name = l.name := by
        simpa using trim_word l.name hl.1.1 hl.1.2.1 [] (by simp)
      simp only [expectedCaps, dashLoop, lineCaps_one, lineCaps_two, lineCaps_three,
        Option.getD_some, List.nil_append, stof_literal erangeOnUnderflow l.number hl.1.2.2.1 hl.2,
        ih2, ht]
      simp [ResponseLine.toModification?, ParamLine.toModification]
    | malformed name token =>
      simpa [expectedCaps, ResponseLine.toModification?] using ih2

theorem paramCount_le (ls : List ResponseLine) :
    paramCount ls ≤ ((ls.map ResponseLine.render).flatten).length := by
  induction ls with
  | nil => simp [paramCount]
  | cons l ls ih =>
    cases l with
    | param l =>
      simp only [paramCount, List.map_cons, List.flatten_cons, List.length_append,
        ResponseLine.render, ParamLine.render, List.length_cons, List.length_nil]
      omega
    | malformed n t =>
      simp only [paramCount, List.map_cons, List.flatten_cons, List.length_append]
      omega

theorem parametersPos_header (body : Str) :
    parametersPos ("PARAMETERS:\n".toList ++ body) = some 0 := by
  have : find ("PARAMETERS:\n".toList ++ body) "PARAMETERS:".toList = some 0 :=
    find_of_startsWith _ _ ⟨'\n' :: body, rfl⟩
  rw [parametersPos, this]

theorem filterMap_isEmpty (ls : List ResponseLine) (hsome : 0 < paramCount ls) :
    (ls.filterMap ResponseLine.toModification?).isEmpty = false := by
  induction ls with
  | nil => simp [paramCount] at hsome
  | cons l ls ih =>
    cases l with
    | param l => simp [ResponseLine.toModification?]
    | malformed n t =>
      simp only [List.filterMap_cons, ResponseLine.toModification?]
      exact ih (by simpa [paramCount] using hsome)

theorem extractModifications_lines (erangeOnUnderflow : ℚ → Bool) (ls : List ResponseLine)
    (hall : ∀ l ∈ ls, l.Admissible) (hsome : 0 < paramCount ls) :
    extractModifications erangeOnUnderflow (mixedResponse ls)
      = .ok (ls.filterMap ResponseLine.toModification?) := by
  have hm : regexMatches paramRegex (mixedResponse ls) = expectedCaps ls := by
    rw [regexMatches, mixedResponse]
    apply regexIterate_lines ls hall
    · intro c hc
      have : c ∈ "PARAMETERS:\n".toList := hc
      revert c; decide
    · have := paramCount_le ls
      simp only [List.length_append]
      omega
  have hp : parametersPos (mixedResponse ls) = some 0 := parametersPos_header _
  simp only [extractModifications, hp, List.drop_zero, hm, dashLoop_lines erangeOnUnderflow ls hall,
    filterMap_isEmpty ls hsome]
  rfl

end Dashed
/-! ## Responses without a marker -/

theorem infix_of_infix_toLower (m' text : Str) (h : m' <:+: toLower text) :
    ∃ m, m <:+: text ∧ toLower m = m' := by
  obtain ⟨s, u, hsu⟩ := h
  rw [toLower] at hsu
  obtain ⟨l1, l2, h1, h2, h3⟩ := List.map_eq_append_iff.mp hsu.symm
  obtain ⟨l3, l4, h4, h5, h6⟩ := List.map_eq_append_iff.mp h2
  exact ⟨l4, ⟨l3, l2, by rw [h1, h4]⟩, h6⟩

theorem no_marker_iff (text : Str) :
    (∀ m : Str, toLower m = "parameters:".toList → ¬ m <:+: text)
      ↔ find (toLower text) "parameters:".toList = none := by
  rw [find_eq_none_iff]
  constructor
  · intro h hi
    obtain ⟨m, hm, hl⟩ := infix_of_infix_toLower _ _ hi
    exact h m hl hm
  · intro h m hm hi
    apply h
    rw [← hm]
    obtain ⟨s, u, hsu⟩ := hi
    exact ⟨toLower s, toLower u, by rw [← hsu]; simp [toLower]⟩

theorem parametersPos_no_marker (text : Str)
    (h : ∀ m : Str, toLower m = "parameters:".toList → ¬ m <:+: text) :
    parametersPos text = none := by
  have h1 : find text "PARAMETERS:".toList = none :=
    (find_eq_none_iff _ _).2 (h _ (by decide))
  rw [parametersPos, h1]
  exact (no_marker_iff text).1 h
/-! ## The second loop on a response without dashes -/

section Plain

theorem plainResponse_eq (ls : List ParamLine) :
    plainResponse ls = "PARAMETERS".toList ++ ':' :: plainTail ls := by
  have h : ∀ ls : List ParamLine,
      '\n' :: (ls.map (fun l => l.body ++ ['\n'])).flatten = plainTail ls := by
    intro ls
    induction ls with
    | nil => rfl
    | cons l ls ih =>
      simp only [plainTail, List.map_cons, List.flatten_cons] at ih ⊢
      simp only [List.cons_append, List.append_assoc, List.singleton_append, List.nil_append, ih]
  rw [← h ls]; rfl

theorem isWordChar_cases {c : Char} (h : isWordChar c = true) :
    isLetter c = true ∨ isDigit c = true ∨ c = '_' := by
  simpa [isWordChar, or_assoc] using h

theorem isWordChar_not_isSign {c : Char} (h : isWordChar c = true) : isSign c = false := by
  cases hs : isSign c with
  | false => rfl
  | true =>
    have hc : c = '-' ∨ c = '+' := by simpa [isSign] using hs
    rcases hc with rfl | rfl <;> exact absurd h (by decide)

theorem isWordChar_not_dot {c : Char} (h : isWordChar c = true) : (c == '.') = false := by
  cases hs : (c == '.') with
  | false => rfl
  | true => rw [beq_iff_eq] at hs; subst hs; exact absurd h (by decide)

theorem word_not_startsNumber {c : Char} (h : isWordChar c = true) (hd : isDigit c = false)
    (r : Str) : startsNumber (c :: r) = false := by
  cases r <;> simp [startsNumber, startsUnsigned, isWordChar_not_isSign h, hd, isWordChar_not_dot h]

theorem plain_no_dash (ls : List ParamLine) (hall : ∀ l ∈ ls, l.Plain) :
    ∀ c ∈ plainResponse ls, c ≠ '-' := by
  intro c hc
  rw [plainResponse, List.mem_append] at hc
  rcases hc with hc | hc
  · revert c; decide
  · obtain ⟨s, hs, hcs⟩ := List.mem_flatten.mp hc
    obtain ⟨l, hl, rfl⟩ := List.mem_map.mp hs
    obtain ⟨hw, _, hd, hsg⟩ := hall l hl
    have hname : ∀ x ∈ l.name, isWordChar x = true := by
      simpa [List.all_eq_true] using hw.2.1
    simp only [ParamLine.body, ParamLine.descriptionText, hd, Literal.render, Literal.signText,
      hsg, List.append_nil, List.nil_append, List.mem_append, List.mem_singleton] at hcs
    rcases hcs with ((h | h) | h | h) | h
    · exact isWordChar_ne (hname c h) _ (by decide)
    · have h2 : c = ':' ∨ c = ' ' := by simpa using h
      rcases h2 with rfl | rfl <;> decide
    · exact isDigit_ne (all_digitChar _ c h) _ (by decide)
    · cases hf : l.number.fracDigits with
      | none => simp [Literal.fracText, hf] at h
      | some f =>
        simp only [Literal.fracText, hf, List.mem_cons] at h
        rcases h with rfl | h
        · decide
        · exact isDigit_ne (all_digitChar _ c h) _ (by decide)
    · subst h; decide

theorem regexMatches_paramRegex_none (s : Str) (h : ∀ c ∈ s, c ≠ '-') :
    regexMatches paramRegex s = [] := by
  have : regexSearch paramRegex s = none := by
    have := regexSearch_paramRegex_skip s [] h
    rw [List.append_nil] at this
    rw [this]; rfl
  simp [regexMatches, regexIterate, this]

theorem regexSearch_alt_skip (nm w : Str) (hnm : ∀ c ∈ nm, isNameChar c = true)
    (hw : ∀ caps1 : Caps, starMatch isSpace (fun rest => numberRegex.run rest caps1
      (fun rest caps2 => descriptionRegex.run rest caps2
        (fun rest caps => some (Match.mk caps rest)))) w = none) :
    regexSearch altParamRegex (nm ++ ':' :: w) = regexSearch altParamRegex w := by
  induction nm with
  | nil =>
    have := altParamRegex_fail [] w Caps.empty (fun rest caps => some (Match.mk caps rest))
      (by simp) hw
    simp only [List.nil_append] at this ⊢
    rw [regexSearch, matchHere, this]
  | cons n0 ns ih =>
    have := altParamRegex_fail (n0 :: ns) w Caps.empty
      (fun rest caps => some (Match.mk caps rest)) hnm hw
    rw [List.cons_append] at this ⊢
    rw [regexSearch, matchHere, this]
    exact ih (fun c hc => hnm c (List.mem_cons_of_mem _ hc))

theorem plainTail_cons (l : ParamLine) (ls : List ParamLine) :
    plainTail (l :: ls) = ['\n'] ++ l.body ++ plainTail ls := by
  simp [plainTail]

theorem plainTail_head (ls : List ParamLine) (hall : ∀ l ∈ ls, l.Plain) :
    ∃ rest, plainTail ls = '\n' :: rest ∧
      ∀ c t, rest = c :: t → isSpace c = false ∧ c ≠ '(' := by
  cases ls with
  | nil => exact ⟨[], rfl, by intro c t h; cases h⟩
  | cons l ls =>
    refine ⟨l.body ++ plainTail ls, by simp [plainTail], ?_⟩
    intro c t h
    obtain ⟨hw, _⟩ := hall l (List.mem_cons_self _ _)
    obtain ⟨n0, ns, hn⟩ : ∃ n0 ns, l.name = n0 :: ns := by
      cases h : l.name with
      | nil => exact absurd h hw.1
      | cons a b => exact ⟨a, b, rfl⟩
    have hn0 : isWordChar n0 = true := by
      have := hw.2.1; rw [List.all_eq_true] at this
      exact this n0 (by rw [hn]; exact List.mem_cons_self _ _)
    simp [ParamLine.body, hn] at h
    rw [← h.1]
    exact ⟨isWordChar_not_isSpace hn0, isWordChar_ne hn0 _ (by decide)⟩

theorem regexSearch_plain (l : ParamLine) (ls : List ParamLine)
    (hall : ∀ x ∈ l :: ls, x.Plain) :
    regexSearch altParamRegex (plainTail (l :: ls))
      = some ⟨lineCaps ['\n'] l, plainTail ls⟩ := by
  obtain ⟨rest, hrest, hhead⟩ := plainTail_head ls (fun x hx => hall x (List.mem_cons_of_mem _ hx))
  apply regexSearch_of_matchHere
  rw [matchHere, plainTail_cons, hrest]
  exact altParamRegex_line ['\n'] l (hall l (List.mem_cons_self _ _)).1 rest _ _
    (by simp; decide) hhead rfl

theorem regexIterate_plain (ls : List ParamLine) (hall : ∀ l ∈ ls, l.Plain) :
    ∀ fuel, ls.length < fuel →
      regexIterate altParamRegex fuel (plainTail ls) = ls.map (lineCaps ['\n']) := by
  induction ls with
  | nil =>
    intro fuel hf
    obtain ⟨n, rfl⟩ : ∃ n, fuel = n + 1 := ⟨fuel - 1, by omega⟩
    have : regexSearch altParamRegex (plainTail []) = none := rfl
    simp [regexIterate, this]
  | cons l ls ih =>
    intro fuel hf
    obtain ⟨n, rfl⟩ : ∃ n, fuel = n + 1 := ⟨fuel - 1, by omega⟩
    simp only [regexIterate, regexSearch_plain l ls hall, List.map_cons]
    rw [ih (fun x hx => hall x (List.mem_cons_of_mem _ hx)) n (by simpa using hf)]

theorem header_then_no_number (ls : List ParamLine) (hall : ∀ l ∈ ls, l.Plain)
    (hfirst : ∀ l c, ls.head? = some l → l.name.head? = some c → isDigit c = false)
    {α : Type} (k : Str → Option α) (hk : ∀ t, startsNumber t = false → k t = none) :
    starMatch isSpace k (plainTail ls) = none := by
  have hnl : isSpace '\n' = true := by decide
  cases ls with
  | nil =>
    simp [plainTail, starMatch, hnl, hk [] rfl, hk ['\n'] (isSpace_not_startsNumber hnl [])]
  | cons l ls =>
    obtain ⟨hw, _⟩ := hall l (List.mem_cons_self _ _)
    obtain ⟨n0, ns, hn⟩ : ∃ n0 ns, l.name = n0 :: ns := by
      cases h : l.name with
      | nil => exact absurd h hw.1
      | cons a b => exact ⟨a, b, rfl⟩
    have hn0 : isWordChar n0 = true := by
      have := hw.2.1; rw [List.all_eq_true] at this
      exact this n0 (by rw [hn]; exact List.mem_cons_self _ _)
    have hd0 : isDigit n0 = false := hfirst l n0 rfl (by rw [hn]; rfl)
    have hs : plainTail (l :: ls) = '\n' :: n0 :: (ns ++ ": ".toList ++ l.number.render ++
        l.descriptionText ++ plainTail ls) := by
      simp [plainTail, ParamLine.body, hn]
    rw [hs, starMatch, if_pos hnl,
      starMatch_stop _ _ _ (by intro c t h; cases h; exact isWordChar_not_isSpace hn0),
      hk _ (word_not_startsNumber hn0 hd0 _)]
    exact hk _ (isSpace_not_startsNumber hnl _)

theorem regexMatches_plain (ls : List ParamLine) (hall : ∀ l ∈ ls, l.Plain)
    (hfirst : ∀ l c, ls.head? = some l → l.name.head? = some c → isDigit c = false) :
    regexMatches altParamRegex (plainResponse ls) = ls.map (lineCaps ['\n']) := by
  have hskip : regexSearch altParamRegex (plainResponse ls)
      = regexSearch altParamRegex (plainTail ls) := by
    rw [plainResponse_eq]
    apply regexSearch_alt_skip
    · intro c hc; revert c; decide
    · intro caps1
      exact header_then_no_number ls hall hfirst _ (fun t ht => numberRegex_fail t caps1 _ ht)
  rw [regexMatches, regexIterate_congr _ _ _ _ hskip]
  apply regexIterate_plain ls hall
  have : ls.length ≤ ((ls.map (fun l => l.body ++ ['\n'])).flatten).length := by
    clear hall hfirst hskip
    induction ls with
    | nil => simp
    | cons l ls ih =>
      simp only [List.map_cons, List.flatten_cons, List.length_append, List.length_cons,
        List.length_nil]
      omega
  simp only [plainResponse, List.length_append]
  omega

theorem altLoop_plain (erangeOnUnderflow : ℚ → Bool) (ls : List ParamLine)
    (hall : ∀ l ∈ ls, l.Plain) :
    altLoop erangeOnUnderflow (ls.map (lineCaps ['\n']))
      = .ok ((notHeader ls).map ParamLine.toModification) := by
  induction ls with
  | nil => rfl
  | cons l ls ih =>
    obtain ⟨hw, hr, hd, _⟩ := hall l (List.mem_cons_self _ _)
    have ih2 := ih (fun x hx => hall x (List.mem_cons_of_mem _ hx))
    have ht : trim (['\n'] ++ l.name) = l.name :=
      trim_word l.name hw.1 hw.2.1 ['\n'] (by simp; decide)
    by_cases hne : l.name = "PARAMETERS".toList
    · have hf : notHeader (l :: ls) = notHeader ls := by
        have hne2 : ¬ decide (l.name ≠ "PARAMETERS".toList) = true := by simpa using hne
        rw [notHeader, List.filter_cons, if_neg hne2]; rfl
      rw [hf, List.map_cons, altLoop, lineCaps_one, Option.getD_some, ht, if_pos (Or.inl hne)]
      exact ih2
    · have hf : notHeader (l :: ls) = l :: notHeader ls := by
        have hne2 : decide (l.name ≠ "PARAMETERS".toList) = true := by simpa using hne
        rw [notHeader, List.filter_cons, if_pos hne2]; rfl
      rw [hf]
      simp only [List.map_cons, altLoop, lineCaps_one, lineCaps_two, lineCaps_three,
        Option.getD_some, ht, hne, hw.1, or_self, if_false,
        stof_literal erangeOnUnderflow l.number hw.2.2.1 hr, ih2]
      simp [ParamLine.toModification, hd]

theorem extractModifications_plainLines (erangeOnUnderflow : ℚ → Bool) (ls : List ParamLine)
    (hall : ∀ l ∈ ls, l.Plain)
    (hfirst : ∀ l c, ls.head? = some l → l.name.head? = some c → isDigit c = false) :
    extractModifications erangeOnUnderflow (plainResponse ls)
      = .ok ((notHeader ls).map ParamLine.toModification) := by
  have hp : parametersPos (plainResponse ls) = some 0 := parametersPos_header _
  simp only [extractModifications, hp, List.drop_zero,
    regexMatches_paramRegex_none _ (plain_no_dash ls hall), dashLoop, List.isEmpty_nil, if_true,
    regexMatches_plain ls hall hfirst, altLoop_plain erangeOnUnderflow ls hall]

end Plain
/-! ## Lemmas on `setParameterFromName` and `applyModifications` -/

section Apply
variable (host : Host) (rt : Runtime) (m : ParameterMapper)

theorem applyValue_cases (name : Str) (v : ℚ) (i : Nat) (patch : Patch) :
    ((applyValue host name v i patch).1 = true ∧ (applyValue host name v i patch).2.isDirty = true)
      ∨ applyValue host name v i patch = (false, patch) := by
  unfold applyValue
  split
  · left; exact ⟨rfl, rfl⟩
  · right; rfl

theorem tryVariationList_cases (name : Str) (v : ℚ) (patch : Patch) (vs : List Str) :
    ((tryVariationList host rt m name v patch vs).1 = true ∧
        (tryVariationList host rt m name v patch vs).2.isDirty = true)
      ∨ tryVariationList host rt m name v patch vs = (false, patch) := by
  induction vs with
  | nil => right; rfl
  | cons x xs ih =>
    unfold tryVariationList
    split
    · exact applyValue_cases host name v _ patch
    · exact ih

theorem setParameterFromName_cases (name : Str) (v : ℚ) (patch : Patch) :
    ((setParameterFromName host rt m name v patch).1 = true ∧
        (setParameterFromName host rt m name v patch).2.isDirty = true)
      ∨ setParameterFromName host rt m name v patch = (false, patch) := by
  unfold setParameterFromName
  split
  · exact applyValue_cases host name v _ patch
  · exact tryVariationList_cases host rt m name v patch _

theorem tryVariationList_unresolved (name : Str) (v : ℚ) (patch : Patch) (vs : List Str)
    (h : ∀ x ∈ vs, findParameterIndex rt m x < 0) :
    tryVariationList host rt m name v patch vs = (false, patch) := by
  induction vs with
  | nil => rfl
  | cons x xs ih =>
    have hx := h x (List.mem_cons_self _ _)
    rw [tryVariationList, if_neg (not_le.mpr hx)]
    exact ih (fun y hy => h y (List.mem_cons_of_mem _ hy))

theorem applySequence_dirty (mods : List PatchModification) (patch : Patch) :
    ((applySequence host rt m mods patch).1.any id = true →
        (applySequence host rt m mods patch).2.isDirty = true) ∧
      ((applySequence host rt m mods patch).1.any id = false →
        (applySequence host rt m mods patch).2 = patch) := by
  induction mods generalizing patch with
  | nil => simp [applySequence]
  | cons mod rest ih =>
    simp only [applySequence, List.any_cons, id_eq, Bool.or_eq_true, Bool.or_eq_false_iff]
    have hr := setParameterFromName_cases host rt m mod.parameterName mod.value patch
    have ih2 := ih (setParameterFromName host rt m mod.parameterName mod.value patch).2
    constructor
    · intro h
      cases hs : (applySequence host rt m rest
          (setParameterFromName host rt m mod.parameterName mod.value patch).2).1.any id with
      | true => exact ih2.1 hs
      | false =>
        rw [ih2.2 hs]
        rcases h with h | h
        · rcases hr with ⟨_, hd⟩ | hf
          · exact hd
          · rw [hf] at h; cases h
        · rw [hs] at h; cases h
    · rintro ⟨h1, h2⟩
      rw [ih2.2 h2]
      rcases hr with ⟨ht, _⟩ | hf
      · rw [ht] at h1; cases h1
      · rw [hf]

theorem applyLoop_eq (mods : List PatchModification) (st : ApplyState) :
    applyLoop host rt m mods st =
      ⟨st.allSuccess && (applySequence host rt m mods st.patch).1.all id,
        st.successCount + (applySequence host rt m mods st.patch).1.count true,
        (applySequence host rt m mods st.patch).2⟩ := by
  induction mods generalizing st with
  | nil => simp [applyLoop, applySequence]
  | cons mod rest ih =>
    rw [applyLoop]
    cases hr : (setParameterFromName host rt m mod.parameterName mod.value st.patch).1 with
    | true =>
      simp only [if_true, ih, applySequence, hr, List.all_cons, id_eq, Bool.true_and,
        List.count_cons_self]
      congr 1
      omega
    | false =>
      simp only [Bool.false_eq_true, if_false, ih, applySequence, hr, List.all_cons, id_eq,
        Bool.false_and, Bool.and_false]
      simp

end Apply
/-! ## Lemmas on the maps -/

section Maps

theorem IndexMap.mem_assign (m : IndexMap) (k : Str) (v : Int) (pair : Str × Int)
    (h : pair ∈ m.assign k v) : pair = (k, v) ∨ pair ∈ m := by
  induction m with
  | nil => left; simpa [IndexMap.assign] using h
  | cons x m ih =>
    obtain ⟨k1, w⟩ := x
    rw [IndexMap.assign] at h
    split at h
    · rename_i hk
      rcases List.mem_cons.mp h with h | h
      · left; rw [h, hk]
      · right; exact List.mem_cons_of_mem _ h
    · rcases List.mem_cons.mp h with h | h
      · right; rw [h]; exact List.mem_cons_self _ _
      · rcases ih h with h | h
        · left; exact h
        · right; exact List.mem_cons_of_mem _ h

theorem IndexMap.find_assign (m : IndexMap) (k : Str) (v : Int) (key : Str) :
    (m.assign k v).find key = if k = key then some v else m.find key := by
  induction m with
  | nil => simp [IndexMap.assign, IndexMap.find]
  | cons x m ih =>
    obtain ⟨k1, w⟩ := x
    rw [IndexMap.assign]
    by_cases hk : k1 = k
    · subst hk
      by_cases hkey : k1 = key <;> simp [IndexMap.find, hkey]
    · rw [if_neg hk]
      by_cases hkey : k1 = key
      · subst hkey
        have : ¬ k = k1 := fun h => hk h.symm
        simp [IndexMap.find, this]
      · simp [IndexMap.find, hkey, ih]

theorem IndexMap.find_some_mem (m : IndexMap) (key : Str) (v : Int)
    (h : m.find key = some v) : (key, v) ∈ m := by
  induction m with
  | nil => simp [IndexMap.find] at h
  | cons x m ih =>
    obtain ⟨k1, w⟩ := x
    rw [IndexMap.find] at h
    split at h
    · rename_i hk
      cases h; subst hk; exact List.mem_cons_self _ _
    · exact List.mem_cons_of_mem _ (ih h)

theorem IndexMap.find_none_iff_not_hasKey (m : IndexMap) (key : Str) :
    m.find key = none ↔ ¬ m.HasKey key := by
  induction m with
  | nil => simp [IndexMap.find, IndexMap.HasKey]
  | cons x m ih =>
    obtain ⟨k1, w⟩ := x
    rw [IndexMap.find]
    by_cases hk : k1 = key
    · simp only [hk, if_true]
      constructor
      · intro h; cases h
      · intro h; exact absurd ⟨(key, w), List.mem_cons_self _ _, rfl⟩ h
    · rw [if_neg hk, ih]
      constructor
      · rintro h ⟨pair, hp, hpk⟩
        rcases List.mem_cons.mp hp with rfl | hp
        · exact hk hpk
        · exact h ⟨pair, hp, hpk⟩
      · rintro h ⟨pair, hp, hpk⟩
        exact h ⟨pair, List.mem_cons_of_mem _ hp, hpk⟩

theorem IndexMap.hasKey_assign_self (m : IndexMap) (k : Str) (v : Int) :
    (m.assign k v).HasKey k := by
  have : (m.assign k v).find k = some v := by simp [IndexMap.find_assign]
  exact ⟨_, IndexMap.find_some_mem _ _ _ this, rfl⟩

theorem IndexMap.hasKey_assign (m : IndexMap) (k : Str) (v : Int) (key : Str)
    (h : m.HasKey key) : (m.assign k v).HasKey key := by
  by_contra hc
  rw [← IndexMap.find_none_iff_not_hasKey, IndexMap.find_assign] at hc
  split at hc
  · cases hc
  · exact (IndexMap.find_none_iff_not_hasKey _ _).1 hc h

theorem IndexMap.validFor_assign (m : IndexMap) (T : List (Option Parameter)) (k : Str) (j : Nat)
    (p : Parameter) (hj : T[j]? = some (some p)) (h : m.ValidFor T) :
    (m.assign k (j : Int)).ValidFor T := by
  intro pair hp
  rcases IndexMap.mem_assign _ _ _ _ hp with rfl | hp
  · exact ⟨j, p, rfl, hj⟩
  · exact h pair hp

theorem registerParameter_valid (T : List (Option Parameter)) (maps : IndexMap × IndexMap)
    (j : Nat) (p : Parameter) (hj : T[j]? = some (some p))
    (h : maps.1.ValidFor T ∧ maps.2.ValidFor T) :
    (registerParameter maps j p).1.ValidFor T ∧ (registerParameter maps j p).2.ValidFor T := by
  unfold registerParameter
  refine ⟨?_, ?_⟩
  · dsimp only
    split
    · exact IndexMap.validFor_assign _ T _ j p hj (IndexMap.validFor_assign _ T _ j p hj h.1)
    · exact IndexMap.validFor_assign _ T _ j p hj (IndexMap.validFor_assign _ T _ j p hj
        (IndexMap.validFor_assign _ T _ j p hj (IndexMap.validFor_assign _ T _ j p hj h.1)))
  · dsimp only
    split
    · exact h.2
    · exact IndexMap.validFor_assign _ T _ j p hj (IndexMap.validFor_assign _ T _ j p hj h.2)

theorem buildNameMaps_valid (T : List (Option Parameter)) :
    ∀ (ps : List (Option Parameter)) (i : Nat) (maps : IndexMap × IndexMap),
      (∀ k, k < ps.length → ps[k]? = T[i + k]?) →
      maps.1.ValidFor T ∧ maps.2.ValidFor T →
      (buildNameMaps ps i maps).1.ValidFor T ∧ (buildNameMaps ps i maps).2.ValidFor T := by
  intro ps
  induction ps with
  | nil => intro i maps _ h; exact h
  | cons x ps ih =>
    intro i maps hps h
    have hrest : ∀ k, k < ps.length → ps[k]? = T[i + 1 + k]? := by
      intro k hk
      have := hps (k + 1) (by simp; omega)
      rw [List.getElem?_cons_succ] at this
      rw [this]; congr 1; omega
    cases x with
    | none => exact ih (i + 1) maps hrest h
    | some p =>
      have hi : T[i]? = some (some p) := by
        have := hps 0 (by simp)
        simpa using this.symm
      exact ih (i + 1) _ hrest (registerParameter_valid T maps i p hi h)

theorem registerParameter_hasKey (maps : IndexMap × IndexMap) (j : Nat) (p : Parameter)
    (key : Str) (h : maps.1.HasKey key) : (registerParameter maps j p).1.HasKey key := by
  unfold registerParameter
  dsimp only
  split
  · exact IndexMap.hasKey_assign _ _ _ _ (IndexMap.hasKey_assign _ _ _ _ h)
  · exact IndexMap.hasKey_assign _ _ _ _ (IndexMap.hasKey_assign _ _ _ _
      (IndexMap.hasKey_assign _ _ _ _ (IndexMap.hasKey_assign _ _ _ _ h)))

theorem registerParameter_fullName (maps : IndexMap × IndexMap) (j : Nat) (p : Parameter) :
    (registerParameter maps j p).1.HasKey p.fullName := by
  unfold registerParameter
  dsimp only
  split
  · exact IndexMap.hasKey_assign _ _ _ _ (IndexMap.hasKey_assign_self _ _ _)
  · exact IndexMap.hasKey_assign _ _ _ _ (IndexMap.hasKey_assign _ _ _ _
      (IndexMap.hasKey_assign _ _ _ _ (IndexMap.hasKey_assign_self _ _ _)))

theorem buildNameMaps_hasKey (ps : List (Option Parameter)) (i : Nat)
    (maps : IndexMap × IndexMap) (key : Str) (h : maps.1.HasKey key) :
    (buildNameMaps ps i maps).1.HasKey key := by
  induction ps generalizing i maps with
  | nil => exact h
  | cons x ps ih =>
    cases x with
    | none => exact ih (i + 1) maps h
    | some p => exact ih (i + 1) _ (registerParameter_hasKey maps i p key h)

theorem buildNameMaps_fullName (ps : List (Option Parameter)) (i : Nat)
    (maps : IndexMap × IndexMap) (p : Parameter) (hp : some p ∈ ps) :
    (buildNameMaps ps i maps).1.HasKey p.fullName := by
  induction ps generalizing i maps with
  | nil => cases hp
  | cons x ps ih =>
    rcases List.mem_cons.mp hp with rfl | hp2
    · exact buildNameMaps_hasKey ps (i + 1) _ _ (registerParameter_fullName maps i p)
    · cases x with
      | none => exact ih (i + 1) maps hp2
      | some q => exact ih (i + 1) _ hp2

theorem buildParameterMaps_names_valid (rt : Runtime) (T : List (Option Parameter)) :
    (buildParameterMaps rt T).nameToIndexMap.ValidFor T ∧
      (buildParameterMaps rt T).oscNameToIndexMap.ValidFor T := by
  have := buildNameMaps_valid T T 0 ([], []) (by intro k _; simp)
    (And.intro (fun pair hp => by cases hp) (fun pair hp => by cases hp))
  exact this

end Maps
/-! ## Lemmas on the alias map -/

section Alias
variable (rt : Runtime)

theorem parameterAliases_keys_nodup : (parameterAliases.map Prod.fst).Nodup := by decide

theorem parameterAliases_lower : ∀ e ∈ parameterAliases, toLower e.1 = e.1 := by decide

theorem aliasWalk_keys_nodup (hrt : rt.Valid) : (rt.aliasWalk.map Prod.fst).Nodup :=
  (List.Perm.nodup_iff (hrt.2.map Prod.fst)).2 parameterAliases_keys_nodup

theorem aliasWalk_lower (hrt : rt.Valid) : ∀ e ∈ rt.aliasWalk, toLower e.1 = e.1 :=
  fun e he => parameterAliases_lower e (hrt.2.mem_iff.1 he)

theorem aliasTarget_exact (names : IndexMap) (target : Str) (i : Int)
    (h : names.find target = some i) : aliasTarget rt names target = some i := by
  simp [aliasTarget, h]

theorem aliasTarget_substring (hrt : rt.Valid) (names : IndexMap) (target : Str)
    (h : names.find target = none)
    (hex : ∃ pair ∈ names, contains pair.1 target = true) :
    ∃ pair ∈ names, contains pair.1 target = true ∧ aliasTarget rt names target = some pair.2 := by
  obtain ⟨q, hq, hqc⟩ := hex
  have hq2 : q ∈ rt.nameOrder names := (hrt.1 names).mem_iff.2 hq
  cases hf : (rt.nameOrder names).find? (fun pair => contains pair.1 target) with
  | none =>
    have := List.find?_eq_none.mp hf q hq2
    simp [hqc] at this
  | some pair =>
    refine ⟨pair, (hrt.1 names).mem_iff.1 (List.mem_of_find?_eq_some hf), ?_, ?_⟩
    · simpa using List.find?_some hf
    · simp [aliasTarget, h, hf]

theorem aliasTarget_none (hrt : rt.Valid) (names : IndexMap) (target : Str)
    (h : names.find target = none)
    (hex : ¬ ∃ pair ∈ names, contains pair.1 target = true) :
    aliasTarget rt names target = none := by
  have hf : (rt.nameOrder names).find? (fun pair => contains pair.1 target) = none := by
    rw [List.find?_eq_none]
    intro q hq hc
    exact hex ⟨q, (hrt.1 names).mem_iff.1 hq, by simpa using hc⟩
  simp [aliasTarget, h, hf]

theorem aliasTarget_mem (hrt : rt.Valid) (names : IndexMap) (target : Str) (i : Int)
    (h : aliasTarget rt names target = some i) : ∃ pair ∈ names, pair.2 = i := by
  rw [aliasTarget] at h
  split at h
  · rename_i j hj
    cases h
    exact ⟨_, IndexMap.find_some_mem _ _ _ hj, rfl⟩
  · cases hf : (rt.nameOrder names).find? (fun pair => contains pair.1 target) with
    | none => simp [hf] at h
    | some pair =>
      simp [hf] at h
      exact ⟨pair, (hrt.1 names).mem_iff.1 (List.mem_of_find?_eq_some hf), h⟩

theorem aliasStep_find_other (names am : IndexMap) (e : Str × Str) (key : Str)
    (h1 : e.1 ≠ key) (h2 : toLower e.1 ≠ key) :
    (aliasStep rt names am e).find key = am.find key := by
  unfold aliasStep
  split
  · simp [IndexMap.find_assign, h1, h2]
  · rfl

theorem aliasStep_find_self (names am : IndexMap) (e : Str × Str) (hl : toLower e.1 = e.1) :
    (aliasStep rt names am e).find e.1 =
      match aliasTarget rt names e.2 with
      | some i => some i
      | none => am.find e.1 := by
  unfold aliasStep
  split
  · simp [IndexMap.find_assign, hl]
  · rfl

theorem aliasFold_find_other (names : IndexMap) (walk : List (Str × Str)) (am : IndexMap)
    (key : Str) (hl : ∀ e ∈ walk, toLower e.1 = e.1) (h : key ∉ walk.map Prod.fst) :
    (walk.foldl (aliasStep rt names) am).find key = am.find key := by
  induction walk generalizing am with
  | nil => rfl
  | cons e walk ih =>
    have he : e.1 ≠ key := fun hk => h (by simp [← hk])
    rw [List.foldl_cons, ih _ (fun x hx => hl x (List.mem_cons_of_mem _ hx))
      (fun hk => h (by simp at hk ⊢; right; exact hk))]
    exact aliasStep_find_other rt names am e key he
      (by rw [hl e (List.mem_cons_self _ _)]; exact he)

theorem aliasFold_find (names : IndexMap) (walk : List (Str × Str)) (am : IndexMap)
    (a t : Str) (hl : ∀ e ∈ walk, toLower e.1 = e.1) (hnd : (walk.map Prod.fst).Nodup)
    (hmem : (a, t) ∈ walk) (ham : am.find a = none) :
    (walk.foldl (aliasStep rt names) am).find a = aliasTarget rt names t := by
  induction walk generalizing am with
  | nil => cases hmem
  | cons e walk ih =>
    rw [List.map_cons, List.nodup_cons] at hnd
    rw [List.foldl_cons]
    rcases List.mem_cons.mp hmem with rfl | hm
    · rw [aliasFold_find_other rt names walk _ a
        (fun x hx => hl x (List.mem_cons_of_mem _ hx)) hnd.1]
      have := aliasStep_find_self rt names am (a, t) (hl _ (List.mem_cons_self _ _))
      simp only at this
      rw [this]
      cases aliasTarget rt names t with
      | none => exact ham
      | some i => rfl
    · have hne : e.1 ≠ a := by
        intro hk
        exact hnd.1 (by rw [hk]; exact List.mem_map.mpr ⟨(a, t), hm, rfl⟩)
      apply ih _ (fun x hx => hl x (List.mem_cons_of_mem _ hx)) hnd.2 hm
      rw [aliasStep_find_other rt names am e a hne
        (by rw [hl e (List.mem_cons_self _ _)]; exact hne)]
      exact ham

theorem buildAliasMap_find (hrt : rt.Valid) (names : IndexMap) (a t : Str)
    (hmem : (a, t) ∈ parameterAliases) :
    (buildAliasMap rt names).find a = aliasTarget rt names t :=
  aliasFold_find rt names rt.aliasWalk [] a t (aliasWalk_lower rt hrt)
    (aliasWalk_keys_nodup rt hrt) (hrt.2.mem_iff.2 hmem) rfl

theorem aliasStep_valid (hrt : rt.Valid) (T : List (Option Parameter)) (names am : IndexMap)
    (e : Str × Str) (hn : names.ValidFor T) (ha : am.ValidFor T) :
    (aliasStep rt names am e).ValidFor T := by
  unfold aliasStep
  split
  · rename_i i hi
    obtain ⟨pair, hp, rfl⟩ := aliasTarget_mem rt hrt names e.2 i hi
    obtain ⟨j, p, hj, hT⟩ := hn pair hp
    rw [hj]
    exact IndexMap.validFor_assign _ T _ j p hT (IndexMap.validFor_assign _ T _ j p hT ha)
  · exact ha

theorem aliasFold_valid (hrt : rt.Valid) (T : List (Option Parameter)) (names : IndexMap)
    (walk : List (Str × Str)) (am : IndexMap) (hn : names.ValidFor T) (ha : am.ValidFor T) :
    (walk.foldl (aliasStep rt names) am).ValidFor T := by
  induction walk generalizing am with
  | nil => exact ha
  | cons e walk ih => exact ih _ (aliasStep_valid rt hrt T names am e hn ha)

theorem buildParameterMaps_alias_valid (hrt : rt.Valid) (T : List (Option Parameter)) :
    (buildParameterMaps rt T).aliasToIndexMap.ValidFor T :=
  aliasFold_valid rt hrt T _ _ [] (buildParameterMaps_names_valid rt T).1
    (fun pair hp => by cases hp)

end Alias
/-! ## Claims on `APIClient::extractModifications` -/

set_option maxRecDepth 100000 in
/-- C1, as stated, fails: the one-line response `- a: 1000000000000000000000000000000000000000`
is in the format of the claim, but its number is beyond the range of `float`, `std::stof` raises
`std::out_of_range`, and no list is returned. -/
theorem extractModifications_dashed_overflow :
    ¬ ∀ (erangeOnUnderflow : ℚ → Bool) (lines : List ParamLine), lines ≠ [] →
      (∀ l ∈ lines, l.WellFormed) →
      extractModifications erangeOnUnderflow (dashedResponse lines)
        = .ok (lines.map ParamLine.toModification) := by
  intro h
  have h1 := h (fun _ => false) [overflowLine] (by decide) (by decide)
  revert h1
  with_unfolding_all decide

/-- C1, amended: for every non-empty list of well-formed lines `- name: number`, each optionally
followed by ` (description)`, whose numbers are zero or of the magnitude of a normal `float`,
`extractModifications` applied to `PARAMETERS:` followed by those lines returns exactly one
modification per line, in line order, with the line's name, the value its literal denotes and its
description (empty when it has none). -/
theorem extractModifications_dashed (erangeOnUnderflow : ℚ → Bool) (lines : List ParamLine)
    (hne : lines ≠ []) (hall : ∀ l ∈ lines, l.WellFormed ∧ l.number.InFloatRange) :
    extractModifications erangeOnUnderflow (dashedResponse lines)
      = .ok (lines.map ParamLine.toModification) := by
  have h := extractModifications_lines erangeOnUnderflow (lines.map ResponseLine.param)
    (by
      intro l hl
      obtain ⟨p, hp, rfl⟩ := List.mem_map.mp hl
      exact hall p hp)
    (by
      cases lines with
      | nil => exact absurd rfl hne
      | cons l ls => simp [paramCount])
  have h1 : mixedResponse (lines.map ResponseLine.param) = dashedResponse lines := by
    simp [mixedResponse, dashedResponse, List.map_map, Function.comp_def, ResponseLine.render]
  have h2 : (lines.map ResponseLine.param).filterMap ResponseLine.toModification?
      = lines.map ParamLine.toModification := by
    clear h h1 hall hne
    induction lines with
    | nil => rfl
    | cons l ls ih => simp [ResponseLine.toModification?, ih]
  rw [h1, h2] at h
  exact h

set_option maxRecDepth 100000 in
/-- Witness of `extractModifications_dashed` on three lines, one with a description and one with
a sign. -/
theorem extractModifications_dashed_witness :
    sampleLines ≠ [] ∧ (∀ l ∈ sampleLines, l.WellFormed ∧ l.number.InFloatRange) ∧
      extractModifications (fun _ => true)
          "PARAMETERS:\n- osc1_type: 2 (Wavetable)\n- filter1_cutoff: 0.5\n- pan: -0.25\n".toList
        = .ok [⟨"osc1_type".toList, 2, "Wavetable".toList⟩,
               ⟨"filter1_cutoff".toList, 1 / 2, []⟩, ⟨"pan".toList, -1 / 4, []⟩] :=
  ⟨by decide, by with_unfolding_all decide,
    (extractModifications_dashed (fun _ => true) sampleLines (by decide)
      (by with_unfolding_all decide)).trans (by with_unfolding_all decide)⟩

/-- C2: a response that contains no letter-case variant of the marker `PARAMETERS:` gives the
empty list. -/
theorem extractModifications_no_marker (erangeOnUnderflow : ℚ → Bool) (responseText : Str)
    (h : ∀ m : Str, toLower m = "parameters:".toList → ¬ m <:+: responseText) :
    extractModifications erangeOnUnderflow responseText = .ok [] := by
  rw [extractModifications, parametersPos_no_marker responseText h]

set_option maxRecDepth 100000 in
/-- Witness of `extractModifications_no_marker` on the prose of the unit test. -/
theorem extractModifications_no_marker_witness :
    (∀ m : Str, toLower m = "parameters:".toList →
        ¬ m <:+: "This is just descriptive text without parameters.".toList) ∧
      extractModifications (fun _ => true)
        "This is just descriptive text without parameters.".toList = .ok [] :=
  ⟨(no_marker_iff _).2 (by decide),
    extractModifications_no_marker _ _ ((no_marker_iff _).2 (by decide))⟩

set_option maxRecDepth 100000 in
/-- A line named `PARAMETERS` is skipped by the guard of the second loop: the response
`PARAMETERS:` followed by `PARAMETERS: 5` gives the empty list. -/
theorem extractModifications_plain_header_name :
    extractModifications (fun _ => false) (plainResponse [headerNameLine]) = .ok [] := by
  with_unfolding_all decide

set_option maxRecDepth 100000 in
/-- C3, as stated, fails: on `PARAMETERS:` followed by the line `1abc: 5` the pattern matches the
header with the value `1`, that match is skipped, and the line is extracted under the name `abc`. -/
theorem extractModifications_plain_digit_name :
    ¬ ∀ (erangeOnUnderflow : ℚ → Bool) (lines : List ParamLine), lines ≠ [] →
      (∀ l ∈ lines, l.WellFormed ∧ l.description = none ∧ l.number.sign = none) →
      extractModifications erangeOnUnderflow (plainResponse lines)
        = .ok (lines.map ParamLine.toModification) := by
  intro h
  have h1 := h (fun _ => false) [digitNameLine] (by decide) (by decide)
  revert h1
  with_unfolding_all decide

/-- C3, amended: for every list of lines `name: number` without a leading dash, with names that
are non-empty words, the first of which does not begin with a digit, and unsigned decimal literals
that are zero or of the magnitude of a normal `float`, `extractModifications` applied to
`PARAMETERS:` followed by those lines returns exactly one modification per line whose name is not
the word `PARAMETERS` (such a line is skipped like the header), in line order, with that name and
value; so no returned modification is named `PARAMETERS`. -/
theorem extractModifications_plain (erangeOnUnderflow : ℚ → Bool) (lines : List ParamLine)
    (hall : ∀ l ∈ lines, l.Plain)
    (hfirst : ∀ l c, lines.head? = some l → l.name.head? = some c → isDigit c = false) :
    extractModifications erangeOnUnderflow (plainResponse lines)
        = .ok ((notHeader lines).map ParamLine.toModification) ∧
      ∀ m ∈ (notHeader lines).map ParamLine.toModification,
        m.parameterName ≠ "PARAMETERS".toList := by
  refine ⟨extractModifications_plainLines erangeOnUnderflow lines hall hfirst, ?_⟩
  intro m hm
  obtain ⟨l, hl, rfl⟩ := List.mem_map.mp hm
  have := (List.mem_filter.mp hl).2
  simpa using this

set_option maxRecDepth 100000 in
/-- Witness of `extractModifications_plain` on the response of the unit test. -/
theorem extractModifications_plain_witness :
    (∀ l ∈ samplePlainLines, l.Plain) ∧
      (∀ l c, samplePlainLines.head? = some l → l.name.head? = some c → isDigit c = false) ∧
      extractModifications (fun _ => true)
          "PARAMETERS:\nosc1_type: 1\nfilter1_resonance: 0.3\n".toList
        = .ok [⟨"osc1_type".toList, 1, []⟩, ⟨"filter1_resonance".toList, 3 / 10, []⟩] :=
  ⟨by with_unfolding_all decide,
    by intro l c hl hc; cases hl; cases hc; decide,
    (extractModifications_plain (fun _ => true) samplePlainLines (by with_unfolding_all decide)
      (by intro l c hl hc; cases hl; cases hc; decide)).1.trans (by with_unfolding_all decide)⟩

set_option maxRecDepth 100000 in
/-- C4 on the response of the integration test on malformed values: the lines with the tokens
`abc` and the empty token contribute nothing, but the token `0.8.5` is not skipped: the number
pattern matches its beginning `0.8` and the line contributes the modification `volume = 0.8`. -/
theorem extractModifications_malformed_test :
    extractModifications (fun _ => false)
        "\nPARAMETERS:\n- osc1_type: abc\n- filter1_cutoff: 0.5\n- amp_attack: \n- volume: 0.8.5\n- good_param: 0.3\n".toList
      = .ok [⟨"filter1_cutoff".toList, 1 / 2, []⟩, ⟨"volume".toList, 4 / 5, []⟩,
             ⟨"good_param".toList, 3 / 10, []⟩] := by
  with_unfolding_all decide

set_option maxRecDepth 100000 in
/-- The statement of C4 does not hold for all tokens that are not decimal literals: the lines of
the integration test are a counterexample. -/
theorem extractModifications_malformed_prefix :
    ¬ ∀ (erangeOnUnderflow : ℚ → Bool) (lines : List ResponseLine),
      (∀ l ∈ lines, l.AsStated) →
      extractModifications erangeOnUnderflow (mixedResponse lines)
        = .ok (lines.filterMap ResponseLine.toModification?) := by
  intro h
  have h1 := h (fun _ => false) malformedTestLines (by with_unfolding_all decide)
  revert h1
  with_unfolding_all decide

/-- What does hold of C4: in a dashed response with at least one well-formed line, a line whose
value token contains no dash and, after its leading white space, does not begin with a number (an
optional sign, then a digit or a point and a digit) contributes no modification, and every
well-formed line (with a number that is zero or of the magnitude of a normal `float`) is still
extracted with its own name, value and description, in line order. -/
theorem extractModifications_mixed (erangeOnUnderflow : ℚ → Bool) (lines : List ResponseLine)
    (hall : ∀ l ∈ lines, l.Admissible) (hsome : ∃ l, ResponseLine.param l ∈ lines) :
    extractModifications erangeOnUnderflow (mixedResponse lines)
      = .ok (lines.filterMap ResponseLine.toModification?) := by
  apply extractModifications_lines erangeOnUnderflow lines hall
  obtain ⟨p, hp⟩ := hsome
  clear hall
  induction lines with
  | nil => cases hp
  | cons l ls ih =>
    cases l with
    | param q => simp [paramCount]
    | malformed n t =>
      rcases List.mem_cons.mp hp with h | h
      · cases h
      · simpa [paramCount] using ih h

set_option maxRecDepth 100000 in
/-- The theorem `extractModifications_mixed` on the integration test's response without its line
`- volume: 0.8.5`. -/
theorem extractModifications_mixed_witness :
    (∀ l ∈ skippedTestLines, l.Admissible) ∧ (∃ l, ResponseLine.param l ∈ skippedTestLines) ∧
      extractModifications (fun _ => true)
          "PARAMETERS:\n- osc1_type: abc\n- filter1_cutoff: 0.5\n- amp_attack: \n- good_param: 0.3\n".toList
        = .ok [⟨"filter1_cutoff".toList, 1 / 2, []⟩, ⟨"good_param".toList, 3 / 10, []⟩] :=
  ⟨by with_unfolding_all decide, ⟨_, List.mem_cons_of_mem _ (List.mem_cons_self _ _)⟩,
    (extractModifications_mixed (fun _ => true) skippedTestLines (by with_unfolding_all decide)
      ⟨_, List.mem_cons_of_mem _ (List.mem_cons_self _ _)⟩).trans (by with_unfolding_all decide)⟩
/-! ## Claims on `setParameterFromName` and `applyModifications` -/

/-- C9: when neither the name nor any of its six variations is resolved by
`findParameterIndex`, `setParameterFromName` returns `false` and the patch (every parameter and
the dirty flag) is as before the call. -/
theorem setParameterFromName_unresolved (host : Host) (rt : Runtime) (m : ParameterMapper)
    (paramName : Str) (value : ℚ) (patch : Patch)
    (hname : findParameterIndex rt m paramName < 0)
    (hvar : ∀ v ∈ variations paramName, findParameterIndex rt m v < 0) :
    setParameterFromName host rt m paramName value patch = (false, patch) := by
  rw [setParameterFromName, if_neg (not_le.mpr hname), tryParameterVariations]
  exact tryVariationList_unresolved host rt m paramName value patch _ hvar

set_option maxRecDepth 100000 in
/-- Witness of `setParameterFromName_unresolved`: the name `invalid_parameter` of the unit test,
on a mapper built for a patch of two parameters. -/
theorem setParameterFromName_unresolved_witness :
    findParameterIndex plainRuntime sampleMapper "invalid_parameter".toList < 0 ∧
      (∀ v ∈ variations "invalid_parameter".toList,
        findParameterIndex plainRuntime sampleMapper v < 0) ∧
      setParameterFromName linearHost plainRuntime sampleMapper "invalid_parameter".toList (1 / 2)
        samplePatch = (false, samplePatch) :=
  ⟨by with_unfolding_all decide, by with_unfolding_all decide,
    setParameterFromName_unresolved _ _ _ _ _ _ (by with_unfolding_all decide)
      (by with_unfolding_all decide)⟩

/-- C10: `applyModifications` returns `true` exactly when `setParameterFromName`, applied to the
modifications one after the other, succeeds every time (so `true` for the empty list); every
modification is attempted, and the patch it leaves is the one left by those calls in turn. -/
theorem applyModifications_eq_applySequence (host : Host) (rt : Runtime) (m : ParameterMapper)
    (modifications : List PatchModification) (patch : Patch) :
    applyModifications host rt m modifications patch =
      ((applySequence host rt m modifications patch).1.all id,
        (applySequence host rt m modifications patch).2) ∧
      (applySequence host rt m modifications patch).1.length = modifications.length := by
  constructor
  · rw [applyModifications, applyLoop_eq]
    simp only [Bool.true_and, Nat.zero_add]
    congr 1
    split
    · rename_i h
      have hany : (applySequence host rt m modifications patch).1.any id = true := by
        rw [List.any_eq_true]
        exact ⟨true, List.count_pos_iff.mp h, rfl⟩
      have hd := (applySequence_dirty host rt m modifications patch).1 hany
      rcases hp : (applySequence host rt m modifications patch).2 with ⟨pp, d⟩
      rw [hp] at hd
      simp only at hd
      rw [hd]
    · rfl
  · induction modifications generalizing patch with
    | nil => rfl
    | cons mod rest ih => simp [applySequence, ih]
/-! ## Claims on `findParameterIndex` and `buildAliasMap` -/

section Resolve

theorem ValidFor.nonneg {m : IndexMap} {T : List (Option Parameter)} (h : m.ValidFor T)
    (pair : Str × Int) (hp : pair ∈ m) : 0 ≤ pair.2 := by
  obtain ⟨j, _, hj, _⟩ := h pair hp
  rw [hj]; exact Int.natCast_nonneg j

theorem find?_order_none (rt : Runtime) (hrt : rt.Valid) (names : IndexMap)
    (f : Str × Int → Bool) :
    (rt.nameOrder names).find? f = none ↔ ∀ pair ∈ names, f pair = false := by
  rw [List.find?_eq_none]
  constructor
  · intro h pair hp
    simpa using h pair ((hrt.1 names).mem_iff.2 hp)
  · intro h pair hp
    simp [h pair ((hrt.1 names).mem_iff.1 hp)]

theorem sceneAMatch_anyMatch (lowerName : Str) (pair : Str × Int)
    (h : sceneAMatch lowerName pair = true) : anyMatch lowerName pair = true := by
  simp only [sceneAMatch, Bool.and_eq_true] at h
  exact h.2

end Resolve

/-- C5: `findParameterIndex` resolves a name by the first tier that applies: (1) the lower-cased
name is a key of the alias map; (2) the name is a key of the name table; (3) the lower-cased name
is a key of the name table; (4) the lower-cased name is a key of the OSC table; (5) some key of
the name table, lower-cased, contains the lower-cased name. It returns the index stored for the
matching key of that tier (for tier 5, for one of the matching keys), and it returns -1 exactly
when no tier applies. -/
theorem findParameterIndex_tiers (rt : Runtime) (hrt : rt.Valid)
    (param_ptr : List (Option Parameter)) (m : ParameterMapper)
    (hm : m = buildParameterMaps rt param_ptr) (name : Str) :
    (∀ i, m.aliasToIndexMap.find (toLower name) = some i → findParameterIndex rt m name = i) ∧
    (m.aliasToIndexMap.find (toLower name) = none →
      ∀ i, m.nameToIndexMap.find name = some i → findParameterIndex rt m name = i) ∧
    (m.aliasToIndexMap.find (toLower name) = none → m.nameToIndexMap.find name = none →
      ∀ i, m.nameToIndexMap.find (toLower name) = some i → findParameterIndex rt m name = i) ∧
    (m.aliasToIndexMap.find (toLower name) = none → m.nameToIndexMap.find name = none →
      m.nameToIndexMap.find (toLower name) = none →
      ∀ i, m.oscNameToIndexMap.find (toLower name) = some i → findParameterIndex rt m name = i) ∧
    (m.aliasToIndexMap.find (toLower name) = none → m.nameToIndexMap.find name = none →
      m.nameToIndexMap.find (toLower name) = none →
      m.oscNameToIndexMap.find (toLower name) = none →
      (∃ pair ∈ m.nameToIndexMap, contains (toLower pair.1) (toLower name) = true) →
      ∃ pair ∈ m.nameToIndexMap, contains (toLower pair.1) (toLower name) = true ∧
        findParameterIndex rt m name = pair.2) ∧
    (findParameterIndex rt m name = -1 ↔
      m.aliasToIndexMap.find (toLower name) = none ∧ m.nameToIndexMap.find name = none ∧
      m.nameToIndexMap.find (toLower name) = none ∧
      m.oscNameToIndexMap.find (toLower name) = none ∧
      ¬ ∃ pair ∈ m.nameToIndexMap, contains (toLower pair.1) (toLower name) = true) := by
  have hval := buildParameterMaps_names_valid rt param_ptr
  have haval := buildParameterMaps_alias_valid rt hrt param_ptr
  rw [← hm] at hval haval
  have hnn : ∀ (mp : IndexMap), mp.ValidFor param_ptr → ∀ key i, mp.find key = some i → i ≠ -1 := by
    intro mp hmp key i hf hi
    have := ValidFor.nonneg hmp _ (IndexMap.find_some_mem _ _ _ hf)
    simp only at this
    omega
  refine ⟨?_, ?_, ?_, ?_, ?_, ?_⟩
  · intro i h; simp [findParameterIndex, h]
  · intro h1 i h; simp [findParameterIndex, h1, h]
  · intro h1 h2 i h; simp [findParameterIndex, h1, h2, h]
  · intro h1 h2 h3 i h; simp [findParameterIndex, h1, h2, h3, h]
  · intro h1 h2 h3 h4 hex
    simp only [findParameterIndex, h1, h2, h3, h4]
    cases hA : (rt.nameOrder m.nameToIndexMap).find? (sceneAMatch (toLower name)) with
    | some pair =>
      exact ⟨pair, (hrt.1 _).mem_iff.1 (List.mem_of_find?_eq_some hA),
        sceneAMatch_anyMatch _ _ (List.find?_some hA), rfl⟩
    | none =>
      cases hB : (rt.nameOrder m.nameToIndexMap).find? (anyMatch (toLower name)) with
      | some pair =>
        exact ⟨pair, (hrt.1 _).mem_iff.1 (List.mem_of_find?_eq_some hB),
          (List.find?_some hB : anyMatch (toLower name) pair = true), rfl⟩
      | none =>
        obtain ⟨q, hq, hqc⟩ := hex
        have := (find?_order_none rt hrt _ _).1 hB q hq
        rw [anyMatch, hqc] at this
        cases this
  · constructor
    · intro h
      rw [findParameterIndex] at h
      cases h1 : m.aliasToIndexMap.find (toLower name) with
      | some i => rw [h1] at h; exact absurd h (hnn _ haval _ _ h1)
      | none =>
        cases h2 : m.nameToIndexMap.find name with
        | some i => rw [h1, h2] at h; exact absurd h (hnn _ hval.1 _ _ h2)
        | none =>
          cases h3 : m.nameToIndexMap.find (toLower name) with
          | some i => rw [h1, h2, h3] at h; exact absurd h (hnn _ hval.1 _ _ h3)
          | none =>
            cases h4 : m.oscNameToIndexMap.find (toLower name) with
            | some i => rw [h1, h2, h3, h4] at h; exact absurd h (hnn _ hval.2 _ _ h4)
            | none =>
              refine ⟨rfl, rfl, rfl, rfl, ?_⟩
              rintro ⟨q, hq, hqc⟩
              rw [h1, h2, h3, h4] at h
              simp only at h
              cases hA : (rt.nameOrder m.nameToIndexMap).find? (sceneAMatch (toLower name)) with
              | some pair =>
                rw [hA] at h
                have := ValidFor.nonneg hval.1 pair
                  ((hrt.1 _).mem_iff.1 (List.mem_of_find?_eq_some hA))
                simp only at h
                omega
              | none =>
                cases hB : (rt.nameOrder m.nameToIndexMap).find? (anyMatch (toLower name)) with
                | some pair =>
                  rw [hA, hB] at h
                  have := ValidFor.nonneg hval.1 pair
                    ((hrt.1 _).mem_iff.1 (List.mem_of_find?_eq_some hB))
                  simp only at h
                  omega
                | none =>
                  have := (find?_order_none rt hrt _ _).1 hB q hq
                  rw [anyMatch, hqc] at this
                  cases this
    · rintro ⟨h1, h2, h3, h4, h5⟩
      have hB : (rt.nameOrder m.nameToIndexMap).find? (anyMatch (toLower name)) = none := by
        rw [find?_order_none rt hrt]
        intro pair hp
        cases hc : anyMatch (toLower name) pair with
        | false => rfl
        | true => exact absurd ⟨pair, hp, hc⟩ h5
      have hA : (rt.nameOrder m.nameToIndexMap).find? (sceneAMatch (toLower name)) = none := by
        rw [find?_order_none rt hrt]
        intro pair hp
        cases hc : sceneAMatch (toLower name) pair with
        | false => rfl
        | true => exact absurd ⟨pair, hp, sceneAMatch_anyMatch _ _ hc⟩ h5
      simp [findParameterIndex, h1, h2, h3, h4, hA, hB]
theorem plainRuntime_valid : plainRuntime.Valid :=
  ⟨fun _ => List.Perm.refl _, List.Perm.refl _⟩

theorem applyValue_true (host : Host) (name : Str) (v : ℚ) (i : Nat) (patch : Patch)
    (p : Parameter) (h : patch.param_ptr[i]? = some (some p)) :
    (applyValue host name v i patch).1 = true := by
  simp [applyValue, h]

theorem tryVariationList_eq (host : Host) (rt : Runtime) (m : ParameterMapper) (name : Str)
    (v : ℚ) (patch : Patch) (vs : List Str) :
    tryVariationList host rt m name v patch vs =
      match (vs.find? (fun x => findParameterIndex rt m x ≥ 0)).map
          (fun x => (findParameterIndex rt m x).toNat) with
      | some i => applyValue host name v i patch
      | none => (false, patch) := by
  induction vs with
  | nil => rfl
  | cons x xs ih =>
    rw [tryVariationList]
    by_cases hx : findParameterIndex rt m x ≥ 0
    · simp [hx]
    · simp [hx, ih]

theorem setParameterFromName_eq (host : Host) (rt : Runtime) (m : ParameterMapper) (name : Str)
    (v : ℚ) (patch : Patch) :
    setParameterFromName host rt m name v patch =
      match resolvedIndex rt m name with
      | some i => applyValue host name v i patch
      | none => (false, patch) := by
  rw [setParameterFromName, resolvedIndex]
  by_cases h : findParameterIndex rt m name ≥ 0
  · simp [h]
  · simp only [h, if_false, tryParameterVariations]
    exact tryVariationList_eq host rt m name v patch _

/-- C6: after `buildParameterMaps`, for every entry (alias, target) of the alias table: if the
target is a key of the name table, the alias maps to that key's index; otherwise, if some key of
the name table contains the target, the alias maps to the index of one such key; otherwise the
alias is not mapped. Hence `setParameterFromName` succeeds for every alias whose target occurs in
the display name of some parameter. -/
theorem buildAliasMap_entries (rt : Runtime) (hrt : rt.Valid)
    (param_ptr : List (Option Parameter)) (m : ParameterMapper)
    (hm : m = buildParameterMaps rt param_ptr) (aliasName target : Str)
    (hmem : (aliasName, target) ∈ parameterAliases) :
    (∀ i, m.nameToIndexMap.find target = some i → m.aliasToIndexMap.find aliasName = some i) ∧
    (m.nameToIndexMap.find target = none →
      (∃ pair ∈ m.nameToIndexMap, contains pair.1 target = true) →
      ∃ pair ∈ m.nameToIndexMap, contains pair.1 target = true ∧
        m.aliasToIndexMap.find aliasName = some pair.2) ∧
    (m.nameToIndexMap.find target = none →
      (¬ ∃ pair ∈ m.nameToIndexMap, contains pair.1 target = true) →
      m.aliasToIndexMap.find aliasName = none) ∧
    (∀ p, some p ∈ param_ptr → contains p.fullName target = true →
      ∀ (host : Host) (value : ℚ) (patch : Patch), patch.param_ptr = param_ptr →
        (setParameterFromName host rt m aliasName value patch).1 = true) := by
  have hfind : m.aliasToIndexMap.find aliasName = aliasTarget rt m.nameToIndexMap target := by
    rw [hm]; exact buildAliasMap_find rt hrt _ aliasName target hmem
  have h2 : m.nameToIndexMap.find target = none →
      (∃ pair ∈ m.nameToIndexMap, contains pair.1 target = true) →
      ∃ pair ∈ m.nameToIndexMap, contains pair.1 target = true ∧
        m.aliasToIndexMap.find aliasName = some pair.2 := by
    intro hn hex
    rw [hfind]
    exact aliasTarget_substring rt hrt _ _ hn hex
  refine ⟨?_, h2, ?_, ?_⟩
  · intro i hi
    rw [hfind]; exact aliasTarget_exact rt _ _ _ hi
  · intro hn hex
    rw [hfind]; exact aliasTarget_none rt hrt _ _ hn hex
  · intro p hp hc host value patch hpatch
    have hkey : m.nameToIndexMap.HasKey p.fullName := by
      rw [hm]; exact buildNameMaps_fullName param_ptr 0 ([], []) p hp
    obtain ⟨i, hi⟩ : ∃ i, m.aliasToIndexMap.find aliasName = some i := by
      cases hn : m.nameToIndexMap.find target with
      | some i => exact ⟨i, by rw [hfind]; exact aliasTarget_exact rt _ _ _ hn⟩
      | none =>
        obtain ⟨q, hq, hqk⟩ := hkey
        obtain ⟨pair, _, _, hpa⟩ := h2 hn ⟨q, hq, by rw [hqk]; exact hc⟩
        exact ⟨pair.2, hpa⟩
    have haval := buildParameterMaps_alias_valid rt hrt param_ptr
    rw [← hm] at haval
    obtain ⟨j, q, hj, hq⟩ := haval _ (IndexMap.find_some_mem _ _ _ hi)
    simp only at hj
    have hlow : toLower aliasName = aliasName := parameterAliases_lower _ hmem
    have hidx : findParameterIndex rt m aliasName = (j : Int) := by
      simp [findParameterIndex, hlow, hi, hj]
    rw [setParameterFromName, hidx, if_pos (Int.natCast_nonneg j), Int.toNat_ofNat]
    exact applyValue_true host aliasName value j patch q (by rw [hpatch]; exact hq)

set_option maxRecDepth 100000 in
/-- Witness of `findParameterIndex_tiers`: on the mapper of the sample patch, `CUTOFF` is
resolved through the alias map to the cutoff at position 0. -/
theorem findParameterIndex_tiers_witness :
    plainRuntime.Valid ∧ sampleMapper = buildParameterMaps plainRuntime samplePatch.param_ptr ∧
      findParameterIndex plainRuntime sampleMapper "CUTOFF".toList = 0 :=
  ⟨plainRuntime_valid, rfl,
    (findParameterIndex_tiers plainRuntime plainRuntime_valid samplePatch.param_ptr sampleMapper
      rfl "CUTOFF".toList).1 0 (by with_unfolding_all decide)⟩

set_option maxRecDepth 100000 in
/-- Witness of `buildAliasMap_entries`: the alias `cutoff` (target `Filter 1 Cutoff`) on the
sample patch is mapped to position 0, and setting it succeeds. -/
theorem buildAliasMap_entries_witness :
    plainRuntime.Valid ∧ sampleMapper = buildParameterMaps plainRuntime samplePatch.param_ptr ∧
      ("cutoff".toList, "Filter 1 Cutoff".toList) ∈ parameterAliases ∧
      (setParameterFromName linearHost plainRuntime sampleMapper "cutoff".toList (3 / 5)
        samplePatch).1 = true :=
  ⟨plainRuntime_valid, rfl, by decide,
    (buildAliasMap_entries plainRuntime plainRuntime_valid samplePatch.param_ptr sampleMapper rfl
      "cutoff".toList "Filter 1 Cutoff".toList (by decide)).2.2.2 cutoffParam
      (by decide) (by decide) linearHost (3 / 5) samplePatch rfl⟩
/-! ## Claims on the value written by `setParameterFromName` -/

theorem truncate_add_half (n : Int) (hn : 0 ≤ n) : truncate ((n : ℚ) + 1 / 2) = n := by
  have hpos : (0 : ℚ) ≤ (n : ℚ) + 1 / 2 := by
    have : (0 : ℚ) ≤ (n : ℚ) := by exact_mod_cast hn
    linarith
  rw [truncate, if_pos hpos, Int.floor_eq_iff]
  constructor <;> norm_num

theorem linearHost_keepsOwnValue : linearHost.KeepsOwnValue := by
  intro patch i p hp hv hlt hlo hhi
  obtain ⟨n1, n2, n3, vt, vi, vmin, vmax, vf, vminf, vmaxf⟩ := p
  dsimp only at hv hlt hlo hhi
  subst hv
  have hd : ((vmax : ℚ) - (vmin : ℚ)) ≠ 0 := by
    have : (vmin : ℚ) < (vmax : ℚ) := by exact_mod_cast hlt
    linarith
  have h1 : (100 / 99 * (5 / 1000 + 99 / 100 * ((vi : ℚ) - vmin) / (vmax - vmin) - 5 / 1000)
      * ((vmax : ℚ) - vmin) + 1 / 2) = ((vi - vmin : Int) : ℚ) + 1 / 2 := by
    push_cast
    field_simp
    ring
  have hval : linearSet01 ⟨n1, n2, n3, .vt_int, vi, vmin, vmax, vf, vminf, vmaxf⟩
      (linearValue01 ⟨n1, n2, n3, .vt_int, vi, vmin, vmax, vf, vminf, vmaxf⟩)
      = ⟨n1, n2, n3, .vt_int, vi, vmin, vmax, vf, vminf, vmaxf⟩ := by
    simp only [linearSet01, linearValue01, h1]
    rw [truncate_add_half _ (by omega)]
    simp
  have hlen : i < patch.param_ptr.length := by
    by_contra hc
    rw [List.getElem?_eq_none (by omega)] at hp
    cases hp
  simp only [linearHost, hp, hval]
  rw [List.getElem?_set_self hlen]

theorem getElem?_lt_length {α : Type} (l : List α) (i : Nat) (x : α) (h : l[i]? = some x) :
    i < l.length := by
  by_contra hc
  rw [List.getElem?_eq_none (by omega)] at h
  cases h

set_option maxRecDepth 100000 in
/-- The continuous branch does not pass on the clamped request for every host and value: with a
host that normalizes by the range of the parameter, the request `1.5` for a cutoff of range
`[-60, 70]` is not clamped to `1.0`; it is first normalized to `61.5 / 130`, so the parameter
ends at `1.5` and not at its maximum `70`. -/
theorem setParameterFromName_not_clamp :
    ¬ ∀ (host : Host) (rt : Runtime) (m : ParameterMapper) (paramName : Str) (value : ℚ)
        (patch : Patch) (i : Nat) (p : Parameter),
      resolvedIndex rt m paramName = some i → patch.param_ptr[i]? = some (some p) →
      p.valtype ≠ ValType.vt_int →
      setParameterFromName host rt m paramName value patch
        = (true, { host.setParameter01 patch i (max 0 (min 1 value)) with isDirty := true }) := by
  intro h
  have h1 := h linearHost plainRuntime sampleMapper "A Filter 1 Cutoff".toList (3 / 2)
    samplePatch 0 cutoffParam (by with_unfolding_all decide) (by decide) (by decide)
  revert h1
  with_unfolding_all decide

/-- What the continuous branch computes: for every parameter that is not integer-valued,
addressed by a name that does not contain `_type`, a successful `setParameterFromName` passes to
`setParameter01` the value `clamp(n, 0, 1)`, where `n` is the requested value `v` when
`0 ≤ v ≤ 1` and the parameter's `value_to_normalized(v)` otherwise; a value already in `[0, 1]`
is passed on as given. -/
theorem setParameterFromName_continuous (host : Host) (rt : Runtime) (m : ParameterMapper)
    (paramName : Str) (value : ℚ) (patch : Patch) (i : Nat) (p : Parameter)
    (hres : resolvedIndex rt m paramName = some i)
    (hp : patch.param_ptr[i]? = some (some p))
    (hv : p.valtype ≠ ValType.vt_int) (hname : contains paramName "_type".toList = false) :
    setParameterFromName host rt m paramName value patch
        = (true, { host.setParameter01 patch i
            (max 0 (min 1 (if 0 ≤ value ∧ value ≤ 1 then value
              else host.value_to_normalized p value))) with isDirty := true }) ∧
      (0 ≤ value → value ≤ 1 →
        setParameterFromName host rt m paramName value patch
          = (true, { host.setParameter01 patch i value with isDirty := true })) := by
  have hmain : setParameterFromName host rt m paramName value patch
      = (true, { host.setParameter01 patch i
          (max 0 (min 1 (if 0 ≤ value ∧ value ≤ 1 then value
            else host.value_to_normalized p value))) with isDirty := true }) := by
    rw [setParameterFromName_eq, hres]
    simp only [applyValue, hp, hv, hname, Bool.false_eq_true, or_self, if_false, continuousValue]
    by_cases hin : 0 ≤ value ∧ value ≤ 1
    · have : ¬ (value > 1 ∨ value < 0) := by
        rintro (h | h) <;> [exact absurd hin.2 (not_le.mpr h); exact absurd hin.1 (not_le.mpr h)]
      rw [if_neg this, if_pos hin]
    · have : value > 1 ∨ value < 0 := by
        by_contra hc
        push_neg at hc
        exact hin ⟨hc.2, hc.1⟩
      rw [if_pos this, if_neg hin]
  refine ⟨hmain, ?_⟩
  intro h0 h1
  rw [hmain, if_pos ⟨h0, h1⟩, min_eq_right h1, max_eq_right h0]

set_option maxRecDepth 100000 in
/-- Witness of `setParameterFromName_continuous`: the request `0.5` for the cutoff of the sample
patch. -/
theorem setParameterFromName_continuous_witness :
    resolvedIndex plainRuntime sampleMapper "A Filter 1 Cutoff".toList = some 0 ∧
      samplePatch.param_ptr[0]? = some (some cutoffParam) ∧
      cutoffParam.valtype ≠ ValType.vt_int ∧
      contains "A Filter 1 Cutoff".toList "_type".toList = false ∧
      setParameterFromName linearHost plainRuntime sampleMapper "A Filter 1 Cutoff".toList (1 / 2)
          samplePatch
        = (true, { linearHost.setParameter01 samplePatch 0 (1 / 2) with isDirty := true }) :=
  ⟨by with_unfolding_all decide, by decide, by decide, by decide,
    (setParameterFromName_continuous linearHost plainRuntime sampleMapper
      "A Filter 1 Cutoff".toList (1 / 2) samplePatch 0 cutoffParam
      (by with_unfolding_all decide) (by decide) (by decide) (by decide)).2
      (by norm_num) (by norm_num)⟩

set_option maxRecDepth 100000 in
/-- The discrete branch does not store the clamped truncation of the request for every host and
value: the request `2^31` does not fit an `int`, the conversion yields the smallest `int` on a
platform like x86, and an oscillator type of range `[0, 11]` ends at `0`, not at `11`. -/
theorem setParameterFromName_int_overflow :
    ¬ ∀ (host : Host) (rt : Runtime) (m : ParameterMapper) (paramName : Str) (value : ℚ)
        (patch : Patch) (i : Nat) (p : Parameter),
      host.KeepsOwnValue → resolvedIndex rt m paramName = some i →
      patch.param_ptr[i]? = some (some p) → p.valtype = ValType.vt_int →
      p.val_min_i < p.val_max_i →
      (setParameterFromName host rt m paramName value patch).2.param_ptr[i]?
        = some (some { p with
            val_i := max p.val_min_i (min p.val_max_i (truncate value)) }) := by
  intro h
  have h1 := h linearHost plainRuntime sampleMapper "osc1_type".toList (2 ^ 31)
    samplePatch 2 oscTypeParam linearHost_keepsOwnValue (by with_unfolding_all decide)
    (by decide) (by decide) (by decide)
  revert h1
  with_unfolding_all decide

/-- What the discrete branch computes: for every integer-valued parameter with
`val_min < val_max`, on a host that leaves a parameter unchanged when it is sent its own
normalized value, a successful `setParameterFromName` leaves the parameter's integer value inside
`[val_min, val_max]` for every requested value `v`; and when `v` truncated toward zero fits a
32 bit `int`, that value is `v` truncated toward zero and then clamped into
`[val_min, val_max]`. -/
theorem setParameterFromName_discrete (host : Host) (rt : Runtime) (m : ParameterMapper)
    (paramName : Str) (value : ℚ) (patch : Patch) (i : Nat) (p : Parameter)
    (hhost : host.KeepsOwnValue) (hres : resolvedIndex rt m paramName = some i)
    (hp : patch.param_ptr[i]? = some (some p)) (hv : p.valtype = ValType.vt_int)
    (hlt : p.val_min_i < p.val_max_i) :
    (setParameterFromName host rt m paramName value patch).1 = true ∧
      (setParameterFromName host rt m paramName value patch).2.param_ptr[i]?
        = some (some { p with val_i := discreteValue host p value }) ∧
      p.val_min_i ≤ discreteValue host p value ∧ discreteValue host p value ≤ p.val_max_i ∧
      (-2 ^ 31 ≤ truncate value → truncate value < 2 ^ 31 →
        discreteValue host p value = max p.val_min_i (min p.val_max_i (truncate value))) := by
  have hlo : p.val_min_i ≤ discreteValue host p value := by
    rw [discreteValue, if_pos hlt]; exact le_max_left _ _
  have hhi : discreteValue host p value ≤ p.val_max_i := by
    rw [discreteValue, if_pos hlt]
    exact max_le (le_of_lt hlt) (min_le_left _ _)
  have hlen := getElem?_lt_length _ _ _ hp
  have hkeep := hhost
    { patch with
      param_ptr := (patch.param_ptr.set i (some { p with val_i := discreteValue host p value })) }
    i { p with val_i := discreteValue host p value }
    (by simp only; rw [List.getElem?_set_self hlen]) hv hlt hlo hhi
  refine ⟨?_, ?_, hlo, hhi, ?_⟩
  · rw [setParameterFromName_eq, hres]
    exact applyValue_true host paramName value i patch p hp
  · rw [setParameterFromName_eq, hres]
    simp only [applyValue, hp]
    rw [if_pos (Or.inl hv)]
    exact hkeep
  · intro h1 h2
    rw [discreteValue, if_pos hlt, staticCastInt, if_pos ⟨h1, h2⟩]

set_option maxRecDepth 100000 in
/-- Witness of `setParameterFromName_discrete`: the request `100` of the unit test for the
oscillator type of the sample patch, which ends at its maximum `11`. -/
theorem setParameterFromName_discrete_witness :
    linearHost.KeepsOwnValue ∧
      resolvedIndex plainRuntime sampleMapper "osc1_type".toList = some 2 ∧
      samplePatch.param_ptr[2]? = some (some oscTypeParam) ∧
      oscTypeParam.valtype = ValType.vt_int ∧ oscTypeParam.val_min_i < oscTypeParam.val_max_i ∧
      (setParameterFromName linearHost plainRuntime sampleMapper "osc1_type".toList 100
          samplePatch).2.param_ptr[2]? = some (some { oscTypeParam with val_i := 11 }) :=
  ⟨linearHost_keepsOwnValue, by with_unfolding_all decide, by decide, by decide, by decide,
    (setParameterFromName_discrete linearHost plainRuntime sampleMapper "osc1_type".toList 100
      samplePatch 2 oscTypeParam linearHost_keepsOwnValue (by with_unfolding_all decide)
      (by decide) (by decide) (by decide)).2.1.trans (by with_unfolding_all decide)⟩

set_option maxRecDepth 100000 in
/-- Claim C7 fails in the code, on the requests of the unit test "Parameter Value Validation".
For `filter1_cutoff` and the request `1.5` ("Should clamp to 1.0"), on a cutoff of range
`[-60, 70]` and a host that normalizes by the range, `setParameterFromName` succeeds and passes
`61.5 / 130` to `setParameter01`, not `1.0`; for the request `-0.5` ("Should clamp to 0.0") it
passes `59.5 / 130`, not `0.0`. In both cases the patch differs from the one the clamped request
gives. -/
theorem setParameterFromName_test_not_clamped :
    setParameterFromName linearHost plainRuntime sampleMapper "filter1_cutoff".toList (3 / 2)
        samplePatch
      = (true, { linearHost.setParameter01 samplePatch 0 (123 / 260) with isDirty := true }) ∧
    setParameterFromName linearHost plainRuntime sampleMapper "filter1_cutoff".toList (-1 / 2)
        samplePatch
      = (true, { linearHost.setParameter01 samplePatch 0 (119 / 260) with isDirty := true }) ∧
    linearHost.setParameter01 samplePatch 0 (123 / 260)
      ≠ linearHost.setParameter01 samplePatch 0 1 ∧
    linearHost.setParameter01 samplePatch 0 (119 / 260)
      ≠ linearHost.setParameter01 samplePatch 0 0 := by
  refine ⟨?_, ?_, ?_, ?_⟩ <;> with_unfolding_all decide

set_option maxRecDepth 100000 in
/-- Claim C8 fails in the code: for `osc1_type`, of range `[0, 11]`, and the request `2^31`,
whose truncation clamped into the range is `11`, the conversion to `int` comes before the
clamp; where it yields the smallest `int`, as on x86, the parameter ends at `0`. -/
theorem setParameterFromName_cast_before_clamp :
    (setParameterFromName linearHost plainRuntime sampleMapper "osc1_type".toList (2 ^ 31)
        samplePatch).1 = true ∧
    (setParameterFromName linearHost plainRuntime sampleMapper "osc1_type".toList (2 ^ 31)
        samplePatch).2.param_ptr[2]? = some (some { oscTypeParam with val_i := 0 }) ∧
    max oscTypeParam.val_min_i (min oscTypeParam.val_max_i (truncate (2 ^ 31))) = 11 := by
  refine ⟨?_, ?_, ?_⟩ <;> with_unfolding_all decide

end Surge.Claude

/-! # Properties of the patch database -/

namespace Surge.PatchDB

open Surge.Claude

/-! ## `toNormalizedVector` -/

section Field
variable {K : Type} [LinearOrderedField K]

theorem fxSlots_length (l : List (FXData K)) :
    ((l.map fxSlotEntries).flatten).length = 2 * l.length := by
  induction l with
  | nil => rfl
  | cons s l ih => simp [fxSlotEntries, ih]; omega

theorem fxEntries_length (fx : List (FXData K)) :
    (fxEntries fx).length = 2 * min fx.length 8 := by
  rw [fxEntries, fxSlots_length, List.length_take, Nat.min_comm]

theorem fixedEntries_length (d : ExtractedPatchData K) : (fixedEntries d).length = 29 := rfl

theorem toNormalizedVector_length (d : ExtractedPatchData K) :
    (toNormalizedVector d).length = 50 := by
  have := fxEntries_length d.fx
  simp only [toNormalizedVector, padTo50, List.length_append, List.length_replicate,
    fixedEntries_length]
  omega

theorem fxSlots_get (l : List (FXData K)) (i : Nat) (slot : FXData K) (h : l[i]? = some slot) :
    ((l.map fxSlotEntries).flatten)[2 * i]? = some (if slot.enabled then 1 else 0) ∧
    ((l.map fxSlotEntries).flatten)[2 * i + 1]? = some (slot.params.headD 0) := by
  induction l generalizing i with
  | nil => simp at h
  | cons s l ih =>
    cases i with
    | zero =>
      simp only [List.getElem?_cons_zero, Option.some.injEq] at h
      subst h
      cases hp : s.params <;> simp [fxSlotEntries, hp]
    | succ i =>
      simp only [List.getElem?_cons_succ] at h
      have := ih i h
      simp only [List.map_cons, List.flatten_cons, fxSlotEntries, List.cons_append,
        List.nil_append, Nat.mul_succ, List.getElem?_cons_succ]
      exact this

theorem unit_of_int (n m : Int) (hm : 0 < m) (h0 : 0 ≤ n) (h1 : n ≤ m) :
    0 ≤ (n : K) / (m : K) ∧ (n : K) / (m : K) ≤ 1 := by
  have hm' : (0 : K) < (m : K) := by exact_mod_cast hm
  have h0' : (0 : K) ≤ (n : K) := by exact_mod_cast h0
  have h1' : (n : K) ≤ (m : K) := by exact_mod_cast h1
  exact ⟨div_nonneg h0' hm'.le, (div_le_one hm').2 h1'⟩

theorem fxEntries_range (l : List (FXData K))
    (h : ∀ slot ∈ l, ∀ p ∈ slot.params.take 1, 0 ≤ p ∧ p ≤ 1) :
    ∀ x ∈ (l.map fxSlotEntries).flatten, 0 ≤ x ∧ x ≤ (1 : K) := by
  intro x hx
  simp only [List.mem_flatten, List.mem_map] at hx
  obtain ⟨es, ⟨slot, hslot, rfl⟩, hx⟩ := hx
  simp only [fxSlotEntries, List.mem_cons, List.mem_singleton, List.not_mem_nil, or_false] at hx
  rcases hx with rfl | rfl
  · split <;> simp
  · cases hp : slot.params with
    | nil => simp
    | cons p ps => exact h slot hslot p (by simp [hp])

/-- Claim C15: `toNormalizedVector` returns exactly 50 entries for every patch data, whatever
the number of its FX slots; and when the fields it reads lie in their ranges (oscillator types
in 0..15, pitches in [-60, 60], filter types in 0..12, LFO shapes in 0..8, every other field and
the first parameter of each FX slot read in [0, 1]), every entry of the vector is in [0, 1]. -/
theorem toNormalizedVector_length_range (d : ExtractedPatchData K) :
    (toNormalizedVector d).length = 50 ∧
    (InputsInRange d → ∀ x ∈ toNormalizedVector d, 0 ≤ x ∧ x ≤ 1) := by
  refine ⟨toNormalizedVector_length d, ?_⟩
  rintro ⟨hosc, hpitch, hfilt, hlfo, hunit, hfx⟩ x hx
  simp only [toNormalizedVector, padTo50, List.mem_append, List.mem_replicate] at hx
  rcases hx with (hx | hx) | ⟨-, rfl⟩
  · have pitch : ∀ p : K, -60 ≤ p ∧ p ≤ 60 → 0 ≤ (p + 60) / 120 ∧ (p + 60) / 120 ≤ 1 := by
      rintro p ⟨h0, h1⟩
      constructor
      · apply div_nonneg <;> linarith
      · rw [div_le_one (by norm_num)]; linarith
    have osc : ∀ t : Int, 0 ≤ t ∧ t ≤ 15 → 0 ≤ (t : K) / 15 ∧ (t : K) / 15 ≤ 1 := by
      rintro t ⟨h0, h1⟩
      simpa using unit_of_int (K := K) t 15 (by norm_num) h0 h1
    have filt : ∀ t : Int, 0 ≤ t ∧ t ≤ 12 → 0 ≤ (t : K) / 12 ∧ (t : K) / 12 ≤ 1 := by
      rintro t ⟨h0, h1⟩
      simpa using unit_of_int (K := K) t 12 (by norm_num) h0 h1
    have lfo : ∀ t : Int, 0 ≤ t ∧ t ≤ 8 → 0 ≤ (t : K) / 8 ∧ (t : K) / 8 ≤ 1 := by
      rintro t ⟨h0, h1⟩
      simpa using unit_of_int (K := K) t 8 (by norm_num) h0 h1
    simp only [fixedEntries, List.mem_cons, List.mem_singleton, List.not_mem_nil, or_false] at hx
    rcases hx with rfl | rfl | rfl | rfl | rfl | rfl | rfl | rfl | rfl | rfl | rfl | rfl | rfl |
      rfl | rfl | rfl | rfl | rfl | rfl | rfl | rfl | rfl | rfl | rfl | rfl | rfl | rfl | rfl | rfl
    all_goals first
      | exact osc _ (hosc _ (by simp))
      | exact pitch _ (hpitch _ (by simp))
      | exact filt _ (hfilt _ (by simp))
      | exact lfo _ (hlfo _ (by simp))
      | exact hunit _ (by simp)
  · exact fxEntries_range _ hfx x hx
  · simp

end Field

theorem toNormalizedVector_length_range_witness :
    InputsInRange samplePatchData ∧
      ∀ x ∈ toNormalizedVector samplePatchData, 0 ≤ x ∧ x ≤ 1 :=
  have h : InputsInRange samplePatchData := by
    simp [InputsInRange, samplePatchData, zeroScene]; norm_num
  ⟨h, (toNormalizedVector_length_range samplePatchData).2 h⟩

section Field
variable {K : Type} [LinearOrderedField K]

theorem toNormalizedVector_fixed (d : ExtractedPatchData K) (j : Nat) (hj : j < 29) :
    (toNormalizedVector d)[j]? = (fixedEntries d)[j]? := by
  rw [toNormalizedVector, padTo50, List.append_assoc,
    List.getElem?_append_left (by rw [fixedEntries_length]; exact hj)]

theorem toNormalizedVector_after (d : ExtractedPatchData K) (j : Nat) :
    (toNormalizedVector d)[29 + j]? =
      (fxEntries d.fx ++ List.replicate (50 - (29 + (fxEntries d.fx).length)) 0)[j]? := by
  rw [toNormalizedVector, padTo50, List.append_assoc,
    List.getElem?_append_right (by rw [fixedEntries_length]; omega), fixedEntries_length,
    List.length_append, fixedEntries_length]
  simp

/-- Claim C16: the layout of `toNormalizedVector`. Entry 0 is `sceneA.osc1_type / 15`, entry 3
is `(sceneA.osc1_pitch + 60) / 120`, entry 6 is `sceneA.filter1_type / 12`, entry 8 is
`sceneA.filter1_cutoff`, entries 22 and 23 are the Scene A LFO shapes divided by 8, entry 28 is
the volume (and the first 29 entries are the fixed fields in the order of the source); for each
FX slot `i < min(fx.size, 8)` entry `29 + 2i` is 1 or 0 as the slot is enabled or not and entry
`30 + 2i` is the first parameter of the slot, 0 when it has none; every entry after those and
below 50 is 0. -/
theorem toNormalizedVector_layout (d : ExtractedPatchData K) :
    (toNormalizedVector d)[0]? = some ((d.sceneA.osc1_type : K) / 15) ∧
    (toNormalizedVector d)[3]? = some ((d.sceneA.osc1_pitch + 60) / 120) ∧
    (toNormalizedVector d)[6]? = some ((d.sceneA.filter1_type : K) / 12) ∧
    (toNormalizedVector d)[8]? = some d.sceneA.filter1_cutoff ∧
    (toNormalizedVector d)[22]? = some ((d.sceneA.lfo1_shape : K) / 8) ∧
    (toNormalizedVector d)[23]? = some ((d.sceneA.lfo2_shape : K) / 8) ∧
    (toNormalizedVector d)[28]? = some d.volume ∧
    (toNormalizedVector d).take 29 = fixedEntries d ∧
    (∀ (i : Nat) (slot : FXData K), i < 8 → d.fx[i]? = some slot →
      (toNormalizedVector d)[29 + 2 * i]? = some (if slot.enabled then 1 else 0) ∧
      (toNormalizedVector d)[30 + 2 * i]? = some (slot.params.headD 0)) ∧
    (∀ j, 29 + 2 * min d.fx.length 8 ≤ j → j < 50 → (toNormalizedVector d)[j]? = some 0) := by
  refine ⟨?_, ?_, ?_, ?_, ?_, ?_, ?_, ?_, ?_, ?_⟩
  · rw [toNormalizedVector_fixed d 0 (by norm_num)]; rfl
  · rw [toNormalizedVector_fixed d 3 (by norm_num)]; rfl
  · rw [toNormalizedVector_fixed d 6 (by norm_num)]; rfl
  · rw [toNormalizedVector_fixed d 8 (by norm_num)]; rfl
  · rw [toNormalizedVector_fixed d 22 (by norm_num)]; rfl
  · rw [toNormalizedVector_fixed d 23 (by norm_num)]; rfl
  · rw [toNormalizedVector_fixed d 28 (by norm_num)]; rfl
  · rw [toNormalizedVector, padTo50, List.append_assoc, List.take_append_eq_append_take,
      fixedEntries_length]
    simp [fixedEntries_length]
  · intro i slot hi hslot
    have hlen := fxEntries_length d.fx
    have hil : i < d.fx.length := by
      rcases Nat.lt_or_ge i d.fx.length with h | h
      · exact h
      · rw [List.getElem?_eq_none h] at hslot; cases hslot
    have htake : (d.fx.take 8)[i]? = some slot := by
      rw [List.getElem?_take_of_lt hi]; exact hslot
    obtain ⟨h1, h2⟩ := fxSlots_get (d.fx.take 8) i slot htake
    constructor
    · rw [toNormalizedVector_after, List.getElem?_append_left (by omega)]
      exact h1
    · rw [show 30 + 2 * i = 29 + (2 * i + 1) by omega, toNormalizedVector_after,
        List.getElem?_append_left (by omega)]
      exact h2
  · intro j hj hj50
    have hlen := fxEntries_length d.fx
    obtain ⟨k, rfl⟩ : ∃ k, j = 29 + k := ⟨j - 29, by omega⟩
    rw [toNormalizedVector_after, List.getElem?_append_right (by omega),
      List.getElem?_replicate]
    rw [if_pos (by omega)]

end Field

/-! ## `cosineSimilarity` -/

section Field
variable {K : Type} [LinearOrderedField K]

theorem similarityLoop_eq (a b : List K) (h : a.length = b.length) (d na nb : K) :
    similarityLoop a b (d, na, nb) =
      (d + (List.zipWith (· * ·) a b).sum, na + (a.map (fun x => x * x)).sum,
        nb + (b.map (fun x => x * x)).sum) := by
  induction a generalizing b d na nb with
  | nil =>
    cases b with
    | nil => simp [similarityLoop]
    | cons y ys => simp at h
  | cons x xs ih =>
    cases b with
    | nil => simp at h
    | cons y ys =>
      simp only [List.length_cons, Nat.succ.injEq, add_left_inj] at h
      rw [similarityLoop, ih ys h]
      simp [add_assoc]

theorem sumSq_nonneg (a : List K) : 0 ≤ (a.map (fun x => x * x)).sum := by
  induction a with
  | nil => simp
  | cons x xs ih => simp only [List.map_cons, List.sum_cons]; nlinarith [mul_self_nonneg x]

theorem sumSq_pos (a : List K) (h : ∃ x ∈ a, x ≠ 0) : 0 < (a.map (fun x => x * x)).sum := by
  induction a with
  | nil => simp at h
  | cons x xs ih =>
    simp only [List.map_cons, List.sum_cons]
    by_cases hx : x = 0
    · subst hx
      have : ∃ x ∈ xs, x ≠ 0 := by
        obtain ⟨y, hy, hy0⟩ := h
        rcases List.mem_cons.1 hy with rfl | hy
        · exact absurd rfl hy0
        · exact ⟨y, hy, hy0⟩
      simpa using ih this
    · have := sumSq_nonneg xs
      have : 0 < x * x := mul_self_pos.2 hx
      linarith

theorem dot_self (a : List K) :
    (List.zipWith (· * ·) a a).sum = (a.map (fun x => x * x)).sum := by
  induction a with
  | nil => rfl
  | cons x xs ih => simp [ih]

theorem quadratic_nonneg (x y d A B : K) (hA : 0 ≤ A) (hB : 0 ≤ B) (h : d * d ≤ A * B) :
    0 ≤ A * (y * y) - 2 * d * (x * y) + B * (x * x) := by
  rcases hA.eq_or_lt with hA0 | hApos
  · subst hA0
    have hd : d = 0 := by
      have : d * d ≤ 0 := by simpa using h
      exact mul_self_eq_zero.1 (le_antisymm this (mul_self_nonneg d))
    subst hd
    have := mul_nonneg hB (mul_self_nonneg x)
    simpa using this
  · have h1 : 0 ≤ A * (A * (y * y) - 2 * d * (x * y) + B * (x * x)) := by
      have e : A * (A * (y * y) - 2 * d * (x * y) + B * (x * x)) =
          (A * y - d * x) * (A * y - d * x) + (A * B - d * d) * (x * x) := by ring
      rw [e]
      exact add_nonneg (mul_self_nonneg _) (mul_nonneg (sub_nonneg.2 h) (mul_self_nonneg x))
    exact nonneg_of_mul_nonneg_right h1 hApos

/-- The inequality of Cauchy and Schwarz for the sums of the loop. -/
theorem dot_mul_self_le (a b : List K) :
    (List.zipWith (· * ·) a b).sum * (List.zipWith (· * ·) a b).sum ≤
      (a.map (fun x => x * x)).sum * (b.map (fun x => x * x)).sum := by
  induction a generalizing b with
  | nil => simp
  | cons x xs ih =>
    cases b with
    | nil => simp
    | cons y ys =>
      simp only [List.zipWith_cons_cons, List.sum_cons, List.map_cons]
      have hq := quadratic_nonneg x y _ _ _ (sumSq_nonneg xs) (sumSq_nonneg ys) (ih ys)
      have := ih ys
      nlinarith [hq, this]

end Field

theorem cosineSimilarity_le_one (a b : PatchVector ℝ) :
    cosineSimilarity Real.sqrt a b ≤ 1 := by
  unfold cosineSimilarity
  split
  · exact zero_le_one
  · next hlen =>
    have hlen : a.parameterVector.length = b.parameterVector.length := not_not.1 hlen
    rw [similarityLoop_eq _ _ hlen]
    simp only [zero_add]
    split
    · exact zero_le_one
    · next hn =>
      rw [not_or] at hn
      have hA := lt_of_le_of_ne (sumSq_nonneg a.parameterVector) (Ne.symm hn.1)
      have hB := lt_of_le_of_ne (sumSq_nonneg b.parameterVector) (Ne.symm hn.2)
      rw [div_le_one (mul_pos (Real.sqrt_pos.2 hA) (Real.sqrt_pos.2 hB)), ← Real.sqrt_mul hA.le]
      refine le_trans (le_abs_self _) (Real.abs_le_sqrt ?_)
      rw [sq]
      exact dot_mul_self_le _ _

theorem cosineSimilarity_same (a b : PatchVector ℝ) (hb : b.parameterVector = a.parameterVector)
    (ha : ∃ x ∈ a.parameterVector, x ≠ 0) : cosineSimilarity Real.sqrt a b = 1 := by
  unfold cosineSimilarity
  rw [hb, if_neg (by simp), similarityLoop_eq _ _ rfl]
  simp only [zero_add]
  have hA := sumSq_pos a.parameterVector ha
  rw [if_neg (by simp [hA.ne.symm]), dot_self, Real.mul_self_sqrt hA.le]
  exact div_self hA.ne.symm

/-! ## The two searches -/

theorem castInt_of_lt (n : Nat) (h : n < 2 ^ 31) : castInt n = (n : Int) := by
  unfold castInt
  rw [Nat.mod_eq_of_lt (by omega)]
  push_cast
  ring

theorem scorePairs_snd_sublist {K : Type} (score : PatchVector K → K) (keep : K → Bool) (i : Nat)
    (ps : List (PatchVector K)) :
    ((scorePairs score keep i ps).map Prod.snd).Sublist (List.range' i ps.length) := by
  induction ps generalizing i with
  | nil => simp [scorePairs]
  | cons p ps ih =>
    simp only [scorePairs, List.length_cons, List.range'_succ]
    split
    · simpa using ih (i + 1)
    · exact (ih (i + 1)).cons _

theorem scorePairs_snd_nodup {K : Type} (score : PatchVector K → K) (keep : K → Bool) (i : Nat)
    (ps : List (PatchVector K)) : ((scorePairs score keep i ps).map Prod.snd).Nodup :=
  (List.nodup_range' i ps.length).sublist (scorePairs_snd_sublist score keep i ps)

theorem scorePairs_mem {K : Type} (score : PatchVector K → K) (keep : K → Bool) (i : Nat)
    (ps : List (PatchVector K)) (pair : K × Nat) :
    pair ∈ scorePairs score keep i ps ↔
      ∃ (j : Nat) (p : PatchVector K), ps[j]? = some p ∧ pair = (score p, i + j) ∧
        keep (score p) = true := by
  induction ps generalizing i with
  | nil => simp [scorePairs]
  | cons q ps ih =>
    have step : pair ∈ scorePairs score keep (i + 1) ps ↔
        ∃ (j : Nat) (p : PatchVector K), (q :: ps)[j + 1]? = some p ∧
          pair = (score p, i + (j + 1)) ∧ keep (score p) = true := by
      rw [ih]
      simp only [List.getElem?_cons_succ]
      constructor
      · rintro ⟨j, p, h1, h2, h3⟩
        exact ⟨j, p, h1, by rw [h2]; congr 1; omega, h3⟩
      · rintro ⟨j, p, h1, h2, h3⟩
        exact ⟨j, p, h1, by rw [h2]; congr 1; omega, h3⟩
    constructor
    · intro h
      rw [scorePairs] at h
      by_cases hk : keep (score q) = true
      · rw [if_pos hk] at h
        rcases List.mem_cons.1 h with h | h
        · exact ⟨0, q, List.getElem?_cons_zero, by simpa using h, hk⟩
        · obtain ⟨j, p, h1, h2, h3⟩ := step.1 h
          exact ⟨j + 1, p, h1, h2, h3⟩
      · rw [if_neg hk] at h
        obtain ⟨j, p, h1, h2, h3⟩ := step.1 h
        exact ⟨j + 1, p, h1, h2, h3⟩
    · rintro ⟨j, p, h1, h2, h3⟩
      rw [scorePairs]
      cases j with
      | zero =>
        simp only [List.getElem?_cons_zero, Option.some.injEq] at h1
        subst h1
        rw [if_pos h3, h2]
        simp
      | succ j =>
        have := step.2 ⟨j, p, h1, h2, h3⟩
        split
        · exact List.mem_cons_of_mem _ this
        · exact this

theorem scorePairs_filterMap {K : Type} (score : PatchVector K → K) (keep : K → Bool)
    (pre ps : List (PatchVector K)) :
    (scorePairs score keep pre.length ps).filterMap (fun pair => (pre ++ ps)[pair.2]?) =
      ps.filter (fun p => keep (score p)) := by
  induction ps generalizing pre with
  | nil => simp [scorePairs]
  | cons q ps ih =>
    have h := ih (pre ++ [q])
    simp only [List.length_append, List.length_singleton, List.append_assoc,
      List.singleton_append] at h
    rw [scorePairs]
    by_cases hk : keep (score q) = true
    · rw [if_pos hk, List.filter_cons_of_pos (by simpa using hk), List.filterMap_cons]
      simp only [List.getElem?_append_right (le_refl _), Nat.sub_self, List.getElem?_cons_zero]
      rw [h]
    · rw [if_neg hk, List.filter_cons_of_neg (by simpa using hk), h]

theorem scorePairs_length_all {K : Type} (score : PatchVector K → K) (i : Nat)
    (ps : List (PatchVector K)) :
    (scorePairs score (fun _ => true) i ps).length = ps.length := by
  induction ps generalizing i with
  | nil => rfl
  | cons p ps ih => simp [scorePairs, ih]

theorem filterMap_length_of_isSome {α β : Type} (f : α → Option β) (l : List α)
    (h : ∀ a ∈ l, (f a).isSome = true) : (l.filterMap f).length = l.length := by
  induction l with
  | nil => rfl
  | cons a l ih =>
    have ha := h a (List.mem_cons_self _ _)
    obtain ⟨b, hb⟩ := Option.isSome_iff_exists.1 ha
    rw [List.filterMap_cons_some hb, List.length_cons, List.length_cons,
      ih (fun x hx => h x (List.mem_cons_of_mem _ hx))]

section Field
variable {K : Type} [LinearOrderedField K]

theorem insertionSortDescending_isDescendingSort :
    IsDescendingSort (insertionSortDescending : List (K × Nat) → List (K × Nat)) := by
  intro l
  haveI : IsTotal (K × Nat) (fun a b => b.1 ≤ a.1) := ⟨fun a b => le_total b.1 a.1⟩
  haveI : IsTrans (K × Nat) (fun a b => b.1 ≤ a.1) := ⟨fun a b c hab hbc => le_trans hbc hab⟩
  exact ⟨List.perm_insertionSort _ l, List.sorted_insertionSort _ l⟩

end Field

theorem topResults_eq {K : Type} (patches : List (PatchVector K)) (pairs : List (K × Nat)) (topK : Int)
    (hlen : pairs.length < 2 ^ 31) :
    topResults patches pairs topK =
      (pairs.take (min topK.toNat pairs.length)).filterMap (fun pair => patches[pair.2]?) := by
  rw [topResults, castInt_of_lt _ hlen]
  congr 2
  omega

section Field
variable {K : Type} [LinearOrderedField K]

/-- Claim C12: for every database, query and `topK ≥ 0`, and whatever order `std::sort` gives
pairs of equal score, `findSimilarPatches` returns exactly `min(topK, number of patches)`
patches, the patches at a list of distinct positions of the database; along that list the
cosine similarity to the query does not increase, and no patch at a position left out is more
similar to the query than a patch at a position of the list. -/
theorem findSimilarPatches_top (sqrt : K → K) (sort : List (K × Nat) → List (K × Nat))
    (db : VectorDatabase K) (query : PatchVector K) (topK : Int)
    (hsort : IsDescendingSort sort) (hk : 0 ≤ topK) :
    ((findSimilarPatches sqrt sort db query topK).length : Int) =
        min topK (db.patches.length : Int) ∧
    ∃ idx : List Nat,
      idx.Nodup ∧ (∀ i ∈ idx, i < db.patches.length) ∧
      idx.length = (findSimilarPatches sqrt sort db query topK).length ∧
      findSimilarPatches sqrt sort db query topK = idx.filterMap (fun i => db.patches[i]?) ∧
      idx.Pairwise (fun i j => similarityAt sqrt db query j ≤ similarityAt sqrt db query i) ∧
      ∀ j, j < db.patches.length → j ∉ idx →
        ∀ i ∈ idx, similarityAt sqrt db query j ≤ similarityAt sqrt db query i := by
  set score : PatchVector K → K := fun p => cosineSimilarity sqrt query p with hscore
  set pairs := scorePairs score (fun _ => true) 0 db.patches with hpairs
  obtain ⟨hperm, hsorted⟩ := hsort pairs
  have hlenS : (sort pairs).length = db.patches.length := by
    rw [hperm.length_eq, hpairs, scorePairs_length_all]
  -- every pair of the sorted list is a position with its similarity
  have hmem : ∀ pair ∈ sort pairs, pair.2 < db.patches.length ∧
      pair.1 = similarityAt sqrt db query pair.2 := by
    intro pair hp
    obtain ⟨j, p, h1, h2, -⟩ := (scorePairs_mem score _ 0 db.patches pair).1 (hperm.mem_iff.1 hp)
    have hj : j < db.patches.length := by
      rcases Nat.lt_or_ge j db.patches.length with h | h
      · exact h
      · rw [List.getElem?_eq_none h] at h1; cases h1
    rw [h2]
    simp only [Nat.zero_add]
    exact ⟨hj, by rw [similarityAt, h1]⟩
  have hres : findSimilarPatches sqrt sort db query topK =
      ((sort pairs).take (min topK.toNat db.patches.length)).filterMap
        (fun pair => db.patches[pair.2]?) := by
    rw [findSimilarPatches, topResults_eq _ _ _ (by rw [hlenS]; exact db.fits), hlenS]
  have hlen : (findSimilarPatches sqrt sort db query topK).length =
      min topK.toNat db.patches.length := by
    rw [hres, filterMap_length_of_isSome, List.length_take, hlenS]
    · omega
    · intro pair hp
      have := (hmem pair (List.mem_of_mem_take hp)).1
      rw [List.getElem?_eq_getElem this]
      rfl
  refine ⟨by rw [hlen]; omega, ((sort pairs).take (min topK.toNat db.patches.length)).map
    Prod.snd, ?_, ?_, ?_, ?_, ?_, ?_⟩
  · have : ((sort pairs).map Prod.snd).Nodup :=
      (hperm.map Prod.snd).nodup_iff.2 (scorePairs_snd_nodup score _ 0 db.patches)
    exact this.sublist ((List.take_sublist _ _).map _)
  · intro i hi
    obtain ⟨pair, hp, rfl⟩ := List.mem_map.1 hi
    exact (hmem pair (List.mem_of_mem_take hp)).1
  · rw [List.length_map, List.length_take, hlenS, hlen]
    omega
  · rw [hres, List.filterMap_map]
    rfl
  · rw [List.pairwise_map]
    refine ((hsorted.sublist (List.take_sublist _ _)).imp_of_mem ?_)
    intro a b ha hb hab
    rw [← (hmem a (List.mem_of_mem_take ha)).2, ← (hmem b (List.mem_of_mem_take hb)).2]
    exact hab
  · intro j hj hnot i hi
    obtain ⟨a, ha, rfl⟩ := List.mem_map.1 hi
    obtain ⟨p, hp⟩ : ∃ p, db.patches[j]? = some p := ⟨_, List.getElem?_eq_getElem hj⟩
    have hjmem : (score p, j) ∈ sort pairs :=
      hperm.mem_iff.2 ((scorePairs_mem score _ 0 db.patches _).2
        ⟨j, p, hp, by simp, rfl⟩)
    have hsplit := List.take_append_drop (min topK.toNat db.patches.length) (sort pairs)
    rw [← hsplit, List.mem_append] at hjmem
    rw [← hsplit, List.pairwise_append] at hsorted
    rcases hjmem with h | h
    · exact absurd (List.mem_map.2 ⟨_, h, rfl⟩) hnot
    · have := hsorted.2.2 a ha _ h
      rw [← (hmem a (List.mem_of_mem_take ha)).2]
      simpa [similarityAt, hp, hscore] using this

end Field

theorem findSimilarPatches_top_witness :
    IsDescendingSort (insertionSortDescending : List (ℝ × Nat) → List (ℝ × Nat)) ∧
    (0 : Int) ≤ 3 ∧
    ((findSimilarPatches Real.sqrt insertionSortDescending vectorTestDatabase
        (namedPatch "Reference" [1, 0, 0, 0, 0]) 3).length : Int) =
      min 3 ((vectorTestDatabase : VectorDatabase ℝ).patches.length : Int) :=
  ⟨insertionSortDescending_isDescendingSort, by norm_num,
    (findSimilarPatches_top Real.sqrt insertionSortDescending vectorTestDatabase
      (namedPatch "Reference" [1, 0, 0, 0, 0]) 3 insertionSortDescending_isDescendingSort
      (by norm_num)).1⟩

section Field
variable {K : Type} [LinearOrderedField K]

theorem wordScore_pos (nameLower : Str) (ws : List Str) (init : K) (h0 : 0 ≤ init) :
    0 < ws.foldl (fun score word => if contains nameLower word then score + 3 / 10 else score)
      init ↔ 0 < init ∨ ∃ w ∈ ws, contains nameLower w = true := by
  induction ws generalizing init with
  | nil => simp
  | cons w ws ih =>
    rw [List.foldl_cons]
    by_cases hw : contains nameLower w = true
    · rw [if_pos hw, ih _ (by linarith)]
      constructor
      · intro _
        exact Or.inr ⟨w, List.mem_cons_self _ _, hw⟩
      · intro _
        exact Or.inl (by linarith)
    · rw [if_neg hw, ih _ h0]
      constructor
      · rintro (h | ⟨v, hv, hc⟩)
        · exact Or.inl h
        · exact Or.inr ⟨v, List.mem_cons_of_mem _ hv, hc⟩
      · rintro (h | ⟨v, hv, hc⟩)
        · exact Or.inl h
        · rcases List.mem_cons.1 hv with rfl | hv
          · exact absurd hc hw
          · exact Or.inr ⟨v, hv, hc⟩

theorem textScore_pos (query : Str) (p : PatchVector K) :
    decide ((textScore (toLower query) (toLower p.name) : K) > 0) = nameMatches query p := by
  rw [Bool.eq_iff_iff, decide_eq_true_iff, gt_iff_lt, textScore, wordScore_pos]
  · simp only [nameMatches, Bool.or_eq_true, List.any_eq_true]
    by_cases h1 : contains (toLower p.name) (toLower query) = true
    · simp [h1]
    · by_cases h2 : contains (toLower query) (toLower p.name) = true
      · simp [h1, h2]
      · simp [h1, h2]
  · split
    · exact zero_le_one
    · split
      · norm_num
      · exact le_refl _

end Field

/-- Claim C14: in exact arithmetic (over the real numbers, with the real square root), for
every parameter vector `a` that is not all zero, `cosineSimilarity(a, a) = 1`; for every vector
`b` of the same length `cosineSimilarity(a, b) ≤ 1`; so no pair of vectors is more similar than
`a` is to itself. -/
theorem cosineSimilarity_self_max (a : PatchVector ℝ) (ha : ∃ x ∈ a.parameterVector, x ≠ 0) :
    cosineSimilarity Real.sqrt a a = 1 ∧
    (∀ b : PatchVector ℝ, b.parameterVector.length = a.parameterVector.length →
      cosineSimilarity Real.sqrt a b ≤ 1) ∧
    ∀ b c : PatchVector ℝ, cosineSimilarity Real.sqrt b c ≤ cosineSimilarity Real.sqrt a a := by
  have h := cosineSimilarity_same a a rfl ha
  refine ⟨h, fun b _ => cosineSimilarity_le_one a b, fun b c => ?_⟩
  rw [h]
  exact cosineSimilarity_le_one b c

theorem cosineSimilarity_self_max_witness :
    (∃ x ∈ (namedPatch "a" [3, 4] : PatchVector ℝ).parameterVector, x ≠ 0) ∧
    cosineSimilarity Real.sqrt (namedPatch "a" [3, 4]) (namedPatch "a" [3, 4]) = 1 :=
  have h : ∃ x ∈ (namedPatch "a" [3, 4] : PatchVector ℝ).parameterVector, x ≠ 0 :=
    ⟨3, by simp [namedPatch], by norm_num⟩
  ⟨h, (cosineSimilarity_self_max (namedPatch "a" [3, 4]) h).1⟩

end Surge.PatchDB

namespace Surge.Claude

/-! ## The API key -/

/-- Claim C11: for every key `k`, after `setAPIKey(k)` the call `getAPIKey()` returns `k`, and
`isAPIKeyValid()` is true exactly when `k` is not empty. -/
theorem setAPIKey_getAPIKey (client : APIClient) (k : Str) :
    (client.setAPIKey k).getAPIKey = k ∧
    ((client.setAPIKey k).isAPIKeyValid = true ↔ k ≠ []) := by
  refine ⟨rfl, ?_⟩
  cases k <;> simp [APIClient.setAPIKey, APIClient.isAPIKeyValid]

/-! ## Scene preference of the substring matches -/

theorem reverseRuntime_valid : reverseRuntime.Valid :=
  ⟨fun m => List.reverse_perm m, List.Perm.refl _⟩

set_option maxRecDepth 100000 in
/-- Claim C17 fails in the code. The table holds `A Filter 1 Cutoff` at index 0 and
`B Filter 1 Cutoff` at index 1, and the loop over `nameToIndexMap` meets the entries entered
last first, which a hash table may do. The test that is meant to skip Scene B lets the key
`B Filter 1 Cutoff` through, the last tier of `findParameterIndex` resolves `filter 1 cutoff`
to index 1, and the substring fallback of `buildAliasMap` maps the alias `cutoff` to index 1:
both return the Scene B entry although the Scene A entry matches too. -/
theorem findParameterIndex_scene_b :
    reverseRuntime.Valid ∧
    sceneAMatch "filter 1 cutoff".toList ("B Filter 1 Cutoff".toList, 1) = true ∧
    anyMatch "filter 1 cutoff".toList ("A Filter 1 Cutoff".toList, 0) = true ∧
    findParameterIndex reverseRuntime (buildParameterMaps reverseRuntime sceneTable)
      "filter 1 cutoff".toList = 1 ∧
    (buildParameterMaps reverseRuntime sceneTable).aliasToIndexMap.find "cutoff".toList
      = some 1 := by
  refine ⟨reverseRuntime_valid, ?_, ?_, ?_, ?_⟩ <;> with_unfolding_all decide

/-! ## Failure of the conversion -/

theorem stof_error_of_lenient (erangeOnUnderflow : ℚ → Bool) (token : Str) (e : StofError)
    (h : stof (fun _ => false) token = .error e) : stof erangeOnUnderflow token = .error e := by
  unfold stof at h ⊢
  cases hp : parseDecimal token with
  | none => simpa [hp] using h
  | some q =>
    simp only [hp] at h ⊢
    by_cases ho : floatOverflow ≤ |q|
    · simpa [ho] using h
    · simp [ho] at h

theorem stof_ok_of_lenient (erangeOnUnderflow : ℚ → Bool) (token : Str) (v : ℚ)
    (h : stof (fun _ => false) token = .ok v) :
    stof erangeOnUnderflow token = .ok v ∨
      stof erangeOnUnderflow token = .error .out_of_range := by
  unfold stof at h ⊢
  cases hp : parseDecimal token with
  | none => simp [hp] at h
  | some q =>
    simp only [hp] at h ⊢
    by_cases ho : floatOverflow ≤ |q|
    · simp [ho] at h
    · simp only [ho, if_false] at h ⊢
      split
      · exact Or.inr rfl
      · left
        simpa using h

theorem dashLoop_error_of_lenient (erangeOnUnderflow : ℚ → Bool) (caps : List Caps)
    (e : StofError) (h : dashLoop (fun _ => false) caps = .error e) :
    dashLoop erangeOnUnderflow caps = .error e ∨
      dashLoop erangeOnUnderflow caps = .error .out_of_range := by
  induction caps with
  | nil => simp [dashLoop] at h
  | cons m ms ih =>
    rw [dashLoop] at h ⊢
    cases h1 : stof (fun _ => false) ((m 2).getD []) with
    | error e1 =>
      rw [h1] at h
      simp only [Except.error.injEq] at h
      subst h
      rw [stof_error_of_lenient _ _ _ h1]
      exact Or.inl rfl
    | ok v =>
      rw [h1] at h
      simp only at h
      cases h2 : dashLoop (fun _ => false) ms with
      | ok mods => rw [h2] at h; simp at h
      | error e2 =>
        rw [h2] at h
        simp only [Except.error.injEq] at h
        subst h
        rcases stof_ok_of_lenient erangeOnUnderflow _ _ h1 with h3 | h3
        · rw [h3]
          rcases ih h2 with h4 | h4
          · rw [h4]; exact Or.inl rfl
          · rw [h4]; exact Or.inr rfl
        · rw [h3]; exact Or.inr rfl

set_option maxRecDepth 100000 in
/-- Claim C18 fails in the code: on the response `PARAMETERS:`, `- osc1_type: 2`,
`- volume: 1e39` the pattern accepts the token `1e39`, `std::stof` raises `std::out_of_range`
on it, and `extractModifications` returns no list, whatever the C library does on underflow;
the first line, which is in order, is lost with the second. -/
theorem extractModifications_overflow_fails (erangeOnUnderflow : ℚ → Bool) :
    extractModifications erangeOnUnderflow overflowResponse = .error .out_of_range := by
  have hp : parametersPos overflowResponse = some 0 := by with_unfolding_all decide
  have hd : dashLoop (fun _ => false) (regexMatches paramRegex overflowResponse)
      = .error .out_of_range := by with_unfolding_all decide
  have := dashLoop_error_of_lenient erangeOnUnderflow _ _ hd
  rw [extractModifications, hp]
  simp only [List.drop_zero]
  rcases this with h | h <;> rw [h]

/-! ## Text before the marker -/

/-- Claim C20: for every text `s` that starts with `PARAMETERS:` and every prefix `p` such that
the first occurrence of `PARAMETERS:` in `p ++ s` is at position `|p|`,
`extractModifications (p ++ s) = extractModifications s`. -/
theorem extractModifications_before_marker (erangeOnUnderflow : ℚ → Bool) (p s : Str)
    (hs : startsWith s "PARAMETERS:".toList = true)
    (hfirst : find (p ++ s) "PARAMETERS:".toList = some p.length) :
    extractModifications erangeOnUnderflow (p ++ s) = extractModifications erangeOnUnderflow s := by
  have h1 : parametersPos (p ++ s) = some p.length := by rw [parametersPos, hfirst]
  have h2 : parametersPos s = some 0 := by
    rw [parametersPos, find_of_startsWith _ _ ((startsWith_iff _ _).1 hs)]
  rw [extractModifications, h1, extractModifications, h2]
  simp only [List.drop_left, List.drop_zero]

set_option maxRecDepth 100000 in
theorem extractModifications_before_marker_witness :
    startsWith "PARAMETERS:\n- volume: 0.5\n".toList "PARAMETERS:".toList = true ∧
    find ("Here is a warm pad.\n- not: 1\n".toList ++ "PARAMETERS:\n- volume: 0.5\n".toList)
      "PARAMETERS:".toList = some "Here is a warm pad.\n- not: 1\n".toList.length ∧
    extractModifications (fun _ => false)
      ("Here is a warm pad.\n- not: 1\n".toList ++ "PARAMETERS:\n- volume: 0.5\n".toList)
      = .ok [⟨"volume".toList, 1 / 2, []⟩] :=
  ⟨by decide, by decide,
    (extractModifications_before_marker (fun _ => false) "Here is a warm pad.\n- not: 1\n".toList
      "PARAMETERS:\n- volume: 0.5\n".toList (by decide) (by decide)).trans
      (by with_unfolding_all decide)⟩

/-! ## Letter case of the marker -/

theorem upper_toLowerChar_isLetter {c : Char} (h : ('A' ≤ c && c ≤ 'Z') = true) :
    isLetter (Char.ofNat (c.toNat + 32)) = true := by
  simp only [Bool.and_eq_true, decide_eq_true_eq] at h
  have h1 : 65 ≤ c.toNat := h.1
  have h2 : c.toNat ≤ 90 := h.2
  generalize c.toNat = n at h1 h2
  interval_cases n <;> decide

theorem isLetter_of_toLowerChar {c : Char} (h : isLetter (toLowerChar c) = true) :
    isLetter c = true := by
  unfold toLowerChar at h
  by_cases hu : ('A' ≤ c && c ≤ 'Z') = true
  · simp only [isLetter, Bool.or_eq_true]
    exact Or.inr hu
  · rw [if_neg hu] at h
    exact h

theorem toLowerChar_of_not_isLetter {c : Char} (h : isLetter (toLowerChar c) = false) :
    toLowerChar c = c := by
  unfold toLowerChar at h ⊢
  by_cases hu : ('A' ≤ c && c ≤ 'Z') = true
  · rw [if_pos hu, upper_toLowerChar_isLetter hu] at h
    cases h
  · rw [if_neg hu]

/-- A letter-case variant of `PARAMETERS:` is ten letters and a colon. -/
theorem marker_variant (m : Str) (hm : toLower m = "parameters:".toList) :
    ∃ nm : Str, m = nm ++ [':'] ∧ nm.length = 10 ∧ ∀ c ∈ nm, isLetter c = true := by
  rcases List.eq_nil_or_concat m with rfl | ⟨nm, c, rfl⟩
  · cases hm
  · have hm2 : toLower nm ++ [toLowerChar c] = "parameters".toList ++ [':'] := by
      simpa [toLower] using hm
    obtain ⟨h1, h2⟩ := List.append_inj' hm2 rfl
    have hc : toLowerChar c = ':' := by simpa using h2
    have hc2 : c = ':' :=
      (toLowerChar_of_not_isLetter (by rw [hc]; decide)).symm.trans hc
    refine ⟨nm, by simp [hc2], ?_, ?_⟩
    · have := congrArg List.length h1
      simpa [toLower] using this
    · intro x hx
      apply isLetter_of_toLowerChar
      have : toLowerChar x ∈ toLower nm := List.mem_map_of_mem _ hx
      rw [h1] at this
      revert this
      generalize toLowerChar x = y
      intro hy
      have : ∀ z ∈ "parameters".toList, isLetter z = true := by decide
      exact this y hy

theorem isLetter_isNameChar {c : Char} (h : isLetter c = true) : isNameChar c = true := by
  simp [isNameChar, h]

theorem isLetter_ne_dash {c : Char} (h : isLetter c = true) : c ≠ '-' := by
  rintro rfl
  revert h
  decide

theorem starMatch_number_none {α : Type} (b : Str) (caps : Caps) (k : Str → Caps → Option α)
    (h : numberAfterSpace b = false) :
    starMatch isSpace (fun rest => numberRegex.run rest caps k) b = none := by
  induction b with
  | nil => exact numberRegex_fail [] caps k rfl
  | cons c s ih =>
    simp only [numberAfterSpace, Bool.or_eq_false_iff, Bool.and_eq_false_iff] at h
    rw [starMatch]
    split
    · next hsp =>
      rcases h.2 with h2 | h2
      · rw [hsp] at h2; cases h2
      · rw [ih h2]
        exact numberRegex_fail _ caps k h.1
    · exact numberRegex_fail _ caps k h.1

theorem dashLoop_nonempty (erangeOnUnderflow : ℚ → Bool) (m : Caps) (ms : List Caps)
    (mods : List PatchModification) (h : dashLoop erangeOnUnderflow (m :: ms) = .ok mods) :
    mods.isEmpty = false := by
  rw [dashLoop] at h
  cases h1 : stof erangeOnUnderflow ((m 2).getD []) with
  | error e => rw [h1] at h; cases h
  | ok v =>
    rw [h1] at h
    simp only at h
    cases h2 : dashLoop erangeOnUnderflow ms with
    | error e => rw [h2] at h; cases h
    | ok rest =>
      rw [h2] at h
      simp only [Except.ok.injEq] at h
      rw [← h]
      rfl

theorem parametersPos_variant (m b : Str) (hm : toLower m = "parameters:".toList)
    (hexact : find (m ++ b) "PARAMETERS:".toList = none ∨
      find (m ++ b) "PARAMETERS:".toList = some 0) :
    parametersPos (m ++ b) = some 0 := by
  rw [parametersPos]
  rcases hexact with h | h
  · rw [h]
    have : toLower (m ++ b) = "parameters:".toList ++ toLower b := by
      rw [← hm]; simp [toLower]
    simp only [this]
    exact find_of_startsWith _ _ (List.prefix_append _ _)
  · rw [h]

theorem regexMatches_paramRegex_variant (m b : Str) (hm : toLower m = "parameters:".toList) :
    regexMatches paramRegex (m ++ b) = regexMatches paramRegex ("PARAMETERS:".toList ++ b) := by
  obtain ⟨nm, rfl, hlen, hnm⟩ := marker_variant m hm
  have hl : (nm ++ [':'] ++ b).length = ("PARAMETERS:".toList ++ b).length := by
    simp only [List.length_append, hlen]
    rfl
  rw [regexMatches, regexMatches, hl]
  apply regexIterate_congr
  rw [regexSearch_paramRegex_skip _ b (by
      intro c hc
      rcases List.mem_append.1 hc with h | h
      · exact isLetter_ne_dash (hnm c h)
      · rw [List.mem_singleton.1 h]; decide),
    regexSearch_paramRegex_skip _ b (by decide)]

theorem regexMatches_alt_variant (m b : Str) (hm : toLower m = "parameters:".toList)
    (hb : numberAfterSpace b = false) :
    regexMatches altParamRegex (m ++ b) =
      regexMatches altParamRegex ("PARAMETERS:".toList ++ b) := by
  obtain ⟨nm, rfl, hlen, hnm⟩ := marker_variant m hm
  have hl : (nm ++ [':'] ++ b).length = ("PARAMETERS:".toList ++ b).length := by
    simp only [List.length_append, hlen]
    rfl
  rw [regexMatches, regexMatches, hl]
  apply regexIterate_congr
  have e1 : nm ++ [':'] ++ b = nm ++ ':' :: b := by simp
  have e2 : "PARAMETERS:".toList ++ b = "PARAMETERS".toList ++ ':' :: b := rfl
  rw [e1, e2, regexSearch_alt_skip nm b (fun c hc => isLetter_isNameChar (hnm c hc))
      (fun caps1 => starMatch_number_none b caps1 _ hb),
    regexSearch_alt_skip _ b (by decide) (fun caps1 => starMatch_number_none b caps1 _ hb)]

set_option maxRecDepth 100000 in
/-- C19, as stated, fails: with the marker `Parameters:` and a body that holds the marker
`PARAMETERS:` in capitals further down, the section starts at the marker in capitals, which
the search prefers, and the line between the two markers is lost; with `PARAMETERS:` in front of
the same body it is returned. -/
theorem extractModifications_marker_exact_first :
    ¬ ∀ (erangeOnUnderflow : ℚ → Bool) (m b : Str), toLower m = "parameters:".toList →
      extractModifications erangeOnUnderflow (m ++ b)
        = extractModifications erangeOnUnderflow ("PARAMETERS:".toList ++ b) := by
  intro h
  have h1 := h (fun _ => false) "Parameters:".toList
    "\n- a: 1\nPARAMETERS:\n- b: 2\n".toList (by decide)
  revert h1
  with_unfolding_all decide

set_option maxRecDepth 100000 in
/-- C19 also fails where the header is itself read as a parameter line: the second pattern
matches `Parameters: 5`, and the test that skips the header compares the name with
`PARAMETERS` in capitals only, so the header is returned as a modification named
`Parameters`, while `PARAMETERS: 5` yields nothing. -/
theorem extractModifications_header_case :
    extractModifications (fun _ => false) "Parameters: 5\n".toList
      = .ok [⟨"Parameters".toList, 5, []⟩] ∧
    extractModifications (fun _ => false) "PARAMETERS: 5\n".toList = .ok [] := by
  constructor <;> with_unfolding_all decide

/-- C19, amended: for every letter-case variant `m` of `PARAMETERS:` and every body `b` such
that `PARAMETERS:` in capitals does not occur in `m ++ b` after position 0, and such that the
dashed pattern has a match in `b` or no number starts in `b` after leading white space,
`extractModifications (m ++ b) = extractModifications ("PARAMETERS:" ++ b)`: the same list,
with the same parameter names in their letter case. -/
theorem extractModifications_marker_case (erangeOnUnderflow : ℚ → Bool) (m b : Str)
    (hm : toLower m = "parameters:".toList)
    (hexact : find (m ++ b) "PARAMETERS:".toList = none ∨
      find (m ++ b) "PARAMETERS:".toList = some 0)
    (hbody : (regexSearch paramRegex b).isSome = true ∨ numberAfterSpace b = false) :
    extractModifications erangeOnUnderflow (m ++ b)
      = extractModifications erangeOnUnderflow ("PARAMETERS:".toList ++ b) := by
  have hp1 := parametersPos_variant m b hm hexact
  have hp2 : parametersPos ("PARAMETERS:".toList ++ b) = some 0 := by
    rw [parametersPos, find_of_startsWith _ _ (List.prefix_append _ _)]
  rw [extractModifications, hp1, extractModifications, hp2]
  simp only [List.drop_zero]
  rw [regexMatches_paramRegex_variant m b hm]
  cases hd : dashLoop erangeOnUnderflow (regexMatches paramRegex ("PARAMETERS:".toList ++ b)) with
  | error e => rfl
  | ok mods =>
    simp only
    cases he : mods.isEmpty with
    | false => simp
    | true =>
      simp only [if_true]
      rcases hbody with h | h
      · exfalso
        obtain ⟨c, cs, hc⟩ : ∃ c cs,
            regexMatches paramRegex ("PARAMETERS:".toList ++ b) = c :: cs := by
          obtain ⟨mt, hmt⟩ := Option.isSome_iff_exists.1 h
          rw [regexMatches, regexIterate, regexSearch_paramRegex_skip _ b (by decide), hmt]
          exact ⟨_, _, rfl⟩
        rw [hc] at hd
        have := dashLoop_nonempty erangeOnUnderflow c cs mods hd
        rw [he] at this
        cases this
      · rw [regexMatches_alt_variant m b hm h]

set_option maxRecDepth 100000 in
theorem extractModifications_marker_case_witness :
    toLower "Parameters:".toList = "parameters:".toList ∧
    find ("Parameters:".toList ++ "\n- OSC1_TYPE: 2\n- Filter1_Cutoff: 0.4\n".toList)
      "PARAMETERS:".toList = none ∧
    (regexSearch paramRegex "\n- OSC1_TYPE: 2\n- Filter1_Cutoff: 0.4\n".toList).isSome = true ∧
    extractModifications (fun _ => false)
      ("Parameters:".toList ++ "\n- OSC1_TYPE: 2\n- Filter1_Cutoff: 0.4\n".toList)
      = .ok [⟨"OSC1_TYPE".toList, 2, []⟩, ⟨"Filter1_Cutoff".toList, 2 / 5, []⟩] :=
  ⟨by decide, by decide, by with_unfolding_all decide,
    (extractModifications_marker_case (fun _ => false) "Parameters:".toList
      "\n- OSC1_TYPE: 2\n- Filter1_Cutoff: 0.4\n".toList (by decide) (Or.inl (by decide))
      (Or.inl (by with_unfolding_all decide))).trans (by with_unfolding_all decide)⟩

/-! ## Bounds of the indices, and the names that are not resolved -/

theorem contains_iff (hay needle : Str) : contains hay needle = true ↔ needle <:+: hay := by
  rw [contains]
  cases h : find hay needle with
  | none => simpa using (find_eq_none_iff hay needle).1 h
  | some p =>
    simp only [Option.isSome_some, true_iff]
    by_contra hn
    rw [(find_eq_none_iff hay needle).2 hn] at h
    cases h

theorem contains_nil (hay : Str) : contains hay [] = true :=
  (contains_iff hay []).2 List.nil_infix

theorem upper_toLowerChar_not_upper {c : Char} (h : ('A' ≤ c && c ≤ 'Z') = true) :
    ('A' ≤ Char.ofNat (c.toNat + 32) && Char.ofNat (c.toNat + 32) ≤ 'Z') = false := by
  simp only [Bool.and_eq_true, decide_eq_true_eq] at h
  have h1 : 65 ≤ c.toNat := h.1
  have h2 : c.toNat ≤ 90 := h.2
  generalize c.toNat = n at h1 h2
  interval_cases n <;> decide

theorem toLowerChar_toLowerChar (c : Char) : toLowerChar (toLowerChar c) = toLowerChar c := by
  by_cases hu : ('A' ≤ c && c ≤ 'Z') = true
  · have e : toLowerChar c = Char.ofNat (c.toNat + 32) := by rw [toLowerChar, if_pos hu]
    rw [e, toLowerChar, if_neg (by rw [upper_toLowerChar_not_upper hu]; simp)]
  · have e : toLowerChar c = c := by rw [toLowerChar, if_neg hu]
    rw [e, e]

theorem toLower_toLower (s : Str) : toLower (toLower s) = toLower s := by
  simp [toLower, toLowerChar_toLowerChar]

theorem toLower_append (s t : Str) : toLower (s ++ t) = toLower s ++ toLower t := by
  simp [toLower]

theorem space_mem_toLower (s : Str) (h : ' ' ∈ s) : ' ' ∈ toLower s := by
  have := List.mem_map_of_mem toLowerChar h
  simpa [toLower] using this

theorem space_of_mem_toLower (s : Str) (h : ' ' ∈ toLower s) : ' ' ∈ s := by
  rw [toLower, List.mem_map] at h
  obtain ⟨c, hc, hl⟩ := h
  have : toLowerChar c = c := toLowerChar_of_not_isLetter (by rw [hl]; decide)
  rw [this] at hl
  rw [← hl]
  exact hc

/-- Every value `findParameterIndex` returns is -1 or a position of the table with a non-null
entry. -/
theorem findParameterIndex_valid (rt : Runtime) (hrt : rt.Valid)
    (param_ptr : List (Option Parameter)) (name : Str) :
    findParameterIndex rt (buildParameterMaps rt param_ptr) name = -1 ∨
      ∃ (i : Nat) (p : Parameter),
        findParameterIndex rt (buildParameterMaps rt param_ptr) name = (i : Int) ∧
          param_ptr[i]? = some (some p) := by
  have hval := buildParameterMaps_names_valid rt param_ptr
  have haval := buildParameterMaps_alias_valid rt hrt param_ptr
  have key : ∀ (mp : IndexMap), mp.ValidFor param_ptr → ∀ k i, mp.find k = some i →
      ∃ (j : Nat) (p : Parameter), i = (j : Int) ∧ param_ptr[j]? = some (some p) := by
    intro mp hmp k i hf
    exact hmp _ (IndexMap.find_some_mem _ _ _ hf)
  have ord : ∀ (f : Str × Int → Bool) (pair : Str × Int),
      (rt.nameOrder (buildParameterMaps rt param_ptr).nameToIndexMap).find? f = some pair →
      ∃ (j : Nat) (p : Parameter), pair.2 = (j : Int) ∧ param_ptr[j]? = some (some p) := by
    intro f pair hf
    exact hval.1 pair ((hrt.1 _).mem_iff.1 (List.mem_of_find?_eq_some hf))
  unfold findParameterIndex
  split
  · next i h => exact Or.inr (key _ haval _ _ h)
  · split
    · next i h => exact Or.inr (key _ hval.1 _ _ h)
    · split
      · next i h => exact Or.inr (key _ hval.1 _ _ h)
      · split
        · next i h => exact Or.inr (key _ hval.2 _ _ h)
        · split
          · next pair h => exact Or.inr (ord _ pair h)
          · split
            · next pair h => exact Or.inr (ord _ pair h)
            · exact Or.inl rfl

/-- A name that is not resolved is contained in no key of the name table. -/
theorem findParameterIndex_unresolved (rt : Runtime) (hrt : rt.Valid)
    (param_ptr : List (Option Parameter)) (name : Str)
    (h : findParameterIndex rt (buildParameterMaps rt param_ptr) name = -1) :
    ∀ pair ∈ (buildParameterMaps rt param_ptr).nameToIndexMap,
      contains (toLower pair.1) (toLower name) = false := by
  have hval := buildParameterMaps_names_valid rt param_ptr
  have haval := buildParameterMaps_alias_valid rt hrt param_ptr
  have key : ∀ (mp : IndexMap), mp.ValidFor param_ptr → ∀ k i, mp.find k = some i →
      i ≠ -1 := by
    intro mp hmp k i hf hi
    have := ValidFor.nonneg hmp _ (IndexMap.find_some_mem _ _ _ hf)
    simp only at this
    omega
  have ord : ∀ (f : Str × Int → Bool) (pair : Str × Int),
      (rt.nameOrder (buildParameterMaps rt param_ptr).nameToIndexMap).find? f = some pair →
      pair.2 ≠ -1 := by
    intro f pair hf hi
    have := ValidFor.nonneg hval.1 _ ((hrt.1 _).mem_iff.1 (List.mem_of_find?_eq_some hf))
    omega
  unfold findParameterIndex at h
  split at h
  · next i h1 => exact absurd h (key _ haval _ _ h1)
  · split at h
    · next i h1 => exact absurd h (key _ hval.1 _ _ h1)
    · split at h
      · next i h1 => exact absurd h (key _ hval.1 _ _ h1)
      · split at h
        · next i h1 => exact absurd h (key _ hval.2 _ _ h1)
        · split at h
          · next pair h1 => exact absurd h (ord _ pair h1)
          · split at h
            · next pair h1 => exact absurd h (ord _ pair h1)
            · next h1 =>
              intro pair hp
              exact (find?_order_none rt hrt _ _).1 h1 pair hp

/-- A name that no tier accepts is not resolved. -/
theorem findParameterIndex_of_fail (rt : Runtime) (hrt : rt.Valid) (m : ParameterMapper)
    (name : Str) (h1 : m.aliasToIndexMap.find (toLower name) = none)
    (h2 : m.nameToIndexMap.find name = none) (h3 : m.nameToIndexMap.find (toLower name) = none)
    (h4 : m.oscNameToIndexMap.find (toLower name) = none)
    (h5 : ∀ pair ∈ m.nameToIndexMap, contains (toLower pair.1) (toLower name) = false) :
    findParameterIndex rt m name = -1 := by
  have ha : (rt.nameOrder m.nameToIndexMap).find? (anyMatch (toLower name)) = none :=
    (find?_order_none rt hrt _ _).2 h5
  have hs : (rt.nameOrder m.nameToIndexMap).find? (sceneAMatch (toLower name)) = none := by
    rw [find?_order_none rt hrt]
    intro pair hp
    have := h5 pair hp
    simp [sceneAMatch, this]
  simp only [findParameterIndex, h1, h2, h3, h4, ha, hs]

/-! ## Where the keys of the three maps come from -/

theorem aliasStep_key (rt : Runtime) (names am : IndexMap) (e : Str × Str) (pair : Str × Int)
    (h : pair ∈ aliasStep rt names am e) : pair ∈ am ∨ pair.1 = e.1 ∨ pair.1 = toLower e.1 := by
  unfold aliasStep at h
  split at h
  · rcases IndexMap.mem_assign _ _ _ _ h with h1 | h1
    · exact Or.inr (Or.inr (by rw [h1]))
    · rcases IndexMap.mem_assign _ _ _ _ h1 with h2 | h2
      · exact Or.inr (Or.inl (by rw [h2]))
      · exact Or.inl h2
  · exact Or.inl h

theorem aliasFold_key (rt : Runtime) (names : IndexMap) (walk : List (Str × Str))
    (am : IndexMap) (pair : Str × Int) (h : pair ∈ walk.foldl (aliasStep rt names) am) :
    pair ∈ am ∨ ∃ e ∈ walk, pair.1 = e.1 ∨ pair.1 = toLower e.1 := by
  induction walk generalizing am with
  | nil => exact Or.inl h
  | cons e walk ih =>
    rw [List.foldl_cons] at h
    rcases ih _ h with h1 | ⟨e2, he2, h2⟩
    · rcases aliasStep_key rt names am e pair h1 with h3 | h3
      · exact Or.inl h3
      · exact Or.inr ⟨e, List.mem_cons_self _ _, h3⟩
    · exact Or.inr ⟨e2, List.mem_cons_of_mem _ he2, h2⟩

/-- Every key of the alias map is a key of the static alias table. -/
theorem buildAliasMap_key (rt : Runtime) (hrt : rt.Valid) (names : IndexMap) (key : Str)
    (i : Int) (h : (buildAliasMap rt names).find key = some i) :
    key ∈ parameterAliases.map Prod.fst := by
  rcases aliasFold_key rt names rt.aliasWalk [] _ (IndexMap.find_some_mem _ _ _ h) with h1 | h1
  · cases h1
  · obtain ⟨e, he, h2⟩ := h1
    have he2 : e ∈ parameterAliases := hrt.2.mem_iff.1 he
    have hl := parameterAliases_lower e he2
    rw [hl, or_self] at h2
    simp only at h2
    rw [h2]
    exact List.mem_map_of_mem _ he2

theorem parameterAliases_no_space : ∀ e ∈ parameterAliases, ' ' ∉ e.1 := by decide

theorem registerParameter_osc_key (maps : IndexMap × IndexMap) (j : Nat) (q : Parameter)
    (pair : Str × Int) (h : pair ∈ (registerParameter maps j q).2) :
    pair ∈ maps.2 ∨ pair.1 = q.oscName ∨ pair.1 = toLower q.oscName := by
  simp only [registerParameter] at h
  split at h
  · exact Or.inl h
  · rcases IndexMap.mem_assign _ _ _ _ h with h1 | h1
    · exact Or.inr (Or.inr (by rw [h1]))
    · rcases IndexMap.mem_assign _ _ _ _ h1 with h2 | h2
      · exact Or.inr (Or.inl (by rw [h2]))
      · exact Or.inl h2

theorem buildNameMaps_osc_key (ps : List (Option Parameter)) (i : Nat)
    (maps : IndexMap × IndexMap) (pair : Str × Int) (h : pair ∈ (buildNameMaps ps i maps).2) :
    pair ∈ maps.2 ∨ ∃ q, some q ∈ ps ∧ (pair.1 = q.oscName ∨ pair.1 = toLower q.oscName) := by
  induction ps generalizing i maps with
  | nil => exact Or.inl h
  | cons o ps ih =>
    cases o with
    | none =>
      rw [buildNameMaps] at h
      rcases ih _ _ h with h1 | ⟨q, hq, h1⟩
      · exact Or.inl h1
      · exact Or.inr ⟨q, List.mem_cons_of_mem _ hq, h1⟩
    | some p =>
      rw [buildNameMaps] at h
      rcases ih _ _ h with h1 | ⟨q, hq, h1⟩
      · rcases registerParameter_osc_key maps i p pair h1 with h2 | h2
        · exact Or.inl h2
        · exact Or.inr ⟨p, List.mem_cons_self _ _, h2⟩
      · exact Or.inr ⟨q, List.mem_cons_of_mem _ hq, h1⟩

theorem registerParameter_name_key (maps : IndexMap × IndexMap) (j : Nat) (q : Parameter)
    (pair : Str × Int) (h : pair ∈ (registerParameter maps j q).1) :
    pair ∈ maps.1 ∨ (pair.2 = (j : Int) ∧ (pair.1 = q.fullName ∨ pair.1 = toLower q.fullName ∨
      pair.1 = q.internalName ∨ pair.1 = toLower q.internalName)) := by
  have base : ∀ pr, pr ∈ (maps.1.assign q.fullName j).assign (toLower q.fullName) j →
      pr ∈ maps.1 ∨ (pr.2 = (j : Int) ∧ (pr.1 = q.fullName ∨ pr.1 = toLower q.fullName)) := by
    intro pr hpr
    rcases IndexMap.mem_assign _ _ _ _ hpr with h1 | h1
    · exact Or.inr ⟨by rw [h1], Or.inr (by rw [h1])⟩
    · rcases IndexMap.mem_assign _ _ _ _ h1 with h2 | h2
      · exact Or.inr ⟨by rw [h2], Or.inl (by rw [h2])⟩
      · exact Or.inl h2
  simp only [registerParameter] at h
  split at h
  · rcases base pair h with h1 | ⟨h1, h2⟩
    · exact Or.inl h1
    · exact Or.inr ⟨h1, by tauto⟩
  · rcases IndexMap.mem_assign _ _ _ _ h with h1 | h1
    · exact Or.inr ⟨by rw [h1], Or.inr (Or.inr (Or.inr (by rw [h1])))⟩
    · rcases IndexMap.mem_assign _ _ _ _ h1 with h2 | h2
      · exact Or.inr ⟨by rw [h2], Or.inr (Or.inr (Or.inl (by rw [h2])))⟩
      · rcases base pair h2 with h3 | ⟨h3, h4⟩
        · exact Or.inl h3
        · exact Or.inr ⟨h3, by tauto⟩

theorem buildNameMaps_name_key (ps : List (Option Parameter)) (i : Nat)
    (maps : IndexMap × IndexMap) (pair : Str × Int) (h : pair ∈ (buildNameMaps ps i maps).1) :
    pair ∈ maps.1 ∨ ∃ (k : Nat) (q : Parameter), ps[k]? = some (some q) ∧
      pair.2 = ((i + k : Nat) : Int) ∧ (pair.1 = q.fullName ∨ pair.1 = toLower q.fullName ∨
        pair.1 = q.internalName ∨ pair.1 = toLower q.internalName) := by
  induction ps generalizing i maps with
  | nil => exact Or.inl h
  | cons o ps ih =>
    have lift : (∃ (k : Nat) (q : Parameter), ps[k]? = some (some q) ∧
        pair.2 = ((i + 1 + k : Nat) : Int) ∧ (pair.1 = q.fullName ∨
          pair.1 = toLower q.fullName ∨ pair.1 = q.internalName ∨
          pair.1 = toLower q.internalName)) →
        ∃ (k : Nat) (q : Parameter), (o :: ps)[k]? = some (some q) ∧
          pair.2 = ((i + k : Nat) : Int) ∧ (pair.1 = q.fullName ∨
            pair.1 = toLower q.fullName ∨ pair.1 = q.internalName ∨
            pair.1 = toLower q.internalName) := by
      rintro ⟨k, q, h1, h2, h3⟩
      exact ⟨k + 1, q, by simpa using h1, by rw [h2]; congr 1; omega, h3⟩
    cases o with
    | none =>
      rw [buildNameMaps] at h
      rcases ih _ _ h with h1 | h1
      · exact Or.inl h1
      · exact Or.inr (lift h1)
    | some p =>
      rw [buildNameMaps] at h
      rcases ih _ _ h with h1 | h1
      · rcases registerParameter_name_key maps i p pair h1 with h2 | ⟨h2, h3⟩
        · exact Or.inl h2
        · exact Or.inr ⟨0, p, by simp, by simpa using h2, h3⟩
      · exact Or.inr (lift h1)

theorem registerParameter_lowerName (maps : IndexMap × IndexMap) (j : Nat) (p : Parameter) :
    (registerParameter maps j p).1.HasKey (toLower p.fullName) := by
  simp only [registerParameter]
  split
  · exact IndexMap.hasKey_assign_self _ _ _
  · exact IndexMap.hasKey_assign _ _ _ _
      (IndexMap.hasKey_assign _ _ _ _ (IndexMap.hasKey_assign_self _ _ _))

theorem buildNameMaps_lowerName (ps : List (Option Parameter)) (i : Nat)
    (maps : IndexMap × IndexMap) (p : Parameter) (hp : some p ∈ ps) :
    (buildNameMaps ps i maps).1.HasKey (toLower p.fullName) := by
  induction ps generalizing i maps with
  | nil => cases hp
  | cons o ps ih =>
    rcases List.mem_cons.1 hp with h | h
    · subst h
      rw [buildNameMaps]
      exact buildNameMaps_hasKey _ _ _ _ (registerParameter_lowerName maps i p)
    · cases o with
      | none => rw [buildNameMaps]; exact ih _ _ h
      | some q => rw [buildNameMaps]; exact ih _ _ h

/-! ## Claims on the bounds of the indices and on unresolved names -/

/-- Claim C26: for every parameter table, every value `findParameterIndex` returns after
`buildParameterMaps` is -1 or a position below the size of the table whose entry is not null;
so, as long as the table is the one the maps were built for, the lookups that
`setParameterFromName` and `tryParameterVariations` make with a found index are in bounds and
meet a non-null entry: the block they run returns `true`, never through its null branch. -/
theorem findParameterIndex_in_bounds (rt : Runtime) (hrt : rt.Valid)
    (param_ptr : List (Option Parameter)) (name : Str) :
    (findParameterIndex rt (buildParameterMaps rt param_ptr) name = -1 ∨
      ∃ (i : Nat) (p : Parameter),
        findParameterIndex rt (buildParameterMaps rt param_ptr) name = (i : Int) ∧
          i < param_ptr.length ∧ param_ptr[i]? = some (some p)) ∧
    ∀ (host : Host) (value : ℚ) (patch : Patch), patch.param_ptr = param_ptr →
      (0 ≤ findParameterIndex rt (buildParameterMaps rt param_ptr) name →
        (∃ p, patch.param_ptr[(findParameterIndex rt (buildParameterMaps rt param_ptr)
            name).toNat]? = some (some p)) ∧
          (setParameterFromName host rt (buildParameterMaps rt param_ptr) name value
            patch).1 = true) ∧
      (∀ v ∈ variations name,
        0 ≤ findParameterIndex rt (buildParameterMaps rt param_ptr) v →
          (∃ p, patch.param_ptr[(findParameterIndex rt (buildParameterMaps rt param_ptr)
              v).toNat]? = some (some p)) ∧
            (applyValue host name value
              (findParameterIndex rt (buildParameterMaps rt param_ptr) v).toNat patch).1
                = true) := by
  have found : ∀ n : Str, 0 ≤ findParameterIndex rt (buildParameterMaps rt param_ptr) n →
      ∃ p, param_ptr[(findParameterIndex rt (buildParameterMaps rt param_ptr) n).toNat]?
        = some (some p) := by
    intro n hn
    rcases findParameterIndex_valid rt hrt param_ptr n with h | ⟨i, p, h1, h2⟩
    · rw [h] at hn; omega
    · exact ⟨p, by rw [h1]; simpa using h2⟩
  refine ⟨?_, ?_⟩
  · rcases findParameterIndex_valid rt hrt param_ptr name with h | ⟨i, p, h1, h2⟩
    · exact Or.inl h
    · refine Or.inr ⟨i, p, h1, ?_, h2⟩
      rcases Nat.lt_or_ge i param_ptr.length with h | h
      · exact h
      · rw [List.getElem?_eq_none h] at h2; cases h2
  · intro host value patch hpatch
    constructor
    · intro hn
      obtain ⟨p, hp⟩ := found name hn
      refine ⟨⟨p, by rw [hpatch]; exact hp⟩, ?_⟩
      rw [setParameterFromName, if_pos hn]
      exact applyValue_true host name value _ patch p (by rw [hpatch]; exact hp)
    · intro v _ hn
      obtain ⟨p, hp⟩ := found v hn
      exact ⟨⟨p, by rw [hpatch]; exact hp⟩,
        applyValue_true host name value _ patch p (by rw [hpatch]; exact hp)⟩

theorem findParameterIndex_in_bounds_witness :
    plainRuntime.Valid ∧
    (findParameterIndex plainRuntime (buildParameterMaps plainRuntime samplePatch.param_ptr)
        "osc1_type".toList = -1 ∨
      ∃ (i : Nat) (p : Parameter),
        findParameterIndex plainRuntime (buildParameterMaps plainRuntime samplePatch.param_ptr)
          "osc1_type".toList = (i : Int) ∧
          i < samplePatch.param_ptr.length ∧ samplePatch.param_ptr[i]? = some (some p)) :=
  ⟨plainRuntime_valid,
    (findParameterIndex_in_bounds plainRuntime plainRuntime_valid samplePatch.param_ptr
      "osc1_type".toList).1⟩

/-- For a table with a non-null entry the empty name is resolved: every key contains it. -/
theorem findParameterIndex_nil_resolved (rt : Runtime) (hrt : rt.Valid)
    (param_ptr : List (Option Parameter)) (p : Parameter) (hp : some p ∈ param_ptr) :
    0 ≤ findParameterIndex rt (buildParameterMaps rt param_ptr) [] := by
  rcases findParameterIndex_valid rt hrt param_ptr [] with h | ⟨i, q, h1, _⟩
  · exfalso
    obtain ⟨pair, hpair, -⟩ : (buildParameterMaps rt param_ptr).nameToIndexMap.HasKey
        p.fullName := buildNameMaps_fullName param_ptr 0 ([], []) p hp
    have := findParameterIndex_unresolved rt hrt param_ptr [] h pair hpair
    rw [show toLower [] = ([] : Str) from rfl, contains_nil] at this
    cases this
  · rw [h1]; exact Int.natCast_nonneg i

set_option maxRecDepth 100000 in
/-- Claim C21 fails in the code: on the sample table the empty name is resolved to the
parameter at position 0 (the first key met in the partial-match loop, since every key contains
the empty string), and `setParameterFromName` with the empty name sets that parameter and
returns `true`. -/
theorem findParameterIndex_empty_name :
    plainRuntime.Valid ∧
    findParameterIndex plainRuntime sampleMapper [] = 0 ∧
    (setParameterFromName linearHost plainRuntime sampleMapper [] (1 / 2) samplePatch).1
      = true := by
  refine ⟨plainRuntime_valid, ?_, ?_⟩ <;> with_unfolding_all decide

/-- A name that is not resolved stays unresolved when text with a space is put around it, if
no OSC name of the table has a space. -/
theorem findParameterIndex_wrapped (rt : Runtime) (hrt : rt.Valid)
    (param_ptr : List (Option Parameter))
    (hosc : ∀ p, some p ∈ param_ptr → ' ' ∉ p.oscName) (name pre suf : Str)
    (hsp : ' ' ∈ pre ++ suf)
    (h : findParameterIndex rt (buildParameterMaps rt param_ptr) name = -1) :
    findParameterIndex rt (buildParameterMaps rt param_ptr) (pre ++ name ++ suf) = -1 := by
  have hun := findParameterIndex_unresolved rt hrt param_ptr name h
  have hlow : toLower (pre ++ name ++ suf) = toLower pre ++ toLower name ++ toLower suf := by
    rw [toLower_append, toLower_append]
  have hinf : toLower name <:+: toLower (pre ++ name ++ suf) :=
    ⟨toLower pre, toLower suf, hlow.symm⟩
  have hspace : ' ' ∈ toLower (pre ++ name ++ suf) := by
    apply space_mem_toLower
    simp only [List.mem_append] at hsp ⊢
    tauto
  have sub : ∀ pair ∈ (buildParameterMaps rt param_ptr).nameToIndexMap,
      ¬ toLower (pre ++ name ++ suf) <:+: toLower pair.1 := by
    intro pair hp hc
    have := hun pair hp
    rw [(contains_iff _ _).2 (hinf.trans hc)] at this
    cases this
  apply findParameterIndex_of_fail rt hrt
  · cases hf : (buildParameterMaps rt param_ptr).aliasToIndexMap.find
        (toLower (pre ++ name ++ suf)) with
    | none => rfl
    | some i =>
      exfalso
      have hk := buildAliasMap_key rt hrt _ _ i hf
      obtain ⟨e, he, hek⟩ := List.mem_map.1 hk
      exact parameterAliases_no_space e he (by rw [hek]; exact hspace)
  · cases hf : (buildParameterMaps rt param_ptr).nameToIndexMap.find (pre ++ name ++ suf) with
    | none => rfl
    | some i => exact absurd (List.infix_refl _) (sub _ (IndexMap.find_some_mem _ _ _ hf))
  · cases hf : (buildParameterMaps rt param_ptr).nameToIndexMap.find
        (toLower (pre ++ name ++ suf)) with
    | none => rfl
    | some i =>
      exfalso
      apply sub _ (IndexMap.find_some_mem _ _ _ hf)
      simp only
      rw [toLower_toLower]
  · cases hf : (buildParameterMaps rt param_ptr).oscNameToIndexMap.find
        (toLower (pre ++ name ++ suf)) with
    | none => rfl
    | some i =>
      exfalso
      rcases buildNameMaps_osc_key param_ptr 0 ([], []) _ (IndexMap.find_some_mem _ _ _ hf)
        with h1 | ⟨q, hq, h1⟩
      · cases h1
      · simp only at h1
        rcases h1 with h1 | h1
        · exact hosc q hq (by rw [← h1]; exact hspace)
        · exact hosc q hq (space_of_mem_toLower _ (by rw [← h1]; exact hspace))
  · intro pair hp
    cases hc : contains (toLower pair.1) (toLower (pre ++ name ++ suf)) with
    | false => rfl
    | true => exact absurd ((contains_iff _ _).1 hc) (sub pair hp)

/-- Claim C25: for every parameter table whose OSC names contain no space, whenever
`findParameterIndex(name) = -1` it also returns -1 for each of the six variations of
`tryParameterVariations`; hence, on the table the maps were built for,
`setParameterFromName(name, v)` returns `true` exactly when `findParameterIndex(name) ≥ 0`. -/
theorem variations_never_rescue (rt : Runtime) (hrt : rt.Valid)
    (param_ptr : List (Option Parameter))
    (hosc : ∀ p, some p ∈ param_ptr → ' ' ∉ p.oscName) (name : Str) :
    (findParameterIndex rt (buildParameterMaps rt param_ptr) name = -1 →
      ∀ v ∈ variations name,
        findParameterIndex rt (buildParameterMaps rt param_ptr) v = -1) ∧
    ∀ (host : Host) (value : ℚ) (patch : Patch), patch.param_ptr = param_ptr →
      ((setParameterFromName host rt (buildParameterMaps rt param_ptr) name value patch).1
          = true ↔
        0 ≤ findParameterIndex rt (buildParameterMaps rt param_ptr) name) := by
  have hvar : findParameterIndex rt (buildParameterMaps rt param_ptr) name = -1 →
      ∀ v ∈ variations name,
        findParameterIndex rt (buildParameterMaps rt param_ptr) v = -1 := by
    intro h v hv
    have w := fun pre suf hsp =>
      findParameterIndex_wrapped rt hrt param_ptr hosc name pre suf hsp h
    simp only [variations, List.mem_cons, List.mem_singleton, List.not_mem_nil,
      or_false] at hv
    rcases hv with rfl | rfl | rfl | rfl | rfl | rfl
    · simpa using w "A ".toList [] (by decide)
    · simpa using w "B ".toList [] (by decide)
    · simpa using w [] " 1".toList (by decide)
    · simpa using w [] " 2".toList (by decide)
    · exact w "A ".toList " 1".toList (by decide)
    · exact w "A ".toList " 2".toList (by decide)
  refine ⟨hvar, ?_⟩
  intro host value patch hpatch
  constructor
  · intro hset
    by_contra hneg
    have hm1 : findParameterIndex rt (buildParameterMaps rt param_ptr) name = -1 := by
      rcases findParameterIndex_valid rt hrt param_ptr name with h | ⟨i, p, h1, _⟩
      · exact h
      · rw [h1] at hneg; exact absurd (Int.natCast_nonneg i) hneg
    rw [setParameterFromName, if_neg (by simpa using hneg), tryParameterVariations,
      tryVariationList_unresolved] at hset
    · cases hset
    · intro x hx
      rw [hvar hm1 x hx]
      decide
  · intro hn
    rcases findParameterIndex_valid rt hrt param_ptr name with h | ⟨i, p, h1, h2⟩
    · rw [h] at hn; omega
    · rw [setParameterFromName, if_pos hn, h1]
      exact applyValue_true host name value _ patch p (by rw [hpatch]; simpa using h2)

set_option maxRecDepth 100000 in
theorem variations_never_rescue_witness :
    plainRuntime.Valid ∧ (∀ p, some p ∈ samplePatch.param_ptr → ' ' ∉ p.oscName) ∧
    findParameterIndex plainRuntime (buildParameterMaps plainRuntime samplePatch.param_ptr)
      "reverb".toList = -1 ∧
    ∀ v ∈ variations "reverb".toList,
      findParameterIndex plainRuntime (buildParameterMaps plainRuntime samplePatch.param_ptr)
        v = -1 :=
  have hosc : ∀ p, some p ∈ samplePatch.param_ptr → ' ' ∉ p.oscName := by
    intro p hp
    simp only [samplePatch, List.mem_cons, Option.some.injEq, List.mem_singleton,
      List.not_mem_nil, or_false] at hp
    rcases hp with rfl | hp | rfl
    · decide
    · cases hp
    · decide
  have h1 : findParameterIndex plainRuntime
      (buildParameterMaps plainRuntime samplePatch.param_ptr) "reverb".toList = -1 := by
    with_unfolding_all decide
  ⟨plainRuntime_valid, hosc, h1,
    (variations_never_rescue plainRuntime plainRuntime_valid samplePatch.param_ptr hosc
      "reverb".toList).1 h1⟩

/-! ## Letter case in the lookups -/

set_option maxRecDepth 100000 in
/-- C22, as stated, fails in its second part: on the sample table the name
`A FILTER 1 CUTOFF` differs from the display name `A Filter 1 Cutoff` only in letter case and
is not an alias, and `findParameterIndex` resolves it to that parameter, at position 0: the
name table holds every name in lower case too, and the third tier looks the lower-cased name
up in it. -/
theorem findParameterIndex_case_variant_resolved :
    ¬ ∀ (rt : Runtime) (param_ptr : List (Option Parameter)) (i : Nat) (p : Parameter)
        (name : Str), rt.Valid → param_ptr[i]? = some (some p) →
        toLower name = toLower p.fullName → name ≠ p.fullName →
        name ∉ parameterAliases.map Prod.fst →
        toLower name ∉ parameterAliases.map Prod.fst →
        findParameterIndex rt (buildParameterMaps rt param_ptr) name ≠ (i : Int) := by
  intro h
  have h1 := h plainRuntime samplePatch.param_ptr 0 cutoffParam "A FILTER 1 CUTOFF".toList
    plainRuntime_valid (by decide) (by decide) (by decide) (by decide) (by decide)
  revert h1
  with_unfolding_all decide

/-- C22, amended: after `buildParameterMaps`, (1) for every key `a` of the alias map, every
letter-case variant of `a` is resolved by `findParameterIndex` to the index stored for `a`,
as `a` itself is; (2) every name that equals the display name of a parameter up to letter case
and whose lower-case form is not a key of the alias map is resolved through the name table,
which is looked up for the name and then for its lower-case form: the index returned is
stored there under one of the two, and it is the position of a parameter whose display name or
internal name equals the name up to letter case, hence of the parameter itself when it is the
only such parameter. -/
theorem findParameterIndex_letter_case (rt : Runtime) (hrt : rt.Valid)
    (param_ptr : List (Option Parameter)) :
    (∀ (a v : Str) (i : Int),
      (buildParameterMaps rt param_ptr).aliasToIndexMap.find a = some i →
      toLower v = toLower a →
      findParameterIndex rt (buildParameterMaps rt param_ptr) v = i ∧
        findParameterIndex rt (buildParameterMaps rt param_ptr) a = i) ∧
    (∀ (i : Nat) (p : Parameter) (name : Str), param_ptr[i]? = some (some p) →
      toLower name = toLower p.fullName →
      (buildParameterMaps rt param_ptr).aliasToIndexMap.find (toLower name) = none →
      ∃ (j : Nat) (q : Parameter),
        findParameterIndex rt (buildParameterMaps rt param_ptr) name = (j : Int) ∧
        param_ptr[j]? = some (some q) ∧
        ((buildParameterMaps rt param_ptr).nameToIndexMap.find name = some (j : Int) ∨
          ((buildParameterMaps rt param_ptr).nameToIndexMap.find name = none ∧
            (buildParameterMaps rt param_ptr).nameToIndexMap.find (toLower name)
              = some (j : Int))) ∧
        (toLower q.fullName = toLower name ∨ toLower q.internalName = toLower name) ∧
        ((∀ (k : Nat) (r : Parameter), param_ptr[k]? = some (some r) →
            (toLower r.fullName = toLower name ∨ toLower r.internalName = toLower name) →
            k = i) → j = i)) := by
  constructor
  · intro a v i ha hv
    have hk := buildAliasMap_key rt hrt _ _ i ha
    obtain ⟨e, he, hek⟩ := List.mem_map.1 hk
    have hla : toLower a = a := by rw [← hek]; exact parameterAliases_lower e he
    have h1 : (buildParameterMaps rt param_ptr).aliasToIndexMap.find (toLower v) = some i := by
      rw [hv, hla]; exact ha
    have h2 : (buildParameterMaps rt param_ptr).aliasToIndexMap.find (toLower a) = some i := by
      rw [hla]; exact ha
    constructor
    · simp only [findParameterIndex, h1]
    · simp only [findParameterIndex, h2]
  · intro i p name hp hname halias
    have hmem : some p ∈ param_ptr := List.mem_iff_getElem?.2 ⟨i, hp⟩
    have hkey : (buildParameterMaps rt param_ptr).nameToIndexMap.HasKey (toLower name) := by
      rw [hname]
      exact buildNameMaps_lowerName param_ptr 0 ([], []) p hmem
    have origin : ∀ (key : Str) (j : Int), toLower key = toLower name →
        (buildParameterMaps rt param_ptr).nameToIndexMap.find key = some j →
        ∃ (k : Nat) (q : Parameter), j = (k : Int) ∧ param_ptr[k]? = some (some q) ∧
          (toLower q.fullName = toLower name ∨ toLower q.internalName = toLower name) := by
      intro key j hkl hf
      rcases buildNameMaps_name_key param_ptr 0 ([], []) _ (IndexMap.find_some_mem _ _ _ hf)
        with h1 | ⟨k, q, h1, h2, h3⟩
      · cases h1
      · refine ⟨k, q, by simpa using h2, h1, ?_⟩
        simp only at h3
        rcases h3 with h3 | h3 | h3 | h3
        · left; rw [← h3, hkl]
        · left; rw [← hkl, h3, toLower_toLower]
        · right; rw [← h3, hkl]
        · right; rw [← hkl, h3, toLower_toLower]
    have finish : ∀ (j : Int),
        findParameterIndex rt (buildParameterMaps rt param_ptr) name = j →
        ((buildParameterMaps rt param_ptr).nameToIndexMap.find name = some j ∨
          ((buildParameterMaps rt param_ptr).nameToIndexMap.find name = none ∧
            (buildParameterMaps rt param_ptr).nameToIndexMap.find (toLower name) = some j)) →
        (∃ (k : Nat) (q : Parameter), j = (k : Int) ∧ param_ptr[k]? = some (some q) ∧
          (toLower q.fullName = toLower name ∨ toLower q.internalName = toLower name)) →
        ∃ (j : Nat) (q : Parameter),
          findParameterIndex rt (buildParameterMaps rt param_ptr) name = (j : Int) ∧
          param_ptr[j]? = some (some q) ∧
          ((buildParameterMaps rt param_ptr).nameToIndexMap.find name = some (j : Int) ∨
            ((buildParameterMaps rt param_ptr).nameToIndexMap.find name = none ∧
              (buildParameterMaps rt param_ptr).nameToIndexMap.find (toLower name)
                = some (j : Int))) ∧
          (toLower q.fullName = toLower name ∨ toLower q.internalName = toLower name) ∧
          ((∀ (k : Nat) (r : Parameter), param_ptr[k]? = some (some r) →
              (toLower r.fullName = toLower name ∨ toLower r.internalName = toLower name) →
              k = i) → j = i) := by
      rintro j hj hfind ⟨k, q, rfl, hq, hl⟩
      exact ⟨k, q, hj, hq, hfind, hl, fun huniq => huniq k q hq hl⟩
    rcases Option.eq_none_or_eq_some
        ((buildParameterMaps rt param_ptr).nameToIndexMap.find name) with h2 | ⟨j, h2⟩
    · rcases Option.eq_none_or_eq_some
          ((buildParameterMaps rt param_ptr).nameToIndexMap.find (toLower name))
        with h3 | ⟨j, h3⟩
      · exact absurd hkey ((IndexMap.find_none_iff_not_hasKey _ _).1 h3)
      · apply finish j
        · simp only [findParameterIndex, halias, h2, h3]
        · exact Or.inr ⟨h2, h3⟩
        · exact origin (toLower name) j (toLower_toLower name) h3
    · apply finish j
      · simp only [findParameterIndex, halias, h2]
      · exact Or.inl h2
      · exact origin name j rfl h2

set_option maxRecDepth 100000 in
theorem findParameterIndex_letter_case_witness :
    plainRuntime.Valid ∧
    (buildParameterMaps plainRuntime samplePatch.param_ptr).aliasToIndexMap.find
      "cutoff".toList = some 0 ∧
    toLower "CutOff".toList = toLower "cutoff".toList ∧
    findParameterIndex plainRuntime (buildParameterMaps plainRuntime samplePatch.param_ptr)
      "CutOff".toList = 0 ∧
    samplePatch.param_ptr[0]? = some (some cutoffParam) ∧
    toLower "A FILTER 1 CUTOFF".toList = toLower cutoffParam.fullName ∧
    (buildParameterMaps plainRuntime samplePatch.param_ptr).aliasToIndexMap.find
      (toLower "A FILTER 1 CUTOFF".toList) = none ∧
    ∃ (j : Nat) (q : Parameter),
      findParameterIndex plainRuntime (buildParameterMaps plainRuntime samplePatch.param_ptr)
        "A FILTER 1 CUTOFF".toList = (j : Int) ∧
      samplePatch.param_ptr[j]? = some (some q) ∧
      ((buildParameterMaps plainRuntime samplePatch.param_ptr).nameToIndexMap.find
          "A FILTER 1 CUTOFF".toList = some (j : Int) ∨
        ((buildParameterMaps plainRuntime samplePatch.param_ptr).nameToIndexMap.find
            "A FILTER 1 CUTOFF".toList = none ∧
          (buildParameterMaps plainRuntime samplePatch.param_ptr).nameToIndexMap.find
            (toLower "A FILTER 1 CUTOFF".toList) = some (j : Int))) ∧
      (toLower q.fullName = toLower "A FILTER 1 CUTOFF".toList ∨
        toLower q.internalName = toLower "A FILTER 1 CUTOFF".toList) ∧
      ((∀ (k : Nat) (r : Parameter), samplePatch.param_ptr[k]? = some (some r) →
          (toLower r.fullName = toLower "A FILTER 1 CUTOFF".toList ∨
            toLower r.internalName = toLower "A FILTER 1 CUTOFF".toList) →
          k = 0) → j = 0) :=
  have h1 : (buildParameterMaps plainRuntime samplePatch.param_ptr).aliasToIndexMap.find
      "cutoff".toList = some 0 := by with_unfolding_all decide
  have h2 : samplePatch.param_ptr[0]? = some (some cutoffParam) := rfl
  have h3 : toLower "A FILTER 1 CUTOFF".toList = toLower cutoffParam.fullName := by decide
  have h4 : (buildParameterMaps plainRuntime samplePatch.param_ptr).aliasToIndexMap.find
      (toLower "A FILTER 1 CUTOFF".toList) = none := by with_unfolding_all decide
  ⟨plainRuntime_valid, h1, by decide,
    ((findParameterIndex_letter_case plainRuntime plainRuntime_valid samplePatch.param_ptr).1
      "cutoff".toList "CutOff".toList 0 h1 (by decide)).1,
    h2, h3, h4,
    (findParameterIndex_letter_case plainRuntime plainRuntime_valid samplePatch.param_ptr).2
      0 cutoffParam "A FILTER 1 CUTOFF".toList h2 h3 h4⟩

end Surge.Claude

namespace Surge.PatchDB

open Surge.Claude

/-! ## Ranking of the text search -/

section Field

variable {K : Type} [LinearOrderedField K]

theorem infix_of_mem_wordsLoop (word s : Str) : ∀ w ∈ wordsLoop word s, w <:+: word ++ s := by
  induction s generalizing word with
  | nil =>
    intro w hw
    rw [wordsLoop] at hw
    split at hw
    · cases hw
    · rw [List.mem_singleton.1 hw]; simp
  | cons c s ih =>
    intro w hw
    rw [wordsLoop] at hw
    split at hw
    · split at hw
      · exact (ih [] w hw).trans ⟨word ++ [c], [], by simp⟩
      · rcases List.mem_cons.1 hw with rfl | hw
        · exact ⟨[], c :: s, by simp⟩
        · exact (ih [] w hw).trans ⟨word ++ [c], [], by simp⟩
    · have := ih (word ++ [c]) w hw
      simpa using this

theorem infix_of_mem_words (s : Str) : ∀ w ∈ words s, w <:+: s := by
  intro w hw
  simpa using infix_of_mem_wordsLoop [] s w hw

theorem wordScore_eq (nameLower : Str) (ws : List Str) (init : K) :
    ws.foldl (fun score word => if contains nameLower word then score + 3 / 10 else score) init
      = init + 3 / 10 * ((ws.filter (fun word => contains nameLower word)).length : K) := by
  induction ws generalizing init with
  | nil => simp
  | cons w ws ih =>
    rw [List.foldl_cons, ih]
    by_cases hw : contains nameLower w = true
    · rw [if_pos hw, List.filter_cons_of_pos hw, List.length_cons]
      push_cast
      ring
    · rw [if_neg hw, List.filter_cons_of_neg hw]

/-- The score of a name that contains the whole query: 1.0 and 0.3 for every word. -/
theorem textScore_whole (queryLower nameLower : Str)
    (h : contains nameLower queryLower = true) :
    (textScore queryLower nameLower : K) = 1 + 3 / 10 * ((words queryLower).length : K) := by
  rw [textScore, wordScore_eq, if_pos h]
  have hall : (words queryLower).filter (fun word => contains nameLower word)
      = words queryLower := by
    rw [List.filter_eq_self]
    intro w hw
    exact (contains_iff _ _).2 ((infix_of_mem_words _ w hw).trans ((contains_iff _ _).1 h))
  rw [hall]

/-- The score of a name that does not contain the whole query: at most 0.8 and 0.3 for every
word. -/
theorem textScore_part (queryLower nameLower : Str)
    (h : contains nameLower queryLower = false) :
    (textScore queryLower nameLower : K) ≤ 8 / 10 + 3 / 10 * ((words queryLower).length : K) := by
  rw [textScore, wordScore_eq, if_neg (by simp [h])]
  have hlen : (((words queryLower).filter (fun word => contains nameLower word)).length : K)
      ≤ ((words queryLower).length : K) := by
    exact_mod_cast List.length_filter_le _ _
  have h3 : (0 : K) ≤ 3 / 10 := by norm_num
  have := mul_le_mul_of_nonneg_left hlen h3
  split
  · linarith
  · linarith

theorem textScore_lt (query : Str) (a b : PatchVector K) (ha : containsQuery query a = false)
    (hb : containsQuery query b = true) :
    (textScore (toLower query) (toLower a.name) : K)
      < textScore (toLower query) (toLower b.name) := by
  have h1 := textScore_part (K := K) (toLower query) (toLower a.name) ha
  have h2 := textScore_whole (K := K) (toLower query) (toLower b.name) hb
  rw [h2]
  linarith

/-- The result of `findSimilarByText` as a beginning of the sorted pairs. -/
theorem findSimilarByText_eq (sort : List (K × Nat) → List (K × Nat))
    (db : VectorDatabase K) (description : Str) (topK : Int) (hsort : IsDescendingSort sort) :
    findSimilarByText sort db description topK =
      ((sort (scorePairs (fun p => textScore (toLower description) (toLower p.name))
          (fun score => decide (score > 0)) 0 db.patches)).take
        (min topK.toNat (sort (scorePairs (fun p => textScore (toLower description)
          (toLower p.name)) (fun score => decide (score > 0)) 0 db.patches)).length)).filterMap
        (fun pair => db.patches[pair.2]?) := by
  rw [findSimilarByText, topResults_eq]
  rw [(hsort _).1.length_eq]
  refine lt_of_le_of_lt ?_ db.fits
  have h1 := (scorePairs_snd_sublist (fun p : PatchVector K =>
    textScore (toLower description) (toLower p.name)) (fun score => decide (score > 0)) 0
    db.patches).length_le
  simpa using h1

/-- Every sorted pair is the score of a patch with the position of that patch. -/
theorem sortedPairs_mem (sort : List (K × Nat) → List (K × Nat))
    (db : VectorDatabase K) (description : Str) (hsort : IsDescendingSort sort)
    (pair : K × Nat)
    (h : pair ∈ sort (scorePairs (fun p => textScore (toLower description) (toLower p.name))
      (fun score => decide (score > 0)) 0 db.patches)) :
    ∃ p, db.patches[pair.2]? = some p ∧
      pair.1 = textScore (toLower description) (toLower p.name) ∧
        nameMatches description p = true := by
  obtain ⟨j, p, h1, h2, h3⟩ := (scorePairs_mem _ _ 0 db.patches pair).1 ((hsort _).1.mem_iff.1 h)
  refine ⟨p, ?_, ?_, ?_⟩
  · rw [h2]; simpa using h1
  · rw [h2]
  · rw [← textScore_pos]; exact h3

/-- Every patch `findSimilarByText` returns is a patch of the database whose name matches. -/
theorem findSimilarByText_mem (sort : List (K × Nat) → List (K × Nat))
    (db : VectorDatabase K) (description : Str) (topK : Int) (hsort : IsDescendingSort sort)
    (p : PatchVector K) (hp : p ∈ findSimilarByText sort db description topK) :
    p ∈ db.patches ∧ nameMatches description p = true := by
  rw [findSimilarByText_eq sort db description topK hsort] at hp
  obtain ⟨pair, hpair, hget⟩ := List.mem_filterMap.1 hp
  obtain ⟨q, hq1, -, hq3⟩ := sortedPairs_mem sort db description hsort pair
    (List.mem_of_mem_take hpair)
  have hpq : p = q := by
    have : some p = some q := by rw [← hq1]; exact hget.symm
    exact Option.some.inj this
  subst hpq
  exact ⟨List.mem_iff_getElem?.2 ⟨pair.2, hq1⟩, hq3⟩

/-- With `topK ≥ 1`, `findSimilarByText` returns a patch as soon as a name matches. -/
theorem findSimilarByText_ne_nil (sort : List (K × Nat) → List (K × Nat))
    (db : VectorDatabase K) (description : Str) (topK : Int) (hsort : IsDescendingSort sort)
    (hk : 1 ≤ topK) (p0 : PatchVector K) (hp0 : p0 ∈ db.patches)
    (hm0 : nameMatches description p0 = true) :
    findSimilarByText sort db description topK ≠ [] := by
  have hmem := sortedPairs_mem sort db description hsort
  rw [findSimilarByText_eq sort db description topK hsort]
  obtain ⟨j, hj⟩ := List.mem_iff_getElem?.1 hp0
  have hin : ((textScore (toLower description) (toLower p0.name) : K), j) ∈
      sort (scorePairs (fun p : PatchVector K =>
        textScore (toLower description) (toLower p.name)) (fun score => decide (score > 0)) 0
        db.patches) :=
    (hsort _).1.mem_iff.2 ((scorePairs_mem _ _ 0 db.patches _).2
      ⟨j, p0, hj, by simp, by rw [textScore_pos]; exact hm0⟩)
  generalize sort (scorePairs (fun p : PatchVector K =>
    textScore (toLower description) (toLower p.name)) (fun score => decide (score > 0)) 0
    db.patches) = S at hmem hin ⊢
  cases S with
  | nil => cases hin
  | cons s0 S =>
    obtain ⟨first, hf1, -, -⟩ := hmem s0 (List.mem_cons_self _ _)
    obtain ⟨k, hk⟩ : ∃ k, min topK.toNat (s0 :: S).length = k + 1 := by
      refine ⟨min topK.toNat (s0 :: S).length - 1, ?_⟩
      simp only [List.length_cons]
      omega
    rw [hk, List.take_succ_cons,
      List.filterMap_cons_some (f := fun pair : K × Nat => db.patches[pair.2]?) hf1]
    exact List.cons_ne_nil _ _

/-- Claim C23: with the scores taken in exact arithmetic, and whatever order `std::sort` gives
pairs of equal score, in the result of `findSimilarByText` no patch whose name does not contain
the whole query (letter case apart) comes before a patch whose name contains it; so whenever
`topK ≥ 1` and the name of some patch of the database contains the query, the result has a
first patch and the name of that patch contains the query. -/
theorem findSimilarByText_whole_query_first (sort : List (K × Nat) → List (K × Nat))
    (db : VectorDatabase K) (description : Str) (topK : Int) (hsort : IsDescendingSort sort) :
    (findSimilarByText sort db description topK).Pairwise
      (fun a b => ¬ (containsQuery description a = false ∧ containsQuery description b = true)) ∧
    (1 ≤ topK → (∃ p ∈ db.patches, containsQuery description p = true) →
      ∃ first, (findSimilarByText sort db description topK).head? = some first ∧
        containsQuery description first = true) := by
  have hmem := sortedPairs_mem sort db description hsort
  have hsorted := (hsort (scorePairs (fun p : PatchVector K =>
    textScore (toLower description) (toLower p.name)) (fun score => decide (score > 0)) 0
    db.patches)).2
  rw [findSimilarByText_eq sort db description topK hsort]
  constructor
  · rw [List.pairwise_filterMap]
    refine (hsorted.sublist (List.take_sublist _ _)).imp_of_mem ?_
    intro a b ha hb hab x hx y hy hxy
    obtain ⟨p, hp1, hp2, -⟩ := hmem a (List.mem_of_mem_take ha)
    obtain ⟨q, hq1, hq2, -⟩ := hmem b (List.mem_of_mem_take hb)
    have hxp : x = p := by
      have : some x = some p := by rw [← hp1]; exact (Option.mem_def.1 hx).symm
      exact Option.some.inj this
    have hyq : y = q := by
      have : some y = some q := by rw [← hq1]; exact (Option.mem_def.1 hy).symm
      exact Option.some.inj this
    subst hxp hyq
    have := textScore_lt (K := K) description x y hxy.1 hxy.2
    rw [← hp2, ← hq2] at this
    exact absurd hab (not_le.2 this)
  · intro hk ⟨p0, hp0, hc0⟩
    obtain ⟨j, hj⟩ := List.mem_iff_getElem?.1 hp0
    have hpos : decide ((textScore (toLower description) (toLower p0.name) : K) > 0) = true := by
      rw [textScore_pos, nameMatches]
      have : contains (toLower p0.name) (toLower description) = true := hc0
      simp [this]
    have hin : ((textScore (toLower description) (toLower p0.name) : K), j) ∈
        sort (scorePairs (fun p : PatchVector K =>
          textScore (toLower description) (toLower p.name)) (fun score => decide (score > 0)) 0
          db.patches) :=
      (hsort _).1.mem_iff.2 ((scorePairs_mem _ _ 0 db.patches _).2 ⟨j, p0, hj, by simp, hpos⟩)
    generalize sort (scorePairs (fun p : PatchVector K =>
      textScore (toLower description) (toLower p.name)) (fun score => decide (score > 0)) 0
      db.patches) = S at hmem hsorted hin ⊢
    cases S with
    | nil => cases hin
    | cons s0 S =>
      obtain ⟨first, hf1, hf2, -⟩ := hmem s0 (List.mem_cons_self _ _)
      obtain ⟨k, hk⟩ : ∃ k, min topK.toNat (s0 :: S).length = k + 1 := by
        refine ⟨min topK.toNat (s0 :: S).length - 1, ?_⟩
        simp only [List.length_cons]
        omega
      rw [hk, List.take_succ_cons,
        List.filterMap_cons_some (f := fun pair : K × Nat => db.patches[pair.2]?) hf1]
      refine ⟨first, rfl, ?_⟩
      by_contra hnot
      have hfalse : containsQuery description first = false := by simpa using hnot
      have hlt := textScore_lt (K := K) description first p0 hfalse hc0
      rcases List.mem_cons.1 hin with h | h
      · have : s0.1 = textScore (toLower description) (toLower p0.name) := by rw [← h]
        rw [← hf2, this] at hlt
        exact lt_irrefl _ hlt
      · have := (List.pairwise_cons.1 hsorted).1 _ h
        simp only at this
        rw [hf2] at this
        exact absurd this (not_le.2 hlt)

end Field

theorem findSimilarByText_whole_query_first_witness :
    IsDescendingSort (insertionSortDescending : List (ℚ × Nat) → List (ℚ × Nat)) ∧
    (1 : Int) ≤ 5 ∧
    (∃ p ∈ (textTestDatabase : VectorDatabase ℚ).patches,
      containsQuery "lead".toList p = true) ∧
    ∃ first, (findSimilarByText insertionSortDescending (textTestDatabase : VectorDatabase ℚ)
        "lead".toList 5).head? = some first ∧ containsQuery "lead".toList first = true :=
  have h : ∃ p ∈ (textTestDatabase : VectorDatabase ℚ).patches,
      containsQuery "lead".toList p = true :=
    ⟨namedPatch "Bright Lead" [8 / 10, 9 / 10, 7 / 10], by simp [textTestDatabase], by decide⟩
  ⟨insertionSortDescending_isDescendingSort, by decide, h,
    (findSimilarByText_whole_query_first insertionSortDescending textTestDatabase "lead".toList 5
      insertionSortDescending_isDescendingSort).2 (by decide) h⟩

end Surge.PatchDB

namespace Surge.Claude

/-! ## The enhanced prompt -/

open Surge.PatchDB

theorem strLt_irrefl (a : Str) : strLt a a = false := by
  induction a with
  | nil => rfl
  | cons x s ih => simp [strLt, ih]

/-- Two strings neither of which is less than the other are equal. -/
theorem strLt_trichotomy (a b : Str) (h1 : strLt a b = false) (h2 : strLt b a = false) :
    a = b := by
  induction a generalizing b with
  | nil =>
    cases b with
    | nil => rfl
    | cons y t => simp [strLt] at h1
  | cons x s ih =>
    cases b with
    | nil => simp [strLt] at h2
    | cons y t =>
      simp only [strLt, Bool.or_eq_false_iff, decide_eq_false_iff_not, Bool.and_eq_false_iff,
        beq_eq_false_iff_ne, ne_eq] at h1 h2
      have hxy : x = y := le_antisymm (not_lt.1 h2.1) (not_lt.1 h1.1)
      subst hxy
      have e1 : strLt s t = false := by
        rcases h1.2 with h | h
        · exact absurd rfl h
        · exact h
      have e2 : strLt t s = false := by
        rcases h2.2 with h | h
        · exact absurd rfl h
        · exact h
      rw [ih t e1 e2]

theorem strLt_asymm (a b : Str) (h : strLt a b = true) : strLt b a = false := by
  induction a generalizing b with
  | nil =>
    cases b with
    | nil => rfl
    | cons y t => rfl
  | cons x s ih =>
    cases b with
    | nil => simp [strLt] at h
    | cons y t =>
      simp only [strLt, Bool.or_eq_true, decide_eq_true_eq, Bool.and_eq_true, beq_iff_eq] at h
      simp only [strLt, Bool.or_eq_false_iff, decide_eq_false_iff_not, Bool.and_eq_false_iff,
        beq_eq_false_iff_ne, ne_eq]
      rcases h with h | ⟨rfl, h⟩
      · exact ⟨not_lt.2 h.le, Or.inl (ne_of_gt h)⟩
      · exact ⟨lt_irrefl _, Or.inr (ih t h)⟩

theorem strLt_negtrans (a b c : Str) (h : strLt c a = true) :
    strLt b a = true ∨ strLt c b = true := by
  induction a generalizing b c with
  | nil => cases c <;> simp [strLt] at h
  | cons x s ih =>
    cases b with
    | nil => left; rfl
    | cons y t =>
      cases c with
      | nil => right; rfl
      | cons z u =>
        simp only [strLt, Bool.or_eq_true, decide_eq_true_eq, Bool.and_eq_true, beq_iff_eq]
          at h ⊢
        rcases lt_trichotomy y x with hyx | hyx | hyx
        · exact Or.inl (Or.inl hyx)
        · subst hyx
          rcases h with h | ⟨rfl, h⟩
          · exact Or.inr (Or.inl h)
          · rcases ih t u h with h1 | h1
            · exact Or.inl (Or.inr ⟨rfl, h1⟩)
            · exact Or.inr (Or.inr ⟨rfl, h1⟩)
        · rcases h with h | ⟨rfl, _⟩
          · exact Or.inr (Or.inl (lt_trans h hyx))
          · exact Or.inr (Or.inl hyx)

theorem insertionSortByName_isNameSort {K : Type} :
    IsNameSort (insertionSortByName : List (PatchVector K) → List (PatchVector K)) := by
  intro l
  haveI : IsTotal (PatchVector K) (fun a b => strLt b.name a.name = false) :=
    ⟨fun a b => by
      cases h : strLt b.name a.name with
      | false => exact Or.inl rfl
      | true => exact Or.inr (strLt_asymm _ _ h)⟩
  haveI : IsTrans (PatchVector K) (fun a b => strLt b.name a.name = false) :=
    ⟨fun a b c hab hbc => by
      cases h : strLt c.name a.name with
      | false => rfl
      | true =>
        rcases strLt_negtrans a.name b.name c.name h with h1 | h1
        · rw [h1] at hab; cases hab
        · rw [h1] at hbc; cases hbc⟩
  exact ⟨List.perm_insertionSort _ l, List.sorted_insertionSort _ l⟩

/-- After `std::unique` on patches sorted by name no name is left twice. -/
theorem uniqueLoop_spec {K : Type} (ps : List (PatchVector K)) :
    ∀ kept : PatchVector K,
      ps.Pairwise (fun a b => strLt b.name a.name = false) →
      (∀ p ∈ ps, strLt p.name kept.name = false) →
      ((uniqueLoop kept ps).map (fun p => p.name)).Nodup ∧
        (∀ y ∈ uniqueLoop kept ps, y.name ≠ kept.name) ∧
        (uniqueLoop kept ps).Sublist ps := by
  induction ps with
  | nil => intro kept _ _; simp [uniqueLoop]
  | cons p ps ih =>
    intro kept hs hk
    obtain ⟨hp, hrest⟩ := List.pairwise_cons.1 hs
    rw [uniqueLoop]
    by_cases he : kept.name = p.name
    · rw [if_pos he]
      obtain ⟨h1, h2, h3⟩ := ih kept hrest (fun q hq => hk q (List.mem_cons_of_mem _ hq))
      exact ⟨h1, h2, h3.cons _⟩
    · rw [if_neg he]
      obtain ⟨h1, h2, h3⟩ := ih p hrest hp
      have hlt : strLt kept.name p.name = true := by
        cases h : strLt kept.name p.name with
        | true => rfl
        | false =>
          exact absurd (strLt_trichotomy _ _ h (hk p (List.mem_cons_self _ _))) he
      refine ⟨?_, ?_, h3.cons₂ _⟩
      · rw [List.map_cons, List.nodup_cons]
        refine ⟨?_, h1⟩
        intro hmem
        obtain ⟨y, hy, hyn⟩ := List.mem_map.1 hmem
        exact h2 y hy hyn
      · intro y hy hyk
        rcases List.mem_cons.1 hy with rfl | hy
        · exact he hyk.symm
        · have := hp y (h3.subset hy)
          rw [hyk, hlt] at this
          cases this

theorem uniqueByName_spec {K : Type} (l : List (PatchVector K))
    (hs : l.Pairwise (fun a b => strLt b.name a.name = false)) :
    ((uniqueByName l).map (fun p => p.name)).Nodup ∧ (uniqueByName l).Sublist l ∧
      (l ≠ [] → uniqueByName l ≠ []) := by
  cases l with
  | nil => simp [uniqueByName]
  | cons p ps =>
    obtain ⟨hp, hrest⟩ := List.pairwise_cons.1 hs
    obtain ⟨h1, h2, h3⟩ := uniqueLoop_spec ps p hrest hp
    rw [uniqueByName]
    refine ⟨?_, h3.cons₂ _, fun _ => List.cons_ne_nil _ _⟩
    rw [List.map_cons, List.nodup_cons]
    refine ⟨?_, h1⟩
    intro hmem
    obtain ⟨y, hy, hyn⟩ := List.mem_map.1 hmem
    exact h2 y hy hyn

section Prompt

variable {K : Type} [LinearOrderedField K]

theorem gatherSimilarPatches_mem (sort : List (K × Nat) → List (K × Nat))
    (hsort : IsDescendingSort sort) (db : VectorDatabase K) (userPrompt : Str)
    (p : PatchVector K) (hp : p ∈ gatherSimilarPatches sort db userPrompt) :
    p ∈ db.patches ∧ ∃ term ∈ extractSearchTerms userPrompt, nameMatches term p = true := by
  rw [gatherSimilarPatches, List.mem_flatten] at hp
  obtain ⟨l, hl, hpl⟩ := hp
  obtain ⟨term, hterm, rfl⟩ := List.mem_map.1 hl
  obtain ⟨h1, h2⟩ := findSimilarByText_mem sort db term 3 hsort p hpl
  exact ⟨h1, term, hterm, h2⟩

theorem gatherSimilarPatches_ne_nil (sort : List (K × Nat) → List (K × Nat))
    (hsort : IsDescendingSort sort) (db : VectorDatabase K) (userPrompt : Str)
    (h : ∃ term ∈ extractSearchTerms userPrompt, ∃ p ∈ db.patches,
      nameMatches term p = true) :
    gatherSimilarPatches sort db userPrompt ≠ [] := by
  obtain ⟨term, hterm, p, hp, hm⟩ := h
  have hne := findSimilarByText_ne_nil sort db term 3 hsort (by norm_num) p hp hm
  obtain ⟨q, hq⟩ := List.exists_mem_of_ne_nil _ hne
  intro hnil
  have : q ∈ gatherSimilarPatches sort db userPrompt := by
    rw [gatherSimilarPatches, List.mem_flatten]
    exact ⟨_, List.mem_map.2 ⟨term, hterm, rfl⟩, hq⟩
  rw [hnil] at this
  cases this

/-- The reference patches: at most five, no name twice, all gathered, and some as soon as a
patch is gathered. -/
theorem referencePatches_spec (sort : List (K × Nat) → List (K × Nat))
    (sortByName : List (PatchVector K) → List (PatchVector K)) (hnames : IsNameSort sortByName)
    (db : VectorDatabase K) (userPrompt : Str) :
    (referencePatches sort sortByName db userPrompt).length ≤ 5 ∧
    ((referencePatches sort sortByName db userPrompt).map (fun p => p.name)).Nodup ∧
    (∀ r ∈ referencePatches sort sortByName db userPrompt,
      r ∈ gatherSimilarPatches sort db userPrompt) ∧
    (gatherSimilarPatches sort db userPrompt ≠ [] →
      referencePatches sort sortByName db userPrompt ≠ []) := by
  obtain ⟨hperm, hsorted⟩ := hnames (gatherSimilarPatches sort db userPrompt)
  obtain ⟨hnd, hsub, hne⟩ := uniqueByName_spec _ hsorted
  have hcases : (referencePatches sort sortByName db userPrompt).Sublist
      (uniqueByName (sortByName (gatherSimilarPatches sort db userPrompt))) := by
    rw [referencePatches]
    split
    · exact List.take_sublist _ _
    · exact List.Sublist.refl _
  refine ⟨?_, (hnd.sublist (hcases.map _)), ?_, ?_⟩
  · rw [referencePatches]
    split
    · rw [List.length_take]; exact min_le_left _ _
    · omega
  · intro r hr
    exact hperm.mem_iff.1 (hsub.subset (hcases.subset hr))
  · intro hg
    have h1 : sortByName (gatherSimilarPatches sort db userPrompt) ≠ [] := by
      intro h
      rw [h] at hperm
      exact hg hperm.nil_eq.symm
    have h2 := hne h1
    rw [referencePatches]
    split
    · next hlen =>
      intro h
      have := congrArg List.length h
      rw [List.length_take] at this
      simp only [List.length_nil] at this
      omega
    · exact h2

/-- Claim C24: for every user prompt `p`, `generateEnhancedPrompt(p)` begins with `p`; it is
`p` when no vector database is set, and when no patch of the database matches any search term;
otherwise it is `p`, an empty line, the introducing sentence, the lines of a non-empty list of
at most 5 patches of the database no two of which have the same name, and the closing
sentence. -/
theorem generateEnhancedPrompt_references (sort : List (K × Nat) → List (K × Nat))
    (sortByName : List (PatchVector K) → List (PatchVector K))
    (hsort : IsDescendingSort sort) (hnames : IsNameSort sortByName)
    (vectorDatabase : Option (VectorDatabase K)) (userPrompt : Str) :
    userPrompt <+: generateEnhancedPrompt sort sortByName vectorDatabase userPrompt ∧
    (vectorDatabase = none →
      generateEnhancedPrompt sort sortByName vectorDatabase userPrompt = userPrompt) ∧
    (∀ db, vectorDatabase = some db →
      (∀ term ∈ extractSearchTerms userPrompt, ∀ p ∈ db.patches,
        nameMatches term p = false) →
      generateEnhancedPrompt sort sortByName vectorDatabase userPrompt = userPrompt) ∧
    (∀ db, vectorDatabase = some db →
      (∃ term ∈ extractSearchTerms userPrompt, ∃ p ∈ db.patches,
        nameMatches term p = true) →
      ∃ refs : List (PatchVector K), refs ≠ [] ∧ refs.length ≤ 5 ∧
        (refs.map (fun p => p.name)).Nodup ∧ (∀ r ∈ refs, r ∈ db.patches) ∧
        generateEnhancedPrompt sort sortByName vectorDatabase userPrompt =
          userPrompt ++ "\n\n".toList ++ referenceHeader ++ formatSimilarPatches refs ++
            referenceFooter) := by
  refine ⟨?_, ?_, ?_, ?_⟩
  · cases vectorDatabase with
    | none => exact List.prefix_refl _
    | some db =>
      rw [generateEnhancedPrompt]
      split
      · exact List.prefix_refl _
      · simp only [List.append_assoc]
        exact List.prefix_append _ _
  · rintro rfl
    rfl
  · rintro db rfl hno
    have hg : gatherSimilarPatches sort db userPrompt = [] := by
      rw [List.eq_nil_iff_forall_not_mem]
      intro p hp
      obtain ⟨h1, term, hterm, h2⟩ := gatherSimilarPatches_mem sort hsort db userPrompt p hp
      rw [hno term hterm p h1] at h2
      cases h2
    have hr : referencePatches sort sortByName db userPrompt = [] := by
      rw [List.eq_nil_iff_forall_not_mem]
      intro r hr
      have := (referencePatches_spec sort sortByName hnames db userPrompt).2.2.1 r hr
      rw [hg] at this
      cases this
    rw [generateEnhancedPrompt, hr]
    rfl
  · rintro db rfl hyes
    obtain ⟨h1, h2, h3, h4⟩ := referencePatches_spec sort sortByName hnames db userPrompt
    have hne := h4 (gatherSimilarPatches_ne_nil sort hsort db userPrompt hyes)
    refine ⟨referencePatches sort sortByName db userPrompt, hne, h1, h2, ?_, ?_⟩
    · intro r hr
      exact (gatherSimilarPatches_mem sort hsort db userPrompt r (h3 r hr)).1
    · rw [generateEnhancedPrompt]
      exact if_neg (by simpa using hne)

end Prompt

theorem generateEnhancedPrompt_references_witness :
    IsDescendingSort (insertionSortDescending : List (ℚ × Nat) → List (ℚ × Nat)) ∧
    IsNameSort (insertionSortByName : List (PatchVector ℚ) → List (PatchVector ℚ)) ∧
    "a deep bass".toList <+: generateEnhancedPrompt insertionSortDescending
      insertionSortByName (some (textTestDatabase : VectorDatabase ℚ)) "a deep bass".toList :=
  ⟨insertionSortDescending_isDescendingSort, insertionSortByName_isNameSort,
    (generateEnhancedPrompt_references insertionSortDescending insertionSortByName
      insertionSortDescending_isDescendingSort insertionSortByName_isNameSort
      (some (textTestDatabase : VectorDatabase ℚ)) "a deep bass".toList).1⟩

end Surge.Claude

namespace Surge.PatchDB

open Surge.Claude

/-! ## The words of a query -/

theorem nil_of_boundary_left (pre : Str) (hfree : ∀ c ∈ pre, isSpace c = false)
    (h : ∀ c, pre.getLast? = some c → isSpace c = true) : pre = [] := by
  rcases List.eq_nil_or_concat pre with rfl | ⟨l, c, rfl⟩
  · rfl
  · have h1 := h c (by simp)
    have h2 := hfree c (by simp)
    rw [h1] at h2
    cases h2

theorem nil_of_boundary_right (post : Str) (hfree : ∀ c ∈ post, isSpace c = false)
    (h : ∀ c, post.head? = some c → isSpace c = true) : post = [] := by
  cases post with
  | nil => rfl
  | cons c t =>
    have h1 := h c rfl
    have h2 := hfree c (List.mem_cons_self _ _)
    rw [h1] at h2
    cases h2

/-- A word of a text that begins with a run without white space and a white space character is
that run or a word of the rest. -/
theorem isWordOf_space (acc s w : Str) (c : Char) (hacc : ∀ x ∈ acc, isSpace x = false)
    (hc : isSpace c = true) :
    IsWordOf w (acc ++ c :: s) ↔ (acc ≠ [] ∧ w = acc) ∨ IsWordOf w s := by
  constructor
  · rintro ⟨hw, hfree, pre, post, heq, hpre, hpost⟩
    rw [List.append_assoc] at heq
    rcases List.append_eq_append_iff.1 heq with ⟨a, h1, h2⟩ | ⟨a, h1, h2⟩
    · -- `pre = acc ++ a`
      cases a with
      | nil =>
        exfalso
        simp only [List.nil_append] at h2
        cases w with
        | nil => exact hw rfl
        | cons x w =>
          rw [List.cons_append] at h2
          have hx : c = x := (List.cons.inj h2).1
          have := hfree x (List.mem_cons_self _ _)
          rw [← hx, hc] at this
          cases this
      | cons d a =>
        right
        rw [List.cons_append] at h2
        obtain ⟨-, h3⟩ := List.cons.inj h2
        refine ⟨hw, hfree, a, post, by rw [h3, List.append_assoc], ?_, hpost⟩
        intro x hx
        apply hpre x
        rw [h1]
        cases a with
        | nil => cases hx
        | cons y a =>
          rw [List.getLast?_append_of_ne_nil _ (List.cons_ne_nil _ _)]
          rw [List.getLast?_cons_cons]
          exact hx
    · -- `acc = pre ++ a`
      left
      have hpre0 : pre = [] := by
        apply nil_of_boundary_left pre _ hpre
        intro x hx
        exact hacc x (by rw [h1]; exact List.mem_append_left _ hx)
      subst hpre0
      simp only [List.nil_append] at h1
      subst h1
      rcases List.append_eq_append_iff.1 h2 with ⟨b, h3, h4⟩ | ⟨b, h3, h4⟩
      · -- `acc = w ++ b`
        cases b with
        | nil =>
          simp only [List.append_nil] at h3
          exact ⟨by rw [h3]; exact hw, h3.symm⟩
        | cons d b =>
          exfalso
          have h5 := hpost d (by rw [h4]; rfl)
          have := hacc d (by rw [h3]; simp)
          rw [h5] at this
          cases this
      · -- `w = acc ++ b`
        cases b with
        | nil =>
          simp only [List.append_nil] at h3
          exact ⟨by rw [← h3]; exact hw, h3⟩
        | cons d b =>
          exfalso
          rw [List.cons_append] at h4
          have hd : c = d := (List.cons.inj h4).1
          have := hfree d (by rw [h3]; simp)
          rw [← hd, hc] at this
          cases this
  · rintro (⟨hne, rfl⟩ | ⟨hw, hfree, pre, post, heq, hpre, hpost⟩)
    · refine ⟨hne, hacc, [], c :: s, by simp, ?_, ?_⟩
      · intro x hx; cases hx
      · intro x hx
        simp only [List.head?_cons, Option.some.injEq] at hx
        rw [← hx]; exact hc
    · refine ⟨hw, hfree, acc ++ c :: pre, post, by rw [heq]; simp, ?_, hpost⟩
      intro x hx
      rw [List.getLast?_append_of_ne_nil _ (List.cons_ne_nil _ _)] at hx
      cases pre with
      | nil =>
        simp only [List.getLast?_singleton, Option.some.injEq] at hx
        rw [← hx]; exact hc
      | cons y pre =>
        rw [List.getLast?_cons_cons] at hx
        exact hpre x hx

/-- The words the loop `iss >> word` reads are the white space separated words of the text;
`acc` is the word being read. -/
theorem mem_wordsLoop_iff (s : Str) : ∀ (acc : Str), (∀ x ∈ acc, isSpace x = false) →
    ∀ w, w ∈ wordsLoop acc s ↔ IsWordOf w (acc ++ s) := by
  induction s with
  | nil =>
    intro acc hacc w
    rw [wordsLoop, List.append_nil]
    cases acc with
    | nil =>
      simp only [List.isEmpty_nil, if_true, List.not_mem_nil, false_iff]
      rintro ⟨hw, -, pre, post, heq, -, -⟩
      have := congrArg List.length heq
      simp only [List.length_nil, List.length_append] at this
      exact hw (List.length_eq_zero.1 (by omega))
    | cons a acc =>
      simp only [List.isEmpty_cons, Bool.false_eq_true, if_false, List.mem_singleton]
      constructor
      · rintro rfl
        refine ⟨List.cons_ne_nil _ _, hacc, [], [], by simp, ?_, ?_⟩ <;>
          intro x hx <;> cases hx
      · rintro ⟨hw, hfree, pre, post, heq, hpre, hpost⟩
        have hpre0 : pre = [] := nil_of_boundary_left pre
          (fun x hx => hacc x (by rw [heq]; simp [hx])) hpre
        have hpost0 : post = [] := nil_of_boundary_right post
          (fun x hx => hacc x (by rw [heq]; simp [hx])) hpost
        rw [heq, hpre0, hpost0]
        simp
  | cons c s ih =>
    intro acc hacc w
    rw [wordsLoop]
    by_cases hc : isSpace c = true
    · rw [if_pos hc, isWordOf_space acc s w c hacc hc]
      have ih0 := ih [] (by simp) w
      simp only [List.nil_append] at ih0
      cases acc with
      | nil =>
        simp only [List.isEmpty_nil, if_true, ih0]
        constructor
        · exact Or.inr
        · rintro (⟨h, -⟩ | h)
          · exact absurd rfl h
          · exact h
      | cons a acc =>
        simp only [List.isEmpty_cons, Bool.false_eq_true, if_false, List.mem_cons, ih0]
        constructor
        · rintro (h | h)
          · exact Or.inl ⟨List.cons_ne_nil _ _, h⟩
          · exact Or.inr h
        · rintro (⟨-, h⟩ | h)
          · exact Or.inl h
          · exact Or.inr h
    · rw [if_neg hc]
      have := ih (acc ++ [c]) (by
        intro x hx
        rcases List.mem_append.1 hx with h | h
        · exact hacc x h
        · rw [List.mem_singleton.1 h]; simpa using hc) w
      simpa using this

theorem mem_words_iff (s w : Str) : w ∈ words s ↔ IsWordOf w s := by
  have := mem_wordsLoop_iff s [] (by simp) w
  simpa [words] using this

/-- The test of `findSimilarByText`, stated without its functions. -/
theorem nameMatches_iff {K : Type} (query : Str) (p : PatchVector K) :
    nameMatches query p = true ↔ MatchesQuery query p := by
  simp only [nameMatches, MatchesQuery, Bool.or_eq_true, List.any_eq_true, contains_iff,
    or_assoc]
  constructor
  · rintro (h | h | ⟨w, hw, h⟩)
    · exact Or.inl h
    · exact Or.inr (Or.inl h)
    · exact Or.inr (Or.inr ⟨w, (mem_words_iff _ w).1 hw, h⟩)
  · rintro (h | h | ⟨w, hw, h⟩)
    · exact Or.inl h
    · exact Or.inr (Or.inl h)
    · exact Or.inr (Or.inr ⟨w, (mem_words_iff _ w).2 hw, h⟩)


section Field

variable {K : Type} [LinearOrderedField K]

/-- Claim C13: whatever order `std::sort` gives pairs of equal score, `findSimilarByText`
returns a patch only if its name, compared without regard to letter case, contains the query,
is contained in the query, or contains one of the white space separated words of the query
(`MatchesQuery`, which is stated with sublists and `IsWordOf`, not with the functions of the
search); the test `nameMatches` holds for exactly these patches; and when `topK` is at least
their number, the result holds every one of them: it is a rearrangement of the patches of the
database with such a name. -/
theorem findSimilarByText_matches (sort : List (K × Nat) → List (K × Nat))
    (db : VectorDatabase K) (description : Str) (topK : Int) (hsort : IsDescendingSort sort) :
    (∀ p ∈ findSimilarByText sort db description topK, MatchesQuery description p) ∧
    (∀ p : PatchVector K, nameMatches description p = true ↔ MatchesQuery description p) ∧
    (((db.patches.filter (nameMatches description)).length : Int) ≤ topK →
      (findSimilarByText sort db description topK).Perm
        (db.patches.filter (nameMatches description))) := by
  set score : PatchVector K → K :=
    fun p => textScore (toLower description) (toLower p.name) with hscore
  set keep : K → Bool := fun s => decide (s > 0) with hkeep
  set pairs := scorePairs score keep 0 db.patches with hpairs
  obtain ⟨hperm, -⟩ := hsort pairs
  have hkeep_eq : (fun p => keep (score p)) = nameMatches description := by
    funext p
    exact textScore_pos description p
  have hall : pairs.filterMap (fun pair => db.patches[pair.2]?) =
      db.patches.filter (nameMatches description) := by
    have := scorePairs_filterMap score keep [] db.patches
    simp only [List.length_nil, List.nil_append] at this
    rw [hpairs, this, hkeep_eq]
  have hlenP : pairs.length = (db.patches.filter (nameMatches description)).length := by
    rw [← hall, filterMap_length_of_isSome]
    intro pair hp
    obtain ⟨j, p, h1, h2, -⟩ := (scorePairs_mem score keep 0 db.patches pair).1 hp
    rw [h2]
    simp only [Nat.zero_add, h1]
    rfl
  have hlenS : (sort pairs).length < 2 ^ 31 := by
    rw [hperm.length_eq, hlenP]
    exact lt_of_le_of_lt (List.length_filter_le _ _) db.fits
  have hres : findSimilarByText sort db description topK =
      ((sort pairs).take (min topK.toNat (sort pairs).length)).filterMap
        (fun pair => db.patches[pair.2]?) := by
    rw [findSimilarByText, topResults_eq _ _ _ hlenS]
  refine ⟨?_, fun p => nameMatches_iff description p, ?_⟩
  · intro p hp
    rw [← nameMatches_iff]
    rw [hres] at hp
    obtain ⟨pair, hpair, hget⟩ := List.mem_filterMap.1 hp
    have hin : p ∈ pairs.filterMap (fun pair => db.patches[pair.2]?) :=
      List.mem_filterMap.2 ⟨pair, hperm.mem_iff.1 (List.mem_of_mem_take hpair), hget⟩
    rw [hall] at hin
    simpa using (List.mem_filter.1 hin).2
  · intro hk
    have htake : min topK.toNat (sort pairs).length = (sort pairs).length := by
      have : (sort pairs).length = (db.patches.filter (nameMatches description)).length := by
        rw [hperm.length_eq, hlenP]
      omega
    rw [hres, htake, List.take_length, ← hall]
    exact hperm.filterMap _

end Field

theorem findSimilarByText_matches_witness :
    IsDescendingSort (insertionSortDescending : List (ℚ × Nat) → List (ℚ × Nat)) ∧
    (((textTestDatabase : VectorDatabase ℚ).patches.filter
        (nameMatches "deep bass".toList)).length : Int) ≤ 5 ∧
    (findSimilarByText insertionSortDescending (textTestDatabase : VectorDatabase ℚ)
        "deep bass".toList 5).Perm
      [namedPatch "Deep Bass" [1 / 10, 2 / 10, 3 / 10],
        namedPatch "Smooth Bass" [2 / 10, 3 / 10, 4 / 10]] ∧
    MatchesQuery "deep bass".toList
      (namedPatch "Smooth Bass" [2 / 10, 3 / 10, 4 / 10] : PatchVector ℚ) ∧
    ¬ MatchesQuery "deep bass".toList
      (namedPatch "Bright Lead" [8 / 10, 9 / 10, 7 / 10] : PatchVector ℚ) :=
  have h : (((textTestDatabase : VectorDatabase ℚ).patches.filter
      (nameMatches "deep bass".toList)).length : Int) ≤ 5 := by decide
  ⟨insertionSortDescending_isDescendingSort, h,
    ((findSimilarByText_matches insertionSortDescending textTestDatabase "deep bass".toList 5
      insertionSortDescending_isDescendingSort).2.2 h).trans (List.Perm.of_eq (by rfl)),
    ((findSimilarByText_matches insertionSortDescending
      (textTestDatabase : VectorDatabase ℚ) "deep bass".toList 5
      insertionSortDescending_isDescendingSort).2.1 _).1 (by decide),
    fun hm => absurd (((findSimilarByText_matches insertionSortDescending
      (textTestDatabase : VectorDatabase ℚ) "deep bass".toList 5
      insertionSortDescending_isDescendingSort).2.1 _).2 hm) (by decide)⟩

end Surge.PatchDB

namespace Surge.Claude

end Surge.Claude
